import Mathlib

/-!
# Trip and expense aggregation of the travel dashboard (`logic.js`)

A shallow embedding of the manager classes of `logic.js` and the properties
their specification states about them.

Conventions of the embedding:

* JavaScript numbers are rationals (`ℚ`); a numeric field that the code
  guards with `|| 0` is an `Option ℚ`, `none` standing for a field that is
  missing or not a number. Where a property compares sums taken in different
  orders (`calculateTripSpending`, `getCategoryData`, `getDailyData`,
  `getTotalByCategoryWith`) the addition of two numbers is a parameter `add`,
  and `binary64Add` is the rounding addition of the engine; elsewhere sums
  are exact.
* Firestore timestamps are their `seconds` field; `new Date(seconds * 1000)`
  is the integer number of milliseconds, and the clock reading `new Date()` is
  a parameter `now` (milliseconds), one reading per call.
* `String.prototype.toLowerCase` is a parameter `toLowerCase`; so are the date
  parser of `new Date(text)` (`parseDate`) and the locale formatting of a day
  (`day`).
* A method of a class takes the instance as its first explicit argument.
* A method that awaits the remote store takes the outcomes of the store calls
  (`DataStore`) and returns its result, `Except.error` for a rejected promise,
  with the state of the manager afterwards.
-/

namespace PaiTeaw

/-! ## Data model -/

/-- Firestore timestamp: only the `seconds` field is read by `logic.js`. -/
structure Timestamp where
  seconds : Int
deriving DecidableEq, Repr

/-- Trip document of the `trips` collection, with the fields `logic.js` reads. -/
structure Trip where
  id : String
  name : String
  destination : String
  startDate : Timestamp
  endDate : Timestamp
  budget : Option ℚ
  spent : Option ℚ
deriving DecidableEq, Repr

/-- Expense document of the `expenses` collection. -/
structure Expense where
  id : String
  tripId : String
  category : String
  amount : ℚ
  date : Timestamp
deriving DecidableEq, Repr

/-- State of a `TripManager` instance: the held trips (`this.trips`). -/
structure TripManager where
  trips : List Trip
deriving DecidableEq, Repr

/-- State of an `ExpenseManager` instance: the held expenses (`this.expenses`). -/
structure ExpenseManager where
  expenses : List Expense
deriving DecidableEq, Repr

/-- State of an `AnalyticsManager` instance: the expense snapshot it was given. -/
structure AnalyticsManager where
  expenses : List Expense
deriving DecidableEq, Repr

/-! ## JavaScript primitives used by the managers -/

/-- The expression `v || 0` for a numeric field `v` that may be missing:
a missing field, `NaN` and `0` are falsy and give `0`. -/
def orZero (v : Option ℚ) : ℚ :=
  match v with
  | some q => if q = 0 then 0 else q
  | none => 0

/-- The method `s.includes(q)`: `q` occurs in `s` starting at some position. -/
def includes (s q : String) : Bool :=
  s.data.tails.any fun rest => q.data.isPrefixOf rest

/-- Time value of `new Date(ts.seconds * 1000)`, in milliseconds. -/
def Timestamp.toMillis (ts : Timestamp) : Int :=
  ts.seconds * 1000

/-- An instance of `toLowerCase` for ASCII text, used to evaluate the methods
on concrete inputs. -/
def asciiToLowerCase (s : String) : String :=
  ⟨s.data.map Char.toLower⟩

/-! ## TripManager -/

/-- The local `tripStatus` computed for one trip in `getFilteredTrips`
(and again in `getTripsByStatus`). -/
def tripStatus (now : Int) (trip : Trip) : String :=
  let endDate := trip.endDate.toMillis
  if endDate < now then "completed"
  else if trip.startDate.toMillis ≤ now then "ongoing"
  else "planning"

/-- The method `TripManager.getFilteredTrips(searchQuery, status)`. -/
def TripManager.getFilteredTrips (self : TripManager) (toLowerCase : String → String)
    (now : Int) (searchQuery : String) (status : String) : List Trip :=
  self.trips.filter fun trip =>
    let matchSearch :=
      includes (toLowerCase trip.name) (toLowerCase searchQuery) ||
      includes (toLowerCase trip.destination) (toLowerCase searchQuery)
    matchSearch && (status == "" || tripStatus now trip == status)

/-- Result record of `TripManager.calculateStats`. -/
structure Stats where
  totalTrips : Nat
  totalExpenses : ℚ
  activeTrips : Nat
  remainingBudget : ℚ
deriving DecidableEq, Repr

/-- Loop state of `calculateStats`: the three accumulators of the `forEach`. -/
structure StatsAcc where
  totalBudget : ℚ
  totalExpenses : ℚ
  activeTrips : Nat
deriving DecidableEq, Repr

/-- One iteration of the `forEach` body of `calculateStats`. -/
def statsStep (now : Int) (acc : StatsAcc) (trip : Trip) : StatsAcc :=
  let endDate := trip.endDate.toMillis
  { activeTrips := if endDate > now then acc.activeTrips + 1 else acc.activeTrips
    totalBudget := acc.totalBudget + orZero trip.budget
    totalExpenses := acc.totalExpenses + orZero trip.spent }

/-- The method `TripManager.calculateStats()`. -/
def TripManager.calculateStats (self : TripManager) (now : Int) : Stats :=
  let acc := self.trips.foldl (statsStep now) ⟨0, 0, 0⟩
  { totalTrips := self.trips.length
    totalExpenses := acc.totalExpenses
    activeTrips := acc.activeTrips
    remainingBudget := max 0 (acc.totalBudget - acc.totalExpenses) }

/-! ## Plain objects used as dictionaries

`getTotalByCategory` collects its totals in an object created by the literal
`{}`. Such an object inherits the members of `Object.prototype`, and
`Object.keys` lists its array-index keys first. -/

/-- What a property of the totals object can hold: a number, or the string
obtained by concatenating the primitive value of the inherited member
`member` of `Object.prototype` with the renderings of the numbers `appended`
(a non-empty string, hence truthy). -/
inductive JSValue where
  | number (q : ℚ)
  | text (member : String) (appended : List ℚ)
deriving DecidableEq, Repr

/-- An object created by `{}`: its own properties in creation order. -/
abbrev JSObject := List (String × JSValue)

/-- The property names every plain object inherits from `Object.prototype`. -/
def objectPrototypeKeys : List String :=
  ["constructor", "__defineGetter__", "__defineSetter__", "hasOwnProperty",
    "__lookupGetter__", "__lookupSetter__", "isPrototypeOf", "propertyIsEnumerable",
    "toString", "valueOf", "__proto__", "toLocaleString"]

/-- Own-property lookup: the value stored under `key`, if the object has it. -/
def JSObject.getOwn (o : JSObject) (key : String) : Option JSValue :=
  match o with
  | [] => none
  | (k, v) :: rest => if k = key then some v else JSObject.getOwn rest key

/-- The expression `(o[key] || 0) + amount`: an own number is added to, a
missing property counts as `0`, and a string or an inherited member (both
truthy) makes `+` a string concatenation. -/
def addToProperty (o : JSObject) (key : String) (amount : ℚ) : JSValue :=
  match o.getOwn key with
  | some (JSValue.number q) => JSValue.number ((if q = 0 then 0 else q) + amount)
  | some (JSValue.text member appended) => JSValue.text member (appended ++ [amount])
  | none =>
    if key ∈ objectPrototypeKeys then JSValue.text key [amount]
    else JSValue.number (0 + amount)

/-- The assignment `o[key] = v` for a primitive `v`: an existing own property
keeps its place, a new one is created last, and `__proto__` is the inherited
setter, which ignores a value that is not an object. -/
def JSObject.set (o : JSObject) (key : String) (v : JSValue) : JSObject :=
  if key = "__proto__" then o
  else if o.any (fun p => p.1 == key) then o.map fun p => if p.1 = key then (p.1, v) else p
  else o ++ [(key, v)]

/-- Numeric value of a string of decimal digits. -/
def digitsValue (cs : List Char) : Nat :=
  cs.foldl (fun n c => 10 * n + (c.toNat - 48)) 0

/-- Whether a property name is an array index: the canonical decimal form of
an integer below `2^32 - 1`. -/
def isArrayIndex (key : String) : Bool :=
  let cs := key.data
  !cs.isEmpty && cs.all Char.isDigit && (cs.head? != some '0' || cs.length == 1) &&
    decide (digitsValue cs < 2 ^ 32 - 1)

/-- The call `Object.keys(o)`: the array-index keys in ascending numeric
order, then the other keys in creation order. -/
def JSObject.keys (o : JSObject) : List String :=
  let own := o.map Prod.fst
  (own.filter isArrayIndex).insertionSort
      (fun a b => digitsValue a.data ≤ digitsValue b.data) ++
    own.filter fun k => !isArrayIndex k

/-- The call `list.sort(compare)`: the sort is stable, and for a consistent
`compare` its result is the one stable insertion produces. -/
def jsSort {α : Type} (compare : α → α → ℚ) (l : List α) : List α :=
  l.insertionSort fun a b => compare a b ≤ 0

/-! ## ExpenseManager -/

/-- The method `ExpenseManager.getExpensesByTrip(tripId)`. -/
def ExpenseManager.getExpensesByTrip (self : ExpenseManager) (tripId : String) : List Expense :=
  self.expenses.filter fun e => e.tripId == tripId

/-- The body of the `forEach` in `getTotalByCategory`:
`categoryData[exp.category] = (categoryData[exp.category] || 0) + exp.amount`. -/
def categoryStep (categoryData : JSObject) (exp : Expense) : JSObject :=
  categoryData.set exp.category (addToProperty categoryData exp.category exp.amount)

/-- The method `ExpenseManager.getTotalByCategory(tripId)`. -/
def ExpenseManager.getTotalByCategory (self : ExpenseManager) (tripId : String) : JSObject :=
  let expenses := self.getExpensesByTrip tripId
  expenses.foldl categoryStep []

/-! ## Addition of numbers

The operator `+` on two numbers is the binary64 addition of the engine, which
rounds the exact sum. The methods below whose result is compared across
different orders of summation take that addition as the parameter `add`;
`binary64Add` is the addition for sums within the range of the normal
binary64 numbers. -/

/-- The power `2 ^ e` for an integer exponent. -/
def pow2 (e : Int) : ℚ :=
  if 0 ≤ e then (2 : ℚ) ^ e.toNat else 1 / (2 : ℚ) ^ (-e).toNat

/-- The number of binary digits of `n`, counted by halving at most `fuel` times. -/
def binaryDigits : Nat → Nat → Nat
  | 0, _ => 0
  | fuel + 1, n => if n = 0 then 0 else binaryDigits fuel (n / 2) + 1

/-- The binary exponent of a number other than zero: the integer `k` with
`2 ^ k ≤ |q| < 2 ^ (k + 1)`. -/
def binaryExponent (q : ℚ) : Int :=
  let k : Int :=
    (binaryDigits q.num.natAbs q.num.natAbs : Int) - (binaryDigits q.den q.den : Int)
  if |q| < pow2 k then k - 1 else k

/-- Rounding to the nearest integer, a tie going to the even one. -/
def roundHalfEven (x : ℚ) : Int :=
  let f := ⌊x⌋
  let r := x - f
  if r < 1 / 2 then f else if 1 / 2 < r then f + 1 else if f % 2 = 0 then f else f + 1

/-- The binary64 number nearest to `q` (53 significant bits, ties to even),
for a `q` within the range of the normal binary64 numbers; a number literal
such as `0.45` denotes `toBinary64 (45 / 100)`. -/
def toBinary64 (q : ℚ) : ℚ :=
  if q = 0 then 0
  else
    let e := binaryExponent q - 52
    (roundHalfEven (q / pow2 e) : ℚ) * pow2 e

/-- The sum `a + b` of two binary64 numbers as the engine computes it. -/
def binary64Add (a b : ℚ) : ℚ :=
  toBinary64 (a + b)

/-- The expression `(o[key] || 0) + amount` with `add` as the addition of two
numbers. -/
def addToPropertyWith (add : ℚ → ℚ → ℚ) (o : JSObject) (key : String) (amount : ℚ) :
    JSValue :=
  match o.getOwn key with
  | some (JSValue.number q) => JSValue.number (add (if q = 0 then 0 else q) amount)
  | some (JSValue.text member appended) => JSValue.text member (appended ++ [amount])
  | none =>
    if key ∈ objectPrototypeKeys then JSValue.text key [amount]
    else JSValue.number (add 0 amount)

/-- The body of the `forEach` in `getTotalByCategory` with `add` as the
addition of two numbers. -/
def categoryStepWith (add : ℚ → ℚ → ℚ) (categoryData : JSObject) (exp : Expense) : JSObject :=
  categoryData.set exp.category (addToPropertyWith add categoryData exp.category exp.amount)

/-- The method `ExpenseManager.getTotalByCategory(tripId)` with `add` as the
addition of two numbers; with the exact addition it is `getTotalByCategory`. -/
def ExpenseManager.getTotalByCategoryWith (self : ExpenseManager) (add : ℚ → ℚ → ℚ)
    (tripId : String) : JSObject :=
  let expenses := self.getExpensesByTrip tripId
  expenses.foldl (categoryStepWith add) []

/-- The amounts of the expenses of trip `tid` in category `c`, added up from
`0` in list order with the addition `add`. -/
def categoryFold (add : ℚ → ℚ → ℚ) (es : List Expense) (tid c : String) : ℚ :=
  ((es.filter fun e => decide (e.tripId = tid ∧ e.category = c)).map Expense.amount).foldl add 0

/-! ## AnalyticsManager -/

/-- The method `AnalyticsManager.getTopExpenses(tripId, limit)`, `limit` a
non-negative integer (5 when the caller omits it). -/
def AnalyticsManager.getTopExpenses (self : AnalyticsManager) (tripId : String)
    (limit : Nat) : List Expense :=
  ((jsSort (fun a b => b.amount - a.amount)
    (self.expenses.filter fun e => e.tripId == tripId))).take limit

/-- Result record of `AnalyticsManager.getTripSummary`; `remaining` is `none`
when the computed value is not a number. -/
structure TripSummary where
  tripId : String
  tripName : String
  budget : Option ℚ
  spent : ℚ
  remaining : Option ℚ
  percentage : ℚ
  expenses : Nat
deriving DecidableEq, Repr

/-- The method `AnalyticsManager.getTripSummary(trip, expenses)`. With a
missing budget `trip.budget > 0` is false and `trip.budget - totalSpent` is
not a number, which `Math.max` propagates. -/
def AnalyticsManager.getTripSummary (_self : AnalyticsManager) (trip : Trip)
    (expenses : List Expense) : TripSummary :=
  let tripExpenses := expenses.filter fun e => e.tripId == trip.id
  let totalSpent := tripExpenses.foldl (fun sum e => sum + e.amount) 0
  let percentage : ℚ :=
    match trip.budget with
    | some budget => if budget > 0 then (totalSpent / budget) * 100 else 0
    | none => 0
  { tripId := trip.id
    tripName := trip.name
    budget := trip.budget
    spent := totalSpent
    remaining := trip.budget.map fun budget => max 0 (budget - totalSpent)
    percentage := min percentage 100
    expenses := tripExpenses.length }

/-! ## Sample data -/

/-- A trip running from second 10 to second 20, budget 100, spent 50. -/
def tripA : Trip :=
  { id := "a", name := "Bangkok Weekend", destination := "Bangkok",
    startDate := ⟨10⟩, endDate := ⟨20⟩, budget := some 100, spent := some 50 }

/-- A trip running from second 30 to second 40, budget 200, spent 300. -/
def tripB : Trip :=
  { id := "b", name := "Chiang Mai", destination := "North",
    startDate := ⟨30⟩, endDate := ⟨40⟩, budget := some 200, spent := some 300 }

/-- A trip running from second 1 to second 5 with no budget and no spent field. -/
def tripC : Trip :=
  { id := "c", name := "Phuket", destination := "Sea",
    startDate := ⟨1⟩, endDate := ⟨5⟩, budget := none, spent := none }

/-- A manager holding the three sample trips. -/
def sampleTripManager : TripManager :=
  ⟨[tripA, tripB, tripC]⟩

/-- Expenses of trip `a`: food 10, food 5, transport 7, and one of trip `b`. -/
def sampleExpenses : List Expense :=
  [ { id := "e1", tripId := "a", category := "food", amount := 10, date := ⟨11⟩ },
    { id := "e2", tripId := "b", category := "food", amount := 99, date := ⟨31⟩ },
    { id := "e3", tripId := "a", category := "food", amount := 5, date := ⟨12⟩ },
    { id := "e4", tripId := "a", category := "transport", amount := 7, date := ⟨13⟩ } ]

/-- Expenses of trip `a` with amounts 5, 20, 20, 1. -/
def tiedExpenses : List Expense :=
  [ { id := "x1", tripId := "a", category := "food", amount := 5, date := ⟨11⟩ },
    { id := "x2", tripId := "a", category := "food", amount := 20, date := ⟨12⟩ },
    { id := "x3", tripId := "a", category := "activity", amount := 20, date := ⟨13⟩ },
    { id := "x4", tripId := "a", category := "other", amount := 1, date := ⟨14⟩ } ]

/-- Expenses of trip `a` whose categories are names inherited from `Object.prototype`. -/
def inheritedNameExpenses : List Expense :=
  [ { id := "p1", tripId := "a", category := "__proto__", amount := 10, date := ⟨11⟩ },
    { id := "p2", tripId := "a", category := "constructor", amount := 10, date := ⟨12⟩ } ]

/-- Expenses of trip `a` whose categories are the array-index strings `2` and `1`. -/
def indexNameExpenses : List Expense :=
  [ { id := "n1", tripId := "a", category := "2", amount := 5, date := ⟨11⟩ },
    { id := "n2", tripId := "a", category := "1", amount := 7, date := ⟨12⟩ } ]

/-! ## Specification-side quantities -/

/-- Sum of the amounts of the expenses of trip `tid` in category `c`. -/
def categorySum (es : List Expense) (tid c : String) : ℚ :=
  ((es.filter fun e => decide (e.tripId = tid ∧ e.category = c)).map Expense.amount).sum

/-! ## ExpenseManager.getFilteredExpenses and AnalyticsManager.getAverageDaily -/

/-- The method `ExpenseManager.getFilteredExpenses(tripId, category)`; an
omitted argument is the empty string. -/
def ExpenseManager.getFilteredExpenses (self : ExpenseManager) (tripId : String)
    (category : String) : List Expense :=
  self.expenses.filter fun exp =>
    (tripId == "" || exp.tripId == tripId) && (category == "" || exp.category == category)

/-- The local `days` of `getAverageDaily`:
`Math.ceil((endDate - startDate) / (1000 * 60 * 60 * 24)) || 1`. -/
def averageDays (trip : Trip) : Int :=
  let startDate := trip.startDate.toMillis
  let endDate := trip.endDate.toMillis
  let ceil : Int := ⌈(((endDate - startDate : Int) : ℚ)) / (1000 * 60 * 60 * 24)⌉
  if ceil = 0 then 1 else ceil

/-- The method `AnalyticsManager.getAverageDaily(tripId)`; `tripManager` is
the global `window.tripManager`, `none` when it is not set. -/
def AnalyticsManager.getAverageDaily (self : AnalyticsManager) (tripManager : Option TripManager)
    (tripId : String) : ℚ :=
  match tripManager.bind fun m => m.trips.find? fun t => t.id == tripId with
  | none => 0
  | some trip =>
    let totalSpent :=
      (self.expenses.filter fun e => e.tripId == tripId).foldl (fun sum e => sum + e.amount) 0
    totalSpent / (averageDays trip : ℚ)

/-- A trip whose end date (second 0) is earlier than its start date (second 200000). -/
def reversedTrip : Trip :=
  { id := "r", name := "Reversed", destination := "Nowhere",
    startDate := ⟨200000⟩, endDate := ⟨0⟩, budget := some 100, spent := some 0 }

/-- One expense of 10 for the reversed trip. -/
def reversedExpenses : List Expense :=
  [ { id := "r1", tripId := "r", category := "food", amount := 10, date := ⟨5⟩ } ]

/-- A trip of three days and a half (seconds 0 to 302400). -/
def longTrip : Trip :=
  { id := "l", name := "Long", destination := "Far",
    startDate := ⟨0⟩, endDate := ⟨302400⟩, budget := some 100, spent := some 0 }

/-- Expenses 10 and 30 of the long trip. -/
def longTripExpenses : List Expense :=
  [ { id := "l1", tripId := "l", category := "food", amount := 10, date := ⟨5⟩ },
    { id := "l2", tripId := "l", category := "other", amount := 30, date := ⟨6⟩ } ]

/-! ## ValidationManager

The validators receive the record built from the form fields: text fields and
date fields are strings, `budget` and `amount` are the result of `parseFloat`
(`none` for a missing value or `NaN`), and any field may be missing. -/

/-- A thrown JavaScript error, identified by its message. -/
structure JSError where
  message : String
deriving DecidableEq, Repr

/-- Input record of `validateTrip`. -/
structure TripInput where
  name : Option String
  destination : Option String
  startDate : Option String
  endDate : Option String
  budget : Option ℚ
  type : Option String
deriving DecidableEq, Repr

/-- Input record of `validateExpense`. -/
structure ExpenseInput where
  tripId : Option String
  category : Option String
  amount : Option ℚ
  date : Option String
deriving DecidableEq, Repr

/-- The `errors` object of a validator: field name and message, in creation order. -/
abbrev ErrorMap := List (String × String)

/-- The assignment `errors.field = message`: an existing key keeps its place
and takes the new message, a new key is created last. -/
def ErrorMap.set (errors : ErrorMap) (field message : String) : ErrorMap :=
  if errors.any (fun p => p.1 == field) then
    errors.map fun p => if p.1 = field then (p.1, message) else p
  else errors ++ [(field, message)]

/-- The call `Object.keys(errors)`: the validators only assign the field names
`name`, `destination`, ..., none of them an array index, so the keys come in
creation order. -/
def ErrorMap.keys (errors : ErrorMap) : List String :=
  errors.map Prod.fst

/-- Result record `{ isValid, errors }` of a validator. -/
structure ValidationResult where
  isValid : Bool
  errors : ErrorMap
deriving DecidableEq, Repr

/-- The expression `!v` for a text field: true when it is missing or empty. -/
def isFalsyString (v : Option String) : Bool :=
  match v with
  | none => true
  | some s => s == ""

/-- The expression `!v` for a numeric field: true when it is missing, `NaN` or `0`. -/
def isFalsyNumber (v : Option ℚ) : Bool :=
  match v with
  | none => true
  | some q => decide (q = 0)

/-- The expression `v <= 0` for a numeric field: false when it is missing or `NaN`. -/
def isAtMostZero (v : Option ℚ) : Bool :=
  match v with
  | none => false
  | some q => decide (q ≤ 0)

/-- The `length` of a string: its number of UTF-16 code units. -/
def jsLength (s : String) : Nat :=
  (s.data.map fun c => if c.val ≥ 0x10000 then 2 else 1).sum

/-- The property read `v.length`: a `TypeError` when `v` is `undefined`. -/
def readLength (v : Option String) : Except JSError Nat :=
  match v with
  | some s => Except.ok (jsLength s)
  | none => Except.error ⟨"TypeError: Cannot read properties of undefined (reading 'length')"⟩

/-- The time value of `new Date(v)` for a field holding a string or missing:
`none` is an invalid date; `parseDate` is the date parser of the engine. -/
def newDate (parseDate : String → Option Int) (v : Option String) : Option Int :=
  match v with
  | none => none
  | some s => parseDate s

/-- The comparison `a > b` of two dates: false when either is invalid. -/
def dateGreater (a b : Option Int) : Bool :=
  match a, b with
  | some x, some y => decide (x > y)
  | _, _ => false

/-- The condition `!name || name.length < 2`: the right operand of `||` is
evaluated only when the left one is false. -/
def nameTooShort (name : Option String) : Except JSError Bool :=
  if isFalsyString name then pure true
  else do
    let length ← readLength name
    pure (decide (length < 2))

/-- The static method `ValidationManager.validateTrip(tripData)`. -/
def ValidationManager.validateTrip (parseDate : String → Option Int) (tripData : TripInput) :
    Except JSError ValidationResult := do
  let errors : ErrorMap := []
  let nameInvalid ← nameTooShort tripData.name
  let errors :=
    if nameInvalid then errors.set "name" "ชื่อทริปต้องมีอย่างน้อย 2 ตัวอักษร" else errors
  let errors :=
    if isFalsyString tripData.destination then errors.set "destination" "กรุณากรอกสถานที่"
    else errors
  let startDate := newDate parseDate tripData.startDate
  let endDate := newDate parseDate tripData.endDate
  let errors :=
    if isFalsyString tripData.startDate then errors.set "startDate" "กรุณาเลือกวันเริ่มต้น"
    else errors
  let errors :=
    if isFalsyString tripData.endDate then errors.set "endDate" "กรุณาเลือกวันสิ้นสุด"
    else errors
  let errors :=
    if dateGreater startDate endDate then
      errors.set "endDate" "วันสิ้นสุดต้องเป็นหลังจากวันเริ่มต้น"
    else errors
  let errors :=
    if isFalsyNumber tripData.budget || isAtMostZero tripData.budget then
      errors.set "budget" "งบประมาณต้องมากกว่า 0"
    else errors
  let errors :=
    if isFalsyString tripData.type then errors.set "type" "กรุณาเลือกประเภททริป" else errors
  pure { isValid := errors.keys.length == 0, errors := errors }

/-- The static method `ValidationManager.validateExpense(expenseData)`; its
body only reads properties of the record and compares them. -/
def ValidationManager.validateExpense (expenseData : ExpenseInput) : ValidationResult :=
  let errors : ErrorMap := []
  let errors :=
    if isFalsyString expenseData.tripId then errors.set "tripId" "กรุณาเลือกทริป" else errors
  let errors :=
    if isFalsyString expenseData.category then errors.set "category" "กรุณาเลือกหมวดหมู่"
    else errors
  let errors :=
    if isFalsyNumber expenseData.amount || isAtMostZero expenseData.amount then
      errors.set "amount" "จำนวนเงินต้องมากกว่า 0"
    else errors
  let errors :=
    if isFalsyString expenseData.date then errors.set "date" "กรุณาเลือกวันที่" else errors
  { isValid := errors.keys.length == 0, errors := errors }

/-- Days from 1970-01-01 to the civil date `y-m-d` (proleptic Gregorian). -/
def daysFromCivil (y m d : Int) : Int :=
  let y' := if m ≤ 2 then y - 1 else y
  let era := (if y' ≥ 0 then y' else y' - 399) / 400
  let yoe := y' - era * 400
  let mp := (m + 9) % 12
  let doy := (153 * mp + 2) / 5 + d - 1
  let doe := yoe * 365 + yoe / 4 - yoe / 100 + doy
  era * 146097 + doe - 719468

/-- Number of days of month `m` of year `y`. -/
def daysInMonth (y m : Nat) : Nat :=
  if m = 2 then (if y % 4 = 0 ∧ (y % 100 ≠ 0 ∨ y % 400 = 0) then 29 else 28)
  else if m = 4 ∨ m = 6 ∨ m = 9 ∨ m = 11 then 30
  else 31

/-- A date parser for the values of a date input: `YYYY-MM-DD` naming a
calendar date gives midnight UTC of that day in milliseconds, anything else is
an invalid date. -/
def isoDateToMillis (s : String) : Option Int :=
  match s.data with
  | [y1, y2, y3, y4, '-', m1, m2, '-', d1, d2] =>
    if [y1, y2, y3, y4, m1, m2, d1, d2].all Char.isDigit then
      let y := digitsValue [y1, y2, y3, y4]
      let m := digitsValue [m1, m2]
      let d := digitsValue [d1, d2]
      if 1 ≤ m ∧ m ≤ 12 ∧ 1 ≤ d ∧ d ≤ daysInMonth y m then
        some (daysFromCivil y m d * 86400000)
      else none
    else none
  | _ => none

/-- The trip input of the specification's example: a one-letter name, no
destination, an end date before the start date, budget 0 and no type. -/
def invalidTripInput : TripInput :=
  { name := some "A", destination := some "", startDate := some "2024-01-02",
    endDate := some "2024-01-01", budget := some 0, type := some "" }

/-- A trip input that passes every check. -/
def validTripInput : TripInput :=
  { name := some "Bangkok", destination := some "Thailand", startDate := some "2024-01-01",
    endDate := some "2024-01-05", budget := some 1000, type := some "leisure" }

/-- A trip input with every field missing. -/
def emptyTripInput : TripInput :=
  { name := none, destination := none, startDate := none, endDate := none,
    budget := none, type := none }

/-! ## The remote document store and the methods that write to it

The Firestore module is outside the repository. A `DataStore` gives the
outcome of each call a method makes: loading the module (`await import(...)`),
`addDoc` and `deleteDoc`; building the references (`collection`, `doc`) is part
of the call. A method returns its result, `Except.error e` for a rejected
promise, together with the state of the manager afterwards; what it writes to
the console is not modelled, and the methods run without another task changing
the held set in between. -/

/-- A value stored in a field of a document. -/
inductive FieldValue where
  | text (s : String)
  | number (q : ℚ)
  | date (millis : Int)
  | serverTimestamp
deriving DecidableEq, Repr

/-- A record passed to the store: its own properties in creation order. -/
abbrev Record := List (String × FieldValue)

/-- Outcomes of the calls to the remote document store. -/
structure DataStore where
  importModule : Except JSError Unit
  addDoc : String → Record → Except JSError String
  deleteDoc : String → String → Except JSError Unit

/-- The value of the property `key` of a record, if it has one. -/
def Record.get (r : Record) (key : String) : Option FieldValue :=
  match r with
  | [] => none
  | (k, v) :: rest => if k = key then some v else Record.get rest key

/-- A property definition `key: v` of an object literal, after the properties
already there: an existing property keeps its place and takes the new value, a
new one is created last. -/
def Record.define (r : Record) (key : String) (v : FieldValue) : Record :=
  if r.any (fun p => p.1 == key) then r.map fun p => if p.1 = key then (p.1, v) else p
  else r ++ [(key, v)]

/-- The local `tripWithMetadata` of `createTrip`:
`{ ...tripData, userId, spent: 0, createdAt: serverTimestamp() }`. -/
def tripWithMetadata (tripData : Record) (userId : String) : Record :=
  ((tripData.define "userId" (FieldValue.text userId)).define "spent"
    (FieldValue.number 0)).define "createdAt" FieldValue.serverTimestamp

/-- The local `expenseWithMetadata` of `createExpense`:
`{ ...expenseData, userId, createdAt: serverTimestamp() }`. -/
def expenseWithMetadata (expenseData : Record) (userId : String) : Record :=
  (expenseData.define "userId" (FieldValue.text userId)).define "createdAt"
    FieldValue.serverTimestamp

/-- The method `TripManager.createTrip(tripData, userId)`: every failure inside
the `try` is caught, logged and thrown again. -/
def TripManager.createTrip (self : TripManager) (store : DataStore) (tripData : Record)
    (userId : String) : Except JSError String × TripManager :=
  match store.importModule with
  | Except.error error => (Except.error error, self)
  | Except.ok _ =>
    let tripWithMetadata := tripWithMetadata tripData userId
    match store.addDoc "trips" tripWithMetadata with
    | Except.error error => (Except.error error, self)
    | Except.ok docRefId => (Except.ok docRefId, self)

/-- The method `TripManager.deleteTrip(tripId)`. -/
def TripManager.deleteTrip (self : TripManager) (store : DataStore) (tripId : String) :
    Except JSError Bool × TripManager :=
  match store.importModule with
  | Except.error error => (Except.error error, self)
  | Except.ok _ =>
    match store.deleteDoc "trips" tripId with
    | Except.error error => (Except.error error, self)
    | Except.ok _ => (Except.ok true, { trips := self.trips.filter fun t => t.id != tripId })

/-- The method `ExpenseManager.createExpense(expenseData, userId)`. -/
def ExpenseManager.createExpense (self : ExpenseManager) (store : DataStore)
    (expenseData : Record) (userId : String) : Except JSError String × ExpenseManager :=
  match store.importModule with
  | Except.error error => (Except.error error, self)
  | Except.ok _ =>
    let expenseWithMetadata := expenseWithMetadata expenseData userId
    match store.addDoc "expenses" expenseWithMetadata with
    | Except.error error => (Except.error error, self)
    | Except.ok docRefId => (Except.ok docRefId, self)

/-- The method `ExpenseManager.deleteExpense(expenseId)`. -/
def ExpenseManager.deleteExpense (self : ExpenseManager) (store : DataStore)
    (expenseId : String) : Except JSError Bool × ExpenseManager :=
  match store.importModule with
  | Except.error error => (Except.error error, self)
  | Except.ok _ =>
    match store.deleteDoc "expenses" expenseId with
    | Except.error error => (Except.error error, self)
    | Except.ok _ =>
      (Except.ok true, { expenses := self.expenses.filter fun e => e.id != expenseId })

/-- A store on which every call succeeds; a new document gets the id `new-id`. -/
def workingStore : DataStore :=
  { importModule := Except.ok ()
    addDoc := fun _ _ => Except.ok "new-id"
    deleteDoc := fun _ _ => Except.ok () }

/-- A store whose module loads but which rejects every write. -/
def rejectingStore : DataStore :=
  { importModule := Except.ok ()
    addDoc := fun _ _ => Except.error ⟨"permission-denied"⟩
    deleteDoc := fun _ _ => Except.error ⟨"permission-denied"⟩ }

/-- A store whose module fails to load. -/
def offlineStore : DataStore :=
  { importModule := Except.error ⟨"Failed to fetch dynamically imported module"⟩
    addDoc := fun _ _ => Except.ok "new-id"
    deleteDoc := fun _ _ => Except.ok () }

/-- The trip record the create-trip form builds, with a stray `spent` and
`userId` added. -/
def sampleTripData : Record :=
  [ ("name", FieldValue.text "Bangkok"), ("spent", FieldValue.number 999),
    ("destination", FieldValue.text "Thailand"), ("startDate", FieldValue.date 1704067200000),
    ("endDate", FieldValue.date 1704412800000), ("budget", FieldValue.number 1000),
    ("userId", FieldValue.text "someone-else"), ("type", FieldValue.text "leisure"),
    ("description", FieldValue.text ""), ("image", FieldValue.text "") ]

/-! ## AnalyticsManager.getDailyData -/

/-- The body of the `forEach` in `getDailyData`; `day` gives the text
`new Date(ms).toLocaleDateString('th-TH')` of a time value, which depends on
the locale data and time zone of the browser, and `add` is the addition of two
numbers. -/
def dailyStep (add : ℚ → ℚ → ℚ) (day : Int → String) (dailyData : JSObject)
    (exp : Expense) : JSObject :=
  let date := day exp.date.toMillis
  dailyData.set date (addToPropertyWith add dailyData date exp.amount)

/-- The method `AnalyticsManager.getDailyData(tripId)`. -/
def AnalyticsManager.getDailyData (self : AnalyticsManager) (add : ℚ → ℚ → ℚ)
    (day : Int → String) (tripId : String) : JSObject :=
  let expenses := self.expenses.filter fun e => e.tripId == tripId
  expenses.foldl (dailyStep add day) []

/-- A calendar-day text for time values of the first two days of 1970
(Buddhist year 2513). -/
def sampleDay (ms : Int) : String :=
  if ms < 86400000 then "1/1/2513" else "2/1/2513"

/-- Expenses of trip `a` on two days (10 and 5 on the first, 7 on the second)
and one of trip `b`. -/
def dailyExpenses : List Expense :=
  [ { id := "d1", tripId := "a", category := "food", amount := 10, date := ⟨3600⟩ },
    { id := "d2", tripId := "b", category := "food", amount := 99, date := ⟨7200⟩ },
    { id := "d3", tripId := "a", category := "other", amount := 7, date := ⟨90000⟩ },
    { id := "d4", tripId := "a", category := "transport", amount := 5, date := ⟨80000⟩ } ]

/-- An expense with its category replaced by its calendar-day text: the
daily totals of a list are the category totals of the relabelled list. -/
def relabelByDay (day : Int → String) (e : Expense) : Expense :=
  { e with category := day e.date.toMillis }

/-! ## InputValidator (`utils.js`)

Regular expressions without the `u` flag work on the UTF-16 code units of the
text; the classes used here hold ASCII characters only, so they are tested on
the characters of the string. -/

/-- The class `[a-z]`. -/
def isLowerLetter (c : Char) : Bool :=
  decide ('a' ≤ c) && decide (c ≤ 'z')

/-- The class `[A-Z]`. -/
def isUpperLetter (c : Char) : Bool :=
  decide ('A' ≤ c) && decide (c ≤ 'Z')

/-- The class `\d`. -/
def isDecimalDigit (c : Char) : Bool :=
  decide ('0' ≤ c) && decide (c ≤ '9')

/-- The class `[@!#$%^&*]`. -/
def isSpecialChar (c : Char) : Bool :=
  c ∈ ['@', '!', '#', '$', '%', '^', '&', '*']

/-- The class `[A-Za-z\d@!#$%^&*]`. -/
def isPasswordChar (c : Char) : Bool :=
  isUpperLetter c || isLowerLetter c || isDecimalDigit c || isSpecialChar c

/-- A line terminator, which `.` does not match. -/
def isLineTerminator (c : Char) : Bool :=
  c = '\n' || c = '\r' || c.val = 0x2028 || c.val = 0x2029

/-- The lookahead `(?=.*[class])` at the start of the text: some character of
the class is reached from the start over characters that `.` matches. -/
def lookaheadFinds (cls : Char → Bool) (text : List Char) : Bool :=
  (text.takeWhile fun c => !isLineTerminator c).any cls

/-- The call `regex.test(text)` for a one-class pattern such as `/[a-z]/`. -/
def testClass (cls : Char → Bool) (text : String) : Bool :=
  text.data.any cls

/-- The static method `InputValidator.validatePassword(password)`: the text
matches `^(?=.*[a-z])(?=.*[A-Z])(?=.*\d)(?=.*[@!#$%^&*])[A-Za-z\d@!#$%^&*]{8,}$`. -/
def InputValidator.validatePassword (password : String) : Bool :=
  lookaheadFinds isLowerLetter password.data && lookaheadFinds isUpperLetter password.data &&
    lookaheadFinds isDecimalDigit password.data && lookaheadFinds isSpecialChar password.data &&
    password.data.all isPasswordChar && decide (8 ≤ password.data.length)

/-- Result record of `checkPasswordStrength`. -/
structure PasswordStrength where
  strength : String
  score : Nat
  message : String
deriving DecidableEq, Repr

/-- The static method `InputValidator.checkPasswordStrength(password)`. -/
def InputValidator.checkPasswordStrength (password : String) : PasswordStrength :=
  let score := 0
  let score := if jsLength password ≥ 8 then score + 1 else score
  let score := if jsLength password ≥ 12 then score + 1 else score
  let score :=
    if testClass isLowerLetter password && testClass isUpperLetter password then score + 1
    else score
  let score := if testClass isDecimalDigit password then score + 1 else score
  let score := if testClass isSpecialChar password then score + 1 else score
  if score ≤ 2 then { strength := "weak", score := score, message := "รหัสผ่านอ่อนแอเกินไป" }
  else if score ≤ 3 then { strength := "medium", score := score, message := "รหัสผ่านปานกลาง" }
  else { strength := "strong", score := score, message := "รหัสผ่านแข็งแรง" }

/-- White space and line terminators, the characters `trim` removes. -/
def isJsWhitespace (c : Char) : Bool :=
  c.val ∈ [0x09, 0x0A, 0x0B, 0x0C, 0x0D, 0x20, 0xA0, 0x1680, 0x2028, 0x2029, 0x202F, 0x205F,
    0x3000, 0xFEFF] || (decide (0x2000 ≤ c.val) && decide (c.val ≤ 0x200A))

/-- The method `text.trim()`. -/
def jsTrim (text : List Char) : List Char :=
  ((text.dropWhile isJsWhitespace).reverse.dropWhile isJsWhitespace).reverse

/-- The static method `InputValidator.sanitizeString(str)`; `none` is an
argument that is not a string. -/
def InputValidator.sanitizeString (str : Option String) : String :=
  match str with
  | none => ""
  | some s => ⟨jsTrim (s.data.filter fun c => !(c = '<' || c = '>'))⟩

/-! ## Image downscaling in the create-trip handler (`eventHandlers.js`) -/

/-- The size computed in `img.onload` of the create-trip submit handler from
the image's `width` and `height`, as (width, height). -/
def scaledImageSize (imgWidth imgHeight : Nat) : ℚ × ℚ :=
  let maxWidth : ℚ := 800
  let maxHeight : ℚ := 600
  let width : ℚ := imgWidth
  let height : ℚ := imgHeight
  if width > height then
    if width > maxWidth then ((maxWidth : ℚ), (height * maxWidth) / width)
    else (width, height)
  else
    if height > maxHeight then ((width * maxHeight) / height, maxHeight)
    else (width, height)

/-! ## Spending totals (`logic.js`) -/

/-- The method `ExpenseManager.calculateTripSpending(tripId)`, with `add` as
the addition of two numbers: `reduce` adds the amounts to `0` in list order. -/
def ExpenseManager.calculateTripSpending (self : ExpenseManager) (add : ℚ → ℚ → ℚ)
    (tripId : String) : ℚ :=
  (self.getExpensesByTrip tripId).foldl (fun sum e => add sum e.amount) 0

/-- The method `AnalyticsManager.getCategoryData(tripId)`, with `add` as the
addition of two numbers; the statement in its `forEach` is the one of
`getTotalByCategory`. -/
def AnalyticsManager.getCategoryData (self : AnalyticsManager) (add : ℚ → ℚ → ℚ)
    (tripId : String) : JSObject :=
  let expenses := self.expenses.filter fun e => e.tripId == tripId
  expenses.foldl (categoryStepWith add) []

/-- One expense of trip `a` with the category `__proto__`. -/
def protoExpenses : List Expense :=
  [ { id := "q1", tripId := "a", category := "__proto__", amount := 10, date := ⟨11⟩ } ]

/-- Three expenses of trip `a` with the amounts `0.45`, `1.65` and `0.8`: the
first and the third are food of the first day, the second is transport of the
second day. -/
def fractionExpenses : List Expense :=
  [ { id := "f1", tripId := "a", category := "food", amount := toBinary64 (45 / 100),
      date := ⟨3600⟩ },
    { id := "f2", tripId := "a", category := "transport", amount := toBinary64 (165 / 100),
      date := ⟨90000⟩ },
    { id := "f3", tripId := "a", category := "food", amount := toBinary64 (8 / 10),
      date := ⟨7200⟩ } ]

/-! ## Image upload (`logic.js`, `eventHandlers.js`) -/

/-- The properties of a `File` the upload path reads. -/
structure FileInfo where
  name : String
  type : String
  size : Nat
deriving DecidableEq, Repr

/-- Outcomes of the calls to the blob storage module. -/
structure BlobStorage where
  importModule : Except JSError Unit
  uploadBytes : String → FileInfo → Except JSError Unit
  getDownloadURL : String → Except JSError String

/-- The method `TripManager.uploadTripImage(file, userId)`: its result and the
calls it made to `uploadBytes` (path and file); `now` is `Date.now()`. -/
def TripManager.uploadTripImage (_self : TripManager) (storage : BlobStorage) (now : Int)
    (file : FileInfo) (userId : String) : Except JSError String × List (String × FileInfo) :=
  match storage.importModule with
  | Except.error error => (Except.error error, [])
  | Except.ok _ =>
    if file.size > 5 * 1024 * 1024 then
      (Except.error ⟨"File size must be less than 5MB"⟩, [])
    else
      let storageRef := "trip-images/" ++ userId ++ "/" ++ toString now
      match storage.uploadBytes storageRef file with
      | Except.error error => (Except.error error, [(storageRef, file)])
      | Except.ok _ =>
        match storage.getDownloadURL storageRef with
        | Except.error error => (Except.error error, [(storageRef, file)])
        | Except.ok url => (Except.ok url, [(storageRef, file)])

/-- A call `window.notificationManager.level(title, message, duration)`. -/
structure Notice where
  level : String
  title : String
  message : String
  duration : Nat
deriving DecidableEq, Repr

/-- The `change` handler of the trip image input for a chosen file: whether
the input keeps the file (it is emptied on a refusal) and the notice shown at
once; the preview drawn later by the file reader is left out. -/
def tripImageInputChange (file : FileInfo) : Bool × List Notice :=
  if !("image/".data.isPrefixOf file.type.data) then
    (false, [⟨"error", "เกิดข้อผิดพลาด", "กรุณาเลือกไฟล์รูปภาพเท่านั้น", 2000⟩])
  else if file.size > 5 * 1024 * 1024 then
    (false, [⟨"error", "เกิดข้อผิดพลาด", "ขนาดไฟล์ต้องน้อยกว่า 5MB", 2000⟩])
  else (true, [])

/-- A blob storage on which every call succeeds. -/
def workingStorage : BlobStorage :=
  { importModule := Except.ok ()
    uploadBytes := fun _ _ => Except.ok ()
    getDownloadURL := fun path => Except.ok ("https://storage.example/" ++ path) }

/-- A document of one thousand bytes that is not an image. -/
def pdfFile : FileInfo :=
  { name := "ticket.pdf", type := "application/pdf", size := 1000 }

/-- An image one byte above the ceiling. -/
def hugeImage : FileInfo :=
  { name := "photo.jpg", type := "image/jpeg", size := 5 * 1024 * 1024 + 1 }

/-- An image exactly at the ceiling. -/
def ceilingImage : FileInfo :=
  { name := "photo.jpg", type := "image/jpeg", size := 5 * 1024 * 1024 }

/-! ## NotificationManager (`notificationManager.js`): the toast list -/

/-- An entry of `this.notifications`. -/
structure ToastNotification where
  id : String
  message : String
  type : String
  duration : Int
deriving DecidableEq, Repr

/-- The settings the toast list depends on. -/
structure ToastSettings where
  duration : Int
  maxToasts : Nat
deriving DecidableEq, Repr

/-- State of a `NotificationManager` of `notificationManager.js`: the list
`this.notifications` and `this.settings`. -/
structure NotificationManager where
  notifications : List ToastNotification
  settings : ToastSettings
deriving DecidableEq, Repr

/-- The state the constructor leaves: no notification, four seconds, five toasts. -/
def NotificationManager.new : NotificationManager :=
  { notifications := [], settings := { duration := 4000, maxToasts := 5 } }

/-- The method `toast(message, type, options)`: the returned id and the state
after. `id` is the text generated from the clock and `Math.random()`,
`duration` the option of that name if given. -/
def NotificationManager.toast (self : NotificationManager) (id message type : String)
    (duration : Option Int) : String × NotificationManager :=
  let notification : ToastNotification :=
    { id := id, message := message, type := type,
      duration := duration.getD self.settings.duration }
  let notifications :=
    if self.notifications.length ≥ self.settings.maxToasts then self.notifications.tail
    else self.notifications
  (notification.id, { self with notifications := notifications ++ [notification] })

/-- The method `removeToast(id)`. -/
def NotificationManager.removeToast (self : NotificationManager) (id : String) :
    NotificationManager :=
  { self with notifications := self.notifications.filter fun n => n.id != id }

/-- The method `clearAll()`: `forEach` runs over the array held at the call. -/
def NotificationManager.clearAll (self : NotificationManager) : NotificationManager :=
  self.notifications.foldl (fun m notification => m.removeToast notification.id) self

/-- The method `clearByType(type)`. -/
def NotificationManager.clearByType (self : NotificationManager) (type : String) :
    NotificationManager :=
  let toRemove := self.notifications.filter fun n => n.type == type
  toRemove.foldl (fun m notification => m.removeToast notification.id) self

/-- A call of one of the four methods that change the toast list. -/
inductive ToastCall where
  | toast (id message type : String) (duration : Option Int)
  | removeToast (id : String)
  | clearByType (type : String)
  | clearAll
deriving DecidableEq, Repr

/-- The state after one call. -/
def NotificationManager.call (self : NotificationManager) : ToastCall → NotificationManager
  | ToastCall.toast id message type duration => (self.toast id message type duration).2
  | ToastCall.removeToast id => self.removeToast id
  | ToastCall.clearByType type => self.clearByType type
  | ToastCall.clearAll => self.clearAll

/-- The state after a sequence of calls. -/
def NotificationManager.run (self : NotificationManager) (calls : List ToastCall) :
    NotificationManager :=
  calls.foldl NotificationManager.call self

/-- Five toasts `t1` .. `t5` in a row. -/
def fiveToasts : List ToastCall :=
  [ ToastCall.toast "t1" "one" "info" none, ToastCall.toast "t2" "two" "error" none,
    ToastCall.toast "t3" "three" "info" none, ToastCall.toast "t4" "four" "success" none,
    ToastCall.toast "t5" "five" "info" none ]

/-- Six toasts `t1` .. `t6` in a row. -/
def sixToasts : List ToastCall :=
  fiveToasts ++ [ToastCall.toast "t6" "six" "warning" none]

/-! ## Bulk delete (`eventHandlers.js`) -/

/-- What `handleBulkDelete` reads and changes: the two managers, the two
selection sets in insertion order, the notices shown so far, and the ids passed
to `deleteTrip` or `deleteExpense` so far, in call order. -/
structure BulkPage where
  tripManager : TripManager
  expenseManager : ExpenseManager
  selectedTrips : List String
  selectedExpenses : List String
  notices : List Notice
  deleteCalls : List String
deriving DecidableEq, Repr

/-- The loop `for (const id of selectedSet)` with its awaited deletion: the
first deletion that throws ends the loop. -/
def bulkDeleteLoop (store : DataStore) (type : String) :
    List String → BulkPage → Except JSError Unit × BulkPage
  | [], page => (Except.ok (), page)
  | id :: rest, page =>
    if type = "trip" then
      let r := page.tripManager.deleteTrip store id
      let page := { page with tripManager := r.2, deleteCalls := page.deleteCalls ++ [id] }
      match r.1 with
      | Except.error error => (Except.error error, page)
      | Except.ok _ => bulkDeleteLoop store type rest page
    else
      let r := page.expenseManager.deleteExpense store id
      let page := { page with expenseManager := r.2, deleteCalls := page.deleteCalls ++ [id] }
      match r.1 with
      | Except.error error => (Except.error error, page)
      | Except.ok _ => bulkDeleteLoop store type rest page

/-- The handler `handleBulkDelete(type)`. `confirmed` is the answer to the
`confirm` dialog, `loadTrips` and `loadExpenses` the outcomes of reloading the
lists from the store. -/
def handleBulkDelete (store : DataStore) (confirmed : Bool)
    (loadTrips : Except JSError (List Trip)) (loadExpenses : Except JSError (List Expense))
    (type : String) (page : BulkPage) : BulkPage :=
  let selectedSet := if type = "trip" then page.selectedTrips else page.selectedExpenses
  if selectedSet.length = 0 then
    { page with notices := page.notices ++
        [⟨"warning", "ไม่มีรายการ", "กรุณาเลือกอย่างน้อย 1 รายการ", 2000⟩] }
  else if !confirmed then page
  else
    let page := { page with notices := page.notices ++ [⟨"info", "กำลังลบ...", "", 0⟩] }
    let failed (page : BulkPage) : BulkPage :=
      { page with notices := page.notices ++
          [⟨"error", "เกิดข้อผิดพลาด", "ไม่สามารถลบได้", 3000⟩] }
    let succeeded (page : BulkPage) : BulkPage :=
      { page with notices := page.notices ++
          [⟨"success", "ลบสำเร็จ!", "ลบ 0 รายการแล้ว", 2000⟩] }
    match bulkDeleteLoop store type selectedSet page with
    | (Except.error _, page) => failed page
    | (Except.ok _, page) =>
      if type = "trip" then
        let page := { page with selectedTrips := [] }
        match loadTrips with
        | Except.error _ => failed page
        | Except.ok trips => succeeded { page with tripManager := ⟨trips⟩ }
      else
        let page := { page with selectedExpenses := [] }
        match loadExpenses with
        | Except.error _ => failed page
        | Except.ok expenses => succeeded { page with expenseManager := ⟨expenses⟩ }

/-- A store that refuses to delete the document `b` and accepts every other call. -/
def flakyStore : DataStore :=
  { importModule := Except.ok ()
    addDoc := fun _ _ => Except.ok "new-id"
    deleteDoc := fun _ id => if id = "b" then Except.error ⟨"unavailable"⟩ else Except.ok () }

/-- A page holding the three sample trips with `a`, `b`, `c` selected in that order. -/
def samplePage : BulkPage :=
  { tripManager := sampleTripManager
    expenseManager := ⟨sampleExpenses⟩
    selectedTrips := ["a", "b", "c"]
    selectedExpenses := []
    notices := []
    deleteCalls := [] }

/-! ## HTML escaping (`utils.js`, `notificationManager.js`) -/

/-- The character `"`. -/
def doubleQuote : Char := Char.ofNat 34

/-- The character `'`. -/
def singleQuote : Char := Char.ofNat 39

/-- The replacement `m => map[m]` of `InputValidator.escapeHtml` applied by
`replace(/[&<>"']/g, ..)`: a character outside the class stays as it is. -/
def htmlEscapeMap (m : Char) : List Char :=
  if m = '&' then "&amp;".data
  else if m = '<' then "&lt;".data
  else if m = '>' then "&gt;".data
  else if m = doubleQuote then "&quot;".data
  else if m = singleQuote then "&#039;".data
  else [m]

/-- The static method `InputValidator.escapeHtml(text)`. -/
def InputValidator.escapeHtml (text : String) : String :=
  ⟨text.data.flatMap htmlEscapeMap⟩

/-- The replacement `m => map[m]` of `NotificationManager.escapeHtml`. -/
def toastEscapeMap (m : Char) : List Char :=
  if m = '&' then "&amp;".data
  else if m = '<' then "&lt;".data
  else if m = '>' then "&gt;".data
  else if m = doubleQuote then "&quot;".data
  else if m = singleQuote then "&#039;".data
  else [m]

/-- The method `NotificationManager.escapeHtml(text)` of `notificationManager.js`. -/
def NotificationManager.escapeHtml (_self : NotificationManager) (text : String) : String :=
  ⟨text.data.flatMap toastEscapeMap⟩

/-- The five entities the escaping produces. -/
def htmlEntities : List (List Char) :=
  ["&amp;".data, "&lt;".data, "&gt;".data, "&quot;".data, "&#039;".data]

/-- Replacing the entities back, left to right; `skip` is the number of
characters of an entity already replaced that are still to be passed over. -/
def unescapeFrom : Nat → List Char → List Char
  | _, [] => []
  | skip + 1, _ :: rest => unescapeFrom skip rest
  | 0, c :: rest =>
    if c = '&' then
      if "amp;".data.isPrefixOf rest then '&' :: unescapeFrom 4 rest
      else if "lt;".data.isPrefixOf rest then '<' :: unescapeFrom 3 rest
      else if "gt;".data.isPrefixOf rest then '>' :: unescapeFrom 3 rest
      else if "quot;".data.isPrefixOf rest then doubleQuote :: unescapeFrom 5 rest
      else if "#039;".data.isPrefixOf rest then singleQuote :: unescapeFrom 5 rest
      else c :: unescapeFrom 0 rest
    else c :: unescapeFrom 0 rest

/-- The text with the entities `&amp;` `&lt;` `&gt;` `&quot;` `&#039;` replaced back. -/
def unescapeHtml (text : String) : String :=
  ⟨unescapeFrom 0 text.data⟩

/-! ## RateLimiter (`utils.js`) -/

/-- State of a `RateLimiter`: the two constructor arguments and the map
`this.attempts` from identifiers to the clock values kept for them. -/
structure RateLimiter where
  maxAttempts : Nat
  windowMs : Int
  attempts : String → Option (List Int)

/-- The constructor `new RateLimiter(maxAttempts, windowMs)`. -/
def RateLimiter.new (maxAttempts : Nat) (windowMs : Int) : RateLimiter :=
  { maxAttempts := maxAttempts, windowMs := windowMs, attempts := fun _ => none }

/-- The limiter `loginRateLimiter`. -/
def loginRateLimiter : RateLimiter := RateLimiter.new 5 900000

/-- The object `checkLimit` returns; a property it does not set, or one
computed from a missing oldest attempt, is `none`. -/
structure LimitResult where
  allowed : Bool
  remaining : Option Int
  resetTime : Option Int
  remainingTime : Option Int
deriving DecidableEq, Repr

/-- The method `checkLimit(identifier)`; `now` is `Date.now()`. -/
def RateLimiter.checkLimit (self : RateLimiter) (now : Int) (identifier : String) :
    LimitResult × RateLimiter :=
  let userAttempts := (self.attempts identifier).getD []
  let validAttempts := userAttempts.filter fun timestamp =>
    decide (now - timestamp < self.windowMs)
  if validAttempts.length ≥ self.maxAttempts then
    let resetTime := validAttempts.head?.map fun oldestAttempt => oldestAttempt + self.windowMs
    ({ allowed := false, remaining := none, resetTime := resetTime,
       remainingTime := resetTime.map fun r => ⌈(((r - now : Int) : ℚ)) / 1000⌉ }, self)
  else
    let validAttempts := validAttempts ++ [now]
    ({ allowed := true, remaining := some ((self.maxAttempts : Int) - validAttempts.length),
       resetTime := none, remainingTime := none },
     { self with
       attempts := fun k => if k = identifier then some validAttempts else self.attempts k })

/-- A call of `checkLimit` with the result it returned. -/
structure CheckedCall where
  now : Int
  identifier : String
  result : LimitResult
deriving DecidableEq, Repr

/-- A sequence of `checkLimit` calls, each given as the clock value and the
identifier: the calls with their results, and the state after. -/
def RateLimiter.run (self : RateLimiter) : List (Int × String) → List CheckedCall × RateLimiter
  | [] => ([], self)
  | (now, identifier) :: rest =>
    let r := self.checkLimit now identifier
    let rs := r.2.run rest
    (⟨now, identifier, r.1⟩ :: rs.1, rs.2)

/-- Seven login attempts of `ann` within a quarter of an hour, one of `bob`
in between, and an attempt of `ann` after the window of her first ones. -/
def loginCalls : List (Int × String) :=
  [(0, "ann"), (1000, "ann"), (2000, "bob"), (3000, "ann"), (4000, "ann"), (5000, "ann"),
   (6000, "ann"), (899999, "ann"), (900000, "ann")]

/-! ## Properties of the JavaScript primitives -/

theorem includes_iff (s q : String) : includes s q = true ↔ q.data <:+: s.data := by
  unfold includes
  rw [List.any_eq_true]
  constructor
  · rintro ⟨rest, hrest, hpre⟩
    rw [List.mem_tails] at hrest
    rw [List.isPrefixOf_iff_prefix] at hpre
    exact List.infix_iff_prefix_suffix.mpr ⟨rest, hpre, hrest⟩
  · intro h
    obtain ⟨rest, hpre, hsuf⟩ := List.infix_iff_prefix_suffix.mp h
    exact ⟨rest, (List.mem_tails _ _).mpr hsuf, List.isPrefixOf_iff_prefix.mpr hpre⟩

theorem includes_empty (s : String) : includes s "" = true :=
  (includes_iff s "").mpr List.nil_infix

theorem orZero_eq_getD (v : Option ℚ) : orZero v = v.getD 0 := by
  cases v with
  | none => rfl
  | some q =>
    unfold orZero
    by_cases h : q = 0 <;> simp [h]

/-! ## TripManager.getFilteredTrips -/

theorem getFilteredTrips_eq_filter (m : TripManager) (toLowerCase : String → String) (now : Int)
    (q s : String) :
    m.getFilteredTrips toLowerCase now q s =
      m.trips.filter fun t =>
        decide (((toLowerCase q).data <:+: (toLowerCase t.name).data ∨
            (toLowerCase q).data <:+: (toLowerCase t.destination).data) ∧
          (s = "" ∨ tripStatus now t = s)) := by
  unfold TripManager.getFilteredTrips
  apply List.filter_congr
  intro t _
  rw [Bool.eq_iff_iff, decide_eq_true_iff]
  simp [includes_iff]

/-- C1: `getFilteredTrips(q, s)` returns exactly the held trips whose lowercased
name or destination contains the lowercased query and whose status is `s` (any
status when `s` is empty): a trip is in the result iff it is held and satisfies
both conditions, and then it occurs as often as in the held list. -/
theorem getFilteredTrips_exact (m : TripManager) (toLowerCase : String → String) (now : Int)
    (q s : String) (t : Trip) :
    (t ∈ m.getFilteredTrips toLowerCase now q s ↔
      t ∈ m.trips ∧
        ((toLowerCase q).data <:+: (toLowerCase t.name).data ∨
          (toLowerCase q).data <:+: (toLowerCase t.destination).data) ∧
        (s = "" ∨ tripStatus now t = s)) ∧
    (m.getFilteredTrips toLowerCase now q s).count t =
      if ((toLowerCase q).data <:+: (toLowerCase t.name).data ∨
          (toLowerCase q).data <:+: (toLowerCase t.destination).data) ∧
        (s = "" ∨ tripStatus now t = s) then m.trips.count t else 0 := by
  rw [getFilteredTrips_eq_filter]
  constructor
  · rw [List.mem_filter, decide_eq_true_iff]
  · split_ifs with h
    · exact List.count_filter (decide_eq_true h)
    · apply List.count_eq_zero_of_not_mem
      rw [List.mem_filter, decide_eq_true_iff]
      exact fun hc => h hc.2

theorem tripStatus_cases (now : Int) (t : Trip) :
    (t.endDate.toMillis < now → tripStatus now t = "completed") ∧
    (t.startDate.toMillis ≤ now ∧ now ≤ t.endDate.toMillis → tripStatus now t = "ongoing") ∧
    (¬ t.endDate.toMillis < now ∧ ¬ (t.startDate.toMillis ≤ now ∧ now ≤ t.endDate.toMillis) →
      tripStatus now t = "planning") := by
  unfold tripStatus
  refine ⟨fun h => by simp [h], fun h => ?_, fun h => ?_⟩
  · have h1 : ¬ t.endDate.toMillis < now := not_lt.mpr h.2
    simp [h1, h.1]
  · have h2 : ¬ t.startDate.toMillis ≤ now := fun hs => h.2 ⟨hs, not_lt.mp h.1⟩
    simp [h.1, h2]

theorem tripStatus_mem (now : Int) (t : Trip) :
    tripStatus now t = "planning" ∨ tripStatus now t = "ongoing" ∨
      tripStatus now t = "completed" := by
  unfold tripStatus
  simp only []
  split_ifs <;> simp

theorem getFilteredTrips_status (m : TripManager) (toLowerCase : String → String)
    (hlow : toLowerCase "" = "") (now : Int) (s : String) (hs : s ≠ "") :
    m.getFilteredTrips toLowerCase now "" s =
      m.trips.filter fun t => decide (tripStatus now t = s) := by
  unfold TripManager.getFilteredTrips
  apply List.filter_congr
  intro t _
  rw [Bool.eq_iff_iff]
  simp [hlow, includes_empty, hs]

theorem status_partition_perm (now : Int) (l : List Trip) :
    (l.filter (fun t => decide (tripStatus now t = "planning")) ++
      l.filter (fun t => decide (tripStatus now t = "ongoing")) ++
      l.filter (fun t => decide (tripStatus now t = "completed"))).Perm l := by
  induction l with
  | nil => simp
  | cons t l ih =>
    rcases tripStatus_mem now t with h | h | h
    · simp only [List.filter_cons, h]
      simpa using ih
    · simp only [List.filter_cons, h]
      simp only [decide_True, if_true]
      have h1 : decide ("ongoing" = "planning") = false := by decide
      have h2 : decide ("ongoing" = "completed") = false := by decide
      simp only [h1, h2]
      rw [List.append_assoc, List.cons_append]
      refine List.perm_middle.trans (List.Perm.cons t ?_)
      rw [← List.append_assoc]
      exact ih
    · simp only [List.filter_cons, h]
      have h1 : decide ("completed" = "planning") = false := by decide
      have h2 : decide ("completed" = "ongoing") = false := by decide
      simp only [h1, h2, decide_True, if_true]
      simp only [Bool.false_eq_true, if_false]
      exact List.perm_middle.trans (List.Perm.cons t ih)

theorem status_filter_disjoint (now : Int) (l : List Trip) (a b : String) (hab : a ≠ b) :
    List.Disjoint (l.filter fun t => decide (tripStatus now t = a))
      (l.filter fun t => decide (tripStatus now t = b)) := by
  intro t ha hb
  rw [List.mem_filter, decide_eq_true_iff] at ha hb
  exact hab (ha.2.symm.trans hb.2)

/-- C2: the trip status is a total three-way classification (`completed` when
`now` is after the end date, `ongoing` when `now` lies between start and end
date inclusive, `planning` otherwise), so the three status filters with an
empty query are pairwise disjoint and together are a rearrangement of the held
list: every held trip is in exactly one of them, once. -/
theorem tripStatus_three_way (m : TripManager) (toLowerCase : String → String)
    (hlow : toLowerCase "" = "") (now : Int) (t : Trip) :
    (tripStatus now t = "planning" ∨ tripStatus now t = "ongoing" ∨
      tripStatus now t = "completed") ∧
    (now > t.endDate.toMillis → tripStatus now t = "completed") ∧
    (t.startDate.toMillis ≤ now ∧ now ≤ t.endDate.toMillis → tripStatus now t = "ongoing") ∧
    (¬ now > t.endDate.toMillis ∧ ¬ (t.startDate.toMillis ≤ now ∧ now ≤ t.endDate.toMillis) →
      tripStatus now t = "planning") ∧
    List.Disjoint (m.getFilteredTrips toLowerCase now "" "planning")
      (m.getFilteredTrips toLowerCase now "" "ongoing") ∧
    List.Disjoint (m.getFilteredTrips toLowerCase now "" "planning")
      (m.getFilteredTrips toLowerCase now "" "completed") ∧
    List.Disjoint (m.getFilteredTrips toLowerCase now "" "ongoing")
      (m.getFilteredTrips toLowerCase now "" "completed") ∧
    (m.getFilteredTrips toLowerCase now "" "planning" ++
      m.getFilteredTrips toLowerCase now "" "ongoing" ++
      m.getFilteredTrips toLowerCase now "" "completed").Perm m.trips := by
  rw [getFilteredTrips_status m toLowerCase hlow now "planning" (by decide),
    getFilteredTrips_status m toLowerCase hlow now "ongoing" (by decide),
    getFilteredTrips_status m toLowerCase hlow now "completed" (by decide)]
  obtain ⟨hc, ho, hp⟩ := tripStatus_cases now t
  exact ⟨tripStatus_mem now t, hc, ho, hp,
    status_filter_disjoint now m.trips _ _ (by decide),
    status_filter_disjoint now m.trips _ _ (by decide),
    status_filter_disjoint now m.trips _ _ (by decide),
    status_partition_perm now m.trips⟩

/-- Witness of C2 on the three sample trips at `now = 15000` ms: the sample
lowercase function fixes the empty string, and the three status filters are
the three singletons. -/
theorem tripStatus_three_way_witness :
    asciiToLowerCase "" = "" ∧
    sampleTripManager.getFilteredTrips asciiToLowerCase 15000 "" "planning" = [tripB] ∧
    sampleTripManager.getFilteredTrips asciiToLowerCase 15000 "" "ongoing" = [tripA] ∧
    sampleTripManager.getFilteredTrips asciiToLowerCase 15000 "" "completed" = [tripC] ∧
    (sampleTripManager.getFilteredTrips asciiToLowerCase 15000 "" "planning" ++
      sampleTripManager.getFilteredTrips asciiToLowerCase 15000 "" "ongoing" ++
      sampleTripManager.getFilteredTrips asciiToLowerCase 15000 "" "completed").Perm
        sampleTripManager.trips :=
  ⟨rfl, by decide, by decide, by decide,
    (tripStatus_three_way sampleTripManager asciiToLowerCase rfl 15000 tripA).2.2.2.2.2.2.2⟩

/-- C3: the result of `getFilteredTrips` is a subsequence of the held list: the
returned trips are held trips in their held order, none duplicated or moved.
The method is a function of the held list that returns only the result, it
assigns nothing to `this.trips`. -/
theorem getFilteredTrips_sublist (m : TripManager) (toLowerCase : String → String) (now : Int)
    (q s : String) :
    (m.getFilteredTrips toLowerCase now q s).Sublist m.trips := by
  unfold TripManager.getFilteredTrips
  exact List.filter_sublist _

/-- C4: with an empty status tag the result is exactly the held trips matching
the query, whatever their dates and the clock, and with an empty query as well
it is the whole held list. -/
theorem getFilteredTrips_empty_status (m : TripManager) (toLowerCase : String → String)
    (hlow : toLowerCase "" = "") (now : Int) (q : String) :
    m.getFilteredTrips toLowerCase now q "" =
      (m.trips.filter fun t =>
        decide ((toLowerCase q).data <:+: (toLowerCase t.name).data ∨
          (toLowerCase q).data <:+: (toLowerCase t.destination).data)) ∧
    m.getFilteredTrips toLowerCase now "" "" = m.trips := by
  constructor
  · rw [getFilteredTrips_eq_filter]
    apply List.filter_congr
    intro t _
    simp
  · unfold TripManager.getFilteredTrips
    rw [List.filter_eq_self]
    intro t _
    simp [hlow, includes_empty]

/-- Witness of C4 on the three sample trips: query `BANG` with an empty status
keeps the Bangkok trip only, and the empty query keeps all three. -/
theorem getFilteredTrips_empty_status_witness :
    asciiToLowerCase "" = "" ∧
    sampleTripManager.getFilteredTrips asciiToLowerCase 15000 "BANG" "" = [tripA] ∧
    sampleTripManager.getFilteredTrips asciiToLowerCase 15000 "" "" = [tripA, tripB, tripC] :=
  ⟨rfl, by decide,
    (getFilteredTrips_empty_status sampleTripManager asciiToLowerCase rfl 15000 "").2⟩

/-! ## TripManager.calculateStats -/

theorem foldl_statsStep (now : Int) (l : List Trip) (acc : StatsAcc) :
    l.foldl (statsStep now) acc =
      { totalBudget := acc.totalBudget + (l.map fun t => t.budget.getD 0).sum
        totalExpenses := acc.totalExpenses + (l.map fun t => t.spent.getD 0).sum
        activeTrips := acc.activeTrips + l.countP fun t => decide (now < t.endDate.toMillis) } := by
  induction l generalizing acc with
  | nil => simp
  | cons t l ih =>
    rw [List.foldl_cons, ih]
    by_cases h : now < t.endDate.toMillis
    · simp [statsStep, orZero_eq_getD, h, List.countP_cons, add_assoc, add_comm 1]
    · simp [statsStep, orZero_eq_getD, h, List.countP_cons, add_assoc]

/-- C5: `calculateStats` returns the number of held trips, the sum of their
`spent` fields and the floor at zero of total budget minus total spent (a
missing `spent` or `budget` counting as 0); the remaining budget is never
negative, every field is 0 on the empty set, and budgets 100, 200 with spent
50, 300 leave a remaining budget of 0. -/
theorem calculateStats_totals (m : TripManager) (now : Int) :
    (m.calculateStats now).totalTrips = m.trips.length ∧
    (m.calculateStats now).totalExpenses = (m.trips.map fun t => t.spent.getD 0).sum ∧
    (m.calculateStats now).remainingBudget =
      max 0 ((m.trips.map fun t => t.budget.getD 0).sum -
        (m.trips.map fun t => t.spent.getD 0).sum) ∧
    0 ≤ (m.calculateStats now).remainingBudget ∧
    (TripManager.mk []).calculateStats now = ⟨0, 0, 0, 0⟩ ∧
    ((TripManager.mk [tripA, tripB]).calculateStats now).remainingBudget = 0 := by
  have key : ∀ l : List Trip, (TripManager.mk l).calculateStats now =
      { totalTrips := l.length
        totalExpenses := (l.map fun t => t.spent.getD 0).sum
        activeTrips := l.countP fun t => decide (now < t.endDate.toMillis)
        remainingBudget := max 0 ((l.map fun t => t.budget.getD 0).sum -
          (l.map fun t => t.spent.getD 0).sum) } := by
    intro l
    simp [TripManager.calculateStats, foldl_statsStep]
  obtain ⟨l⟩ := m
  rw [key l]
  refine ⟨rfl, rfl, rfl, le_max_left _ _, ?_, ?_⟩
  · rw [key []]; simp
  · rw [key [tripA, tripB]]
    norm_num [tripA, tripB]

/-- C6: the `activeTrips` field of `calculateStats` is the number of held trips
whose end date is strictly after `now`, and it is at most `totalTrips`. -/
theorem calculateStats_activeTrips (m : TripManager) (now : Int) :
    (m.calculateStats now).activeTrips =
      (m.trips.filter fun t => decide (now < t.endDate.toMillis)).length ∧
    (m.calculateStats now).activeTrips ≤ (m.calculateStats now).totalTrips := by
  have h : (m.calculateStats now).activeTrips =
      m.trips.countP fun t => decide (now < t.endDate.toMillis) := by
    simp [TripManager.calculateStats, foldl_statsStep]
  refine ⟨?_, ?_⟩
  · rw [h, List.countP_eq_length_filter]
  · rw [h]
    exact List.countP_le_length _


/-! ## Plain objects -/

theorem getOwn_eq_none_iff (o : JSObject) (c : String) :
    o.getOwn c = none ↔ c ∉ o.map Prod.fst := by
  induction o with
  | nil => simp [JSObject.getOwn]
  | cons p o ih =>
    obtain ⟨k, v⟩ := p
    by_cases h : k = c
    · simp [JSObject.getOwn, h]
    · simp [JSObject.getOwn, h, ih, Ne.symm h]

theorem getOwn_append_single (o : JSObject) (key c : String) (v : JSValue)
    (hkey : key ∉ o.map Prod.fst) :
    JSObject.getOwn (o ++ [(key, v)]) c = if c = key then some v else o.getOwn c := by
  induction o with
  | nil =>
    by_cases h : key = c
    · simp [JSObject.getOwn, h]
    · simp [JSObject.getOwn, h, Ne.symm h]
  | cons p o ih =>
    obtain ⟨k, w⟩ := p
    have hk : key ≠ k := fun h => hkey (by simp [h])
    have hrest : key ∉ o.map Prod.fst := fun h => hkey (by simp [h])
    by_cases h : k = c
    · have hc : c ≠ key := fun e => hk (e.symm.trans h.symm)
      simp [JSObject.getOwn, h, hc]
    · simp [JSObject.getOwn, h, ih hrest]

theorem getOwn_cons (k : String) (w : JSValue) (o : JSObject) (c : String) :
    JSObject.getOwn ((k, w) :: o) c = if k = c then some w else JSObject.getOwn o c := rfl

theorem getOwn_map_update (o : JSObject) (key c : String) (v : JSValue) :
    JSObject.getOwn (o.map fun p => if p.1 = key then (p.1, v) else p) c =
      if c = key then (o.getOwn c).map (fun _ => v) else o.getOwn c := by
  induction o with
  | nil => simp [JSObject.getOwn]
  | cons p o ih =>
    obtain ⟨k, w⟩ := p
    rw [List.map_cons]
    by_cases hk : k = key
    · rw [if_pos hk, getOwn_cons, getOwn_cons, ih]
      by_cases h : k = c
      · have hc : c = key := h.symm.trans hk
        simp [h, hc]
      · simp [h]
    · rw [if_neg hk, getOwn_cons, getOwn_cons, ih]
      by_cases h : k = c
      · have hc : c ≠ key := fun e => hk (h.trans e)
        simp [h, hc]
      · simp [h]

theorem any_key_iff (o : JSObject) (key : String) :
    (o.any fun p => p.1 == key) = true ↔ key ∈ o.map Prod.fst := by
  rw [List.any_eq_true, List.mem_map]
  constructor
  · rintro ⟨p, hp, h⟩
    exact ⟨p, hp, by simpa using h⟩
  · rintro ⟨p, hp, h⟩
    exact ⟨p, hp, by simpa using h⟩

theorem getOwn_set (o : JSObject) (key c : String) (v : JSValue) (hkey : key ≠ "__proto__") :
    (o.set key v).getOwn c = if c = key then some v else o.getOwn c := by
  unfold JSObject.set
  rw [if_neg hkey]
  by_cases h : (o.any fun p => p.1 == key) = true
  · rw [if_pos h]
    rw [getOwn_map_update]
    by_cases hc : c = key
    · have hin : key ∈ o.map Prod.fst := (any_key_iff o key).mp h
      have hsome : o.getOwn key ≠ none := fun e => (getOwn_eq_none_iff o key).mp e hin
      obtain ⟨w, hw⟩ := Option.ne_none_iff_exists'.mp hsome
      simp [hc, hw]
    · simp [hc]
  · rw [if_neg h]
    exact getOwn_append_single o key c v (fun hin => h ((any_key_iff o key).mpr hin))

theorem map_fst_set (o : JSObject) (key : String) (v : JSValue) (hkey : key ≠ "__proto__") :
    (o.set key v).map Prod.fst =
      if key ∈ o.map Prod.fst then o.map Prod.fst else o.map Prod.fst ++ [key] := by
  unfold JSObject.set
  rw [if_neg hkey]
  by_cases h : (o.any fun p => p.1 == key) = true
  · rw [if_pos h, if_pos ((any_key_iff o key).mp h), List.map_map]
    apply List.map_congr_left
    intro p _
    by_cases hp : p.1 = key <;> simp [hp]
  · rw [if_neg h, if_neg (fun hin => h ((any_key_iff o key).mpr hin))]
    simp

theorem set_proto (o : JSObject) (v : JSValue) : o.set "__proto__" v = o := by
  simp [JSObject.set]


/-! ## ExpenseManager.getTotalByCategory -/

theorem getTotalByCategory_snoc (es : List Expense) (e : Expense) (tid : String) :
    (ExpenseManager.mk (es ++ [e])).getTotalByCategory tid =
      if e.tripId = tid then categoryStep ((ExpenseManager.mk es).getTotalByCategory tid) e
      else (ExpenseManager.mk es).getTotalByCategory tid := by
  unfold ExpenseManager.getTotalByCategory ExpenseManager.getExpensesByTrip
  by_cases h : e.tripId = tid
  · simp [List.filter_append, h, List.foldl_append]
  · simp [List.filter_append, h]

theorem categorySum_snoc (es : List Expense) (e : Expense) (tid c : String) :
    categorySum (es ++ [e]) tid c =
      if e.tripId = tid ∧ e.category = c then categorySum es tid c + e.amount
      else categorySum es tid c := by
  unfold categorySum
  by_cases h : e.tripId = tid ∧ e.category = c
  · simp [List.filter_append, h]
  · rw [if_neg h, List.filter_append]
    have : List.filter (fun e => decide (e.tripId = tid ∧ e.category = c)) [e] = [] := by
      simp [h]
    rw [this]; simp

theorem categorySum_of_absent (es : List Expense) (tid c : String)
    (h : ¬ ∃ e ∈ es, e.tripId = tid ∧ e.category = c) : categorySum es tid c = 0 := by
  unfold categorySum
  have : es.filter (fun e => decide (e.tripId = tid ∧ e.category = c)) = [] := by
    rw [List.filter_eq_nil_iff]
    intro e he hp
    exact h ⟨e, he, by simpa using hp⟩
  rw [this]; rfl

theorem getTotalByCategory_values (es : List Expense) (tid : String)
    (hplain : ∀ e ∈ es, e.tripId = tid → e.category ∉ objectPrototypeKeys) (c : String) :
    ((ExpenseManager.mk es).getTotalByCategory tid).getOwn c =
      if ∃ e ∈ es, e.tripId = tid ∧ e.category = c then
        some (JSValue.number (categorySum es tid c))
      else none := by
  induction es using List.reverseRecOn with
  | nil => simp [ExpenseManager.getTotalByCategory, ExpenseManager.getExpensesByTrip, JSObject.getOwn]
  | append_singleton es e ih =>
    have hplain' : ∀ x ∈ es, x.tripId = tid → x.category ∉ objectPrototypeKeys :=
      fun x hx => hplain x (List.mem_append_left _ hx)
    have ih := ih hplain'
    rw [getTotalByCategory_snoc, categorySum_snoc]
    by_cases ht : e.tripId = tid
    · have hk : e.category ∉ objectPrototypeKeys := hplain e (by simp) ht
      have hproto : e.category ≠ "__proto__" := fun h => hk (by rw [h]; decide)
      rw [if_pos ht]
      unfold categoryStep
      rw [getOwn_set _ _ _ _ hproto]
      by_cases hc : c = e.category
      · subst hc
        have hex : ∃ x ∈ es ++ [e], x.tripId = tid ∧ x.category = e.category :=
          ⟨e, by simp, ht, rfl⟩
        rw [if_pos rfl, if_pos hex, if_pos ⟨ht, rfl⟩]
        unfold addToProperty
        rw [ih]
        by_cases hprev : ∃ x ∈ es, x.tripId = tid ∧ x.category = e.category
        · rw [if_pos hprev]
          by_cases hz : categorySum es tid e.category = 0 <;> simp [hz]
        · rw [if_neg hprev]
          simp [hk, categorySum_of_absent es tid e.category hprev]
      · have hne : ¬ (e.tripId = tid ∧ e.category = c) := fun h => hc h.2.symm
        rw [if_neg hc, if_neg hne, ih]
        have : (∃ x ∈ es ++ [e], x.tripId = tid ∧ x.category = c) ↔
            (∃ x ∈ es, x.tripId = tid ∧ x.category = c) := by
          constructor
          · rintro ⟨x, hx, h1, h2⟩
            rcases List.mem_append.mp hx with hx | hx
            · exact ⟨x, hx, h1, h2⟩
            · rw [List.mem_singleton] at hx
              subst hx
              exact absurd h2.symm hc
          · rintro ⟨x, hx, h⟩
            exact ⟨x, List.mem_append_left _ hx, h⟩
        simp only [this]
    · have hne : ¬ (e.tripId = tid ∧ e.category = c) := fun h => ht h.1
      rw [if_neg ht, if_neg hne, ih]
      have : (∃ x ∈ es ++ [e], x.tripId = tid ∧ x.category = c) ↔
          (∃ x ∈ es, x.tripId = tid ∧ x.category = c) := by
        constructor
        · rintro ⟨x, hx, h1, h2⟩
          rcases List.mem_append.mp hx with hx | hx
          · exact ⟨x, hx, h1, h2⟩
          · rw [List.mem_singleton] at hx
            subst hx
            exact absurd h1 ht
        · rintro ⟨x, hx, h⟩
          exact ⟨x, List.mem_append_left _ hx, h⟩
      simp only [this]


theorem exists_snoc_iff (es : List Expense) (e : Expense) (P : Expense → Prop) (he : ¬ P e) :
    (∃ x ∈ es ++ [e], P x) ↔ ∃ x ∈ es, P x := by
  constructor
  · rintro ⟨x, hx, h⟩
    rcases List.mem_append.mp hx with hx | hx
    · exact ⟨x, hx, h⟩
    · rw [List.mem_singleton] at hx
      subst hx
      exact absurd h he
  · rintro ⟨x, hx, h⟩
    exact ⟨x, List.mem_append_left _ hx, h⟩

theorem getTotalByCategory_mem_keys (es : List Expense) (tid c : String) :
    c ∈ ((ExpenseManager.mk es).getTotalByCategory tid).map Prod.fst ↔
      c ≠ "__proto__" ∧ ∃ e ∈ es, e.tripId = tid ∧ e.category = c := by
  induction es using List.reverseRecOn with
  | nil => simp [ExpenseManager.getTotalByCategory, ExpenseManager.getExpensesByTrip]
  | append_singleton es e ih =>
    rw [getTotalByCategory_snoc]
    by_cases ht : e.tripId = tid
    · rw [if_pos ht]
      unfold categoryStep
      by_cases hproto : e.category = "__proto__"
      · rw [hproto, set_proto, ih]
        constructor
        · rintro ⟨h1, x, hx, h⟩
          exact ⟨h1, x, List.mem_append_left _ hx, h⟩
        · rintro ⟨h1, x, hx, h2, h3⟩
          refine ⟨h1, ?_⟩
          rcases List.mem_append.mp hx with hx | hx
          · exact ⟨x, hx, h2, h3⟩
          · rw [List.mem_singleton] at hx
            subst hx
            exact absurd (h3.symm.trans hproto) h1
      · rw [map_fst_set _ _ _ hproto]
        by_cases hc : c = e.category
        · subst hc
          have hex : ∃ x ∈ es ++ [e], x.tripId = tid ∧ x.category = e.category :=
            ⟨e, by simp, ht, rfl⟩
          simp only [hproto, ne_eq, not_false_eq_true, hex, and_self, iff_true]
          split_ifs with hin
          · exact hin
          · simp
        · have hne : ¬ (e.tripId = tid ∧ e.category = c) := fun h => hc h.2.symm
          rw [exists_snoc_iff es e _ hne, ← ih]
          split_ifs with hin
          · rfl
          · simp [hc]
    · have hne : ¬ (e.tripId = tid ∧ e.category = c) := fun h => ht h.1
      rw [if_neg ht, exists_snoc_iff es e _ hne, ih]

theorem getTotalByCategory_nodup (es : List Expense) (tid : String) :
    (((ExpenseManager.mk es).getTotalByCategory tid).map Prod.fst).Nodup := by
  induction es using List.reverseRecOn with
  | nil => simp [ExpenseManager.getTotalByCategory, ExpenseManager.getExpensesByTrip]
  | append_singleton es e ih =>
    rw [getTotalByCategory_snoc]
    by_cases ht : e.tripId = tid
    · rw [if_pos ht]
      unfold categoryStep
      by_cases hproto : e.category = "__proto__"
      · rw [hproto, set_proto]; exact ih
      · rw [map_fst_set _ _ _ hproto]
        split_ifs with hin
        · exact ih
        · rw [List.nodup_append]
          refine ⟨ih, List.nodup_singleton _, ?_⟩
          intro a ha hb
          rw [List.mem_singleton] at hb
          exact hin (hb ▸ ha)
    · rw [if_neg ht]; exact ih


theorem findIdx_snoc_of_exists {α : Type} (l : List α) (a : α) (p : α → Bool)
    (h : ∃ x ∈ l, p x = true) : (l ++ [a]).findIdx p = l.findIdx p := by
  rw [List.findIdx_append, if_pos (List.findIdx_lt_length_of_exists h)]

theorem findIdx_snoc_of_absent {α : Type} (l : List α) (a : α) (p : α → Bool)
    (h : ¬ ∃ x ∈ l, p x = true) (ha : p a = true) : (l ++ [a]).findIdx p = l.length := by
  have hlen : l.findIdx p = l.length := by
    apply List.findIdx_eq_length_of_false
    intro x hx
    by_contra hp
    exact h ⟨x, hx, by simpa using hp⟩
  rw [List.findIdx_append, hlen, if_neg (lt_irrefl _)]
  simp [List.findIdx_cons, ha]

theorem getTotalByCategory_order (es : List Expense) (tid c1 c2 : String)
    (h1 : c1 ∈ ((ExpenseManager.mk es).getTotalByCategory tid).map Prod.fst)
    (h2 : c2 ∈ ((ExpenseManager.mk es).getTotalByCategory tid).map Prod.fst) :
    (((ExpenseManager.mk es).getTotalByCategory tid).map Prod.fst).indexOf c1 <
        (((ExpenseManager.mk es).getTotalByCategory tid).map Prod.fst).indexOf c2 ↔
      es.findIdx (fun e => decide (e.tripId = tid ∧ e.category = c1)) <
        es.findIdx (fun e => decide (e.tripId = tid ∧ e.category = c2)) := by
  induction es using List.reverseRecOn with
  | nil => simp [ExpenseManager.getTotalByCategory, ExpenseManager.getExpensesByTrip] at h1
  | append_singleton es e ih =>
    have hold : ∀ c, c ∈ ((ExpenseManager.mk es).getTotalByCategory tid).map Prod.fst →
        (es ++ [e]).findIdx (fun x => decide (x.tripId = tid ∧ x.category = c)) =
          es.findIdx (fun x => decide (x.tripId = tid ∧ x.category = c)) := by
      intro c hc
      obtain ⟨_, x, hx, hp⟩ := (getTotalByCategory_mem_keys es tid c).mp hc
      exact findIdx_snoc_of_exists es e _ ⟨x, hx, by simpa using hp⟩
    have hlt : ∀ c, c ∈ ((ExpenseManager.mk es).getTotalByCategory tid).map Prod.fst →
        es.findIdx (fun x => decide (x.tripId = tid ∧ x.category = c)) < es.length := by
      intro c hc
      obtain ⟨_, x, hx, hp⟩ := (getTotalByCategory_mem_keys es tid c).mp hc
      exact List.findIdx_lt_length_of_exists ⟨x, hx, by simpa using hp⟩
    rw [getTotalByCategory_snoc] at h1 h2 ⊢
    by_cases ht : e.tripId = tid
    · rw [if_pos ht] at h1 h2 ⊢
      unfold categoryStep at h1 h2 ⊢
      by_cases hproto : e.category = "__proto__"
      · rw [hproto, set_proto] at h1 h2 ⊢
        rw [hold c1 h1, hold c2 h2]
        exact ih h1 h2
      · rw [map_fst_set _ _ _ hproto] at h1 h2 ⊢
        by_cases hin : e.category ∈ ((ExpenseManager.mk es).getTotalByCategory tid).map Prod.fst
        · rw [if_pos hin] at h1 h2 ⊢
          rw [hold c1 h1, hold c2 h2]
          exact ih h1 h2
        · rw [if_neg hin] at h1 h2 ⊢
          have hnew : (es ++ [e]).findIdx
              (fun x => decide (x.tripId = tid ∧ x.category = e.category)) = es.length := by
            apply findIdx_snoc_of_absent
            · rintro ⟨x, hx, hp⟩
              exact hin ((getTotalByCategory_mem_keys es tid e.category).mpr
                ⟨hproto, x, hx, by simpa using hp⟩)
            · simpa using ht
          rcases List.mem_append.mp h1 with h1 | h1 <;>
            rcases List.mem_append.mp h2 with h2 | h2
          · rw [List.indexOf_append_of_mem h1, List.indexOf_append_of_mem h2, hold c1 h1,
              hold c2 h2]
            exact ih h1 h2
          · rw [List.mem_singleton] at h2
            subst h2
            rw [List.indexOf_append_of_mem h1, List.indexOf_append_of_not_mem hin, hold c1 h1,
              hnew]
            have hI := List.indexOf_lt_length.mpr h1
            have hF := hlt c1 h1
            have hz : List.indexOf e.category [e.category] = 0 := by simp
            rw [hz]
            constructor <;> intro _ <;> omega
          · rw [List.mem_singleton] at h1
            subst h1
            rw [List.indexOf_append_of_mem h2, List.indexOf_append_of_not_mem hin, hold c2 h2,
              hnew]
            have hI := List.indexOf_lt_length.mpr h2
            have hF := hlt c2 h2
            have hz : List.indexOf e.category [e.category] = 0 := by simp
            rw [hz]
            constructor <;> intro _ <;> omega
          · rw [List.mem_singleton] at h1 h2
            subst h1
            subst h2
            simp
    · rw [if_neg ht] at h1 h2 ⊢
      rw [hold c1 h1, hold c2 h2]
      exact ih h1 h2


theorem keys_perm (o : JSObject) : o.keys.Perm (o.map Prod.fst) := by
  unfold JSObject.keys
  exact ((List.perm_insertionSort _ _).append_right _).trans (List.filter_append_perm _ _)

theorem keys_eq_of_no_index (o : JSObject)
    (h : ∀ k ∈ o.map Prod.fst, isArrayIndex k = false) : o.keys = o.map Prod.fst := by
  unfold JSObject.keys
  have h1 : (o.map Prod.fst).filter isArrayIndex = [] := by
    rw [List.filter_eq_nil_iff]
    intro k hk
    simp [h k hk]
  have h2 : ((o.map Prod.fst).filter fun k => !isArrayIndex k) = o.map Prod.fst := by
    rw [List.filter_eq_self]
    intro k hk
    simp [h k hk]
  simp only [h1, h2, List.insertionSort, List.nil_append]

/-- C7 (amended): when no expense of the trip has a category that is a name
inherited from `Object.prototype`, the keys of `getTotalByCategory(tripId)`
are exactly the categories occurring among the expenses with that trip id,
each once, and the value at a key is the sum of the amounts of the expenses of
that trip and category; a category that does not occur has no property. -/
theorem getTotalByCategory_totals (m : ExpenseManager) (tripId : String)
    (hplain : ∀ e ∈ m.expenses, e.tripId = tripId → e.category ∉ objectPrototypeKeys)
    (c : String) :
    (c ∈ (m.getTotalByCategory tripId).keys ↔
      ∃ e ∈ m.expenses, e.tripId = tripId ∧ e.category = c) ∧
    (m.getTotalByCategory tripId).keys.Nodup ∧
    (c ∈ (m.getTotalByCategory tripId).keys →
      (m.getTotalByCategory tripId).getOwn c =
        some (JSValue.number
          ((m.expenses.filter fun e => decide (e.tripId = tripId ∧ e.category = c)).map
            Expense.amount).sum)) ∧
    (c ∉ (m.getTotalByCategory tripId).keys → (m.getTotalByCategory tripId).getOwn c = none) := by
  obtain ⟨es⟩ := m
  have hmem : c ∈ ((ExpenseManager.mk es).getTotalByCategory tripId).keys ↔
      ∃ e ∈ es, e.tripId = tripId ∧ e.category = c := by
    rw [(keys_perm _).mem_iff, getTotalByCategory_mem_keys]
    constructor
    · exact fun h => h.2
    · rintro ⟨e, he, ht, hc⟩
      refine ⟨?_, e, he, ht, hc⟩
      intro hp
      exact hplain e he ht (by rw [hc, hp]; decide)
  refine ⟨hmem, (keys_perm _).nodup_iff.mpr (getTotalByCategory_nodup es tripId), ?_, ?_⟩
  · intro hc
    rw [getTotalByCategory_values es tripId hplain c, if_pos (hmem.mp hc)]
    rfl
  · intro hc
    rw [getTotalByCategory_values es tripId hplain c, if_neg (fun h => hc (hmem.mpr h))]

/-- Witness of C7 on the sample expenses: trip `a` has food 10, food 5 and
transport 7 (and trip `b` a food 99 that contributes nothing), giving food 15
and transport 7. -/
theorem getTotalByCategory_totals_witness :
    (∀ e ∈ sampleExpenses, e.tripId = "a" → e.category ∉ objectPrototypeKeys) ∧
    (ExpenseManager.mk sampleExpenses).getTotalByCategory "a" =
      [("food", JSValue.number 15), ("transport", JSValue.number 7)] ∧
    ((ExpenseManager.mk sampleExpenses).getTotalByCategory "a").keys.Nodup :=
  ⟨by decide,
   by decide!,
   (getTotalByCategory_totals (ExpenseManager.mk sampleExpenses) "a" (by decide) "food").2.1⟩

/-- Counterexample to C7 as stated: with the categories `__proto__` and
`constructor` (10 each) the result has the single key `constructor`, holding a
string instead of the sum, and no key `__proto__`. -/
theorem getTotalByCategory_inherited_counterexample :
    (ExpenseManager.mk inheritedNameExpenses).getTotalByCategory "a" =
      [("constructor", JSValue.text "constructor" [10])] ∧
    ¬ (∀ c, c ∈ ((ExpenseManager.mk inheritedNameExpenses).getTotalByCategory "a").keys ↔
      ∃ e ∈ inheritedNameExpenses, e.tripId = "a" ∧ e.category = c) ∧
    ¬ (∀ c ∈ ((ExpenseManager.mk inheritedNameExpenses).getTotalByCategory "a").keys,
      ((ExpenseManager.mk inheritedNameExpenses).getTotalByCategory "a").getOwn c =
        some (JSValue.number
          ((inheritedNameExpenses.filter fun e => decide (e.tripId = "a" ∧ e.category = c)).map
            Expense.amount).sum)) := by
  have hval : (ExpenseManager.mk inheritedNameExpenses).getTotalByCategory "a" =
      [("constructor", JSValue.text "constructor" [10])] := by decide
  have hkeys : ((ExpenseManager.mk inheritedNameExpenses).getTotalByCategory "a").keys =
      ["constructor"] := by decide
  refine ⟨hval, ?_, ?_⟩
  · intro h
    have := (h "__proto__").mpr ⟨_, List.mem_cons_self _ _, rfl, rfl⟩
    rw [hkeys] at this
    exact absurd this (by decide)
  · intro h
    have := h "constructor" (by rw [hkeys]; exact List.mem_singleton_self _)
    rw [hval] at this
    simp [JSObject.getOwn] at this

/-- C8 (amended): when no expense of the trip has a category that is an
array-index string, the keys of `getTotalByCategory(tripId)` are enumerated in
first-seen order: a key `c1` comes before a key `c2` iff the first expense of
the trip with category `c1` is earlier in the held list than the first one
with category `c2`. -/
theorem getTotalByCategory_first_seen (m : ExpenseManager) (tripId : String)
    (hnoindex : ∀ e ∈ m.expenses, e.tripId = tripId → isArrayIndex e.category = false)
    (c1 c2 : String)
    (h1 : c1 ∈ (m.getTotalByCategory tripId).keys)
    (h2 : c2 ∈ (m.getTotalByCategory tripId).keys) :
    ((m.getTotalByCategory tripId).keys.indexOf c1 <
        (m.getTotalByCategory tripId).keys.indexOf c2 ↔
      m.expenses.findIdx (fun e => decide (e.tripId = tripId ∧ e.category = c1)) <
        m.expenses.findIdx (fun e => decide (e.tripId = tripId ∧ e.category = c2))) := by
  obtain ⟨es⟩ := m
  have hk : ((ExpenseManager.mk es).getTotalByCategory tripId).keys =
      ((ExpenseManager.mk es).getTotalByCategory tripId).map Prod.fst := by
    apply keys_eq_of_no_index
    intro k hk
    obtain ⟨_, e, he, ht, hc⟩ := (getTotalByCategory_mem_keys es tripId k).mp hk
    exact hc ▸ hnoindex e he ht
  rw [hk] at h1 h2 ⊢
  exact getTotalByCategory_order es tripId c1 c2 h1 h2

/-- Witness of C8 on the sample expenses: the keys are `food`, `transport`,
in the order of their first expenses. -/
theorem getTotalByCategory_first_seen_witness :
    (∀ e ∈ sampleExpenses, e.tripId = "a" → isArrayIndex e.category = false) ∧
    ((ExpenseManager.mk sampleExpenses).getTotalByCategory "a").keys = ["food", "transport"] ∧
    (((ExpenseManager.mk sampleExpenses).getTotalByCategory "a").keys.indexOf "food" <
        ((ExpenseManager.mk sampleExpenses).getTotalByCategory "a").keys.indexOf "transport" ↔
      sampleExpenses.findIdx (fun e => decide (e.tripId = "a" ∧ e.category = "food")) <
        sampleExpenses.findIdx (fun e => decide (e.tripId = "a" ∧ e.category = "transport"))) :=
  ⟨by decide, by decide,
   getTotalByCategory_first_seen (ExpenseManager.mk sampleExpenses) "a" (by decide)
     "food" "transport" (by decide) (by decide)⟩

/-- Counterexample to C8 as stated: with the categories `2` then `1` the
keys are enumerated as `1`, `2`, though the first expense with category `2`
comes before the first one with category `1`. -/
theorem getTotalByCategory_index_counterexample :
    ((ExpenseManager.mk indexNameExpenses).getTotalByCategory "a").keys = ["1", "2"] ∧
    ((ExpenseManager.mk indexNameExpenses).getTotalByCategory "a").keys.indexOf "1" <
      ((ExpenseManager.mk indexNameExpenses).getTotalByCategory "a").keys.indexOf "2" ∧
    indexNameExpenses.findIdx (fun e => decide (e.tripId = "a" ∧ e.category = "2")) <
      indexNameExpenses.findIdx (fun e => decide (e.tripId = "a" ∧ e.category = "1")) ∧
    ¬ (((ExpenseManager.mk indexNameExpenses).getTotalByCategory "a").keys.indexOf "1" <
        ((ExpenseManager.mk indexNameExpenses).getTotalByCategory "a").keys.indexOf "2" ↔
      indexNameExpenses.findIdx (fun e => decide (e.tripId = "a" ∧ e.category = "1")) <
        indexNameExpenses.findIdx (fun e => decide (e.tripId = "a" ∧ e.category = "2"))) := by
  decide


/-! ## AnalyticsManager.getTopExpenses -/

theorem amountDesc_total : IsTotal Expense (fun a b => b.amount - a.amount ≤ 0) :=
  ⟨fun a b => by
    rcases le_total a.amount b.amount with h | h
    · right; linarith
    · left; linarith⟩

theorem amountDesc_trans : IsTrans Expense (fun a b => b.amount - a.amount ≤ 0) :=
  ⟨fun a b c hab hbc => by linarith⟩

theorem filter_orderedInsert_amount (a : ℚ) (x : Expense) (s : List Expense) :
    (s.orderedInsert (fun a b => b.amount - a.amount ≤ 0) x).filter
        (fun e => decide (e.amount = a)) =
      if x.amount = a then x :: s.filter (fun e => decide (e.amount = a))
      else s.filter (fun e => decide (e.amount = a)) := by
  induction s with
  | nil => by_cases h : x.amount = a <;> simp [h]
  | cons b s ih =>
    rw [List.orderedInsert]
    by_cases hr : b.amount - x.amount ≤ 0
    · rw [if_pos hr]
      by_cases h : x.amount = a <;> simp [List.filter_cons, h]
    · rw [if_neg hr, List.filter_cons, ih]
      by_cases h : x.amount = a
      · have hb : b.amount ≠ a := fun e => hr (by rw [e, h]; simp)
        simp [h, hb, List.filter_cons]
      · by_cases hb : b.amount = a <;> simp [h, hb, List.filter_cons]

theorem filter_jsSort_amount (a : ℚ) (l : List Expense) :
    (jsSort (fun a b => b.amount - a.amount) l).filter (fun e => decide (e.amount = a)) =
      l.filter (fun e => decide (e.amount = a)) := by
  unfold jsSort
  induction l with
  | nil => rfl
  | cons x l ih =>
    rw [List.insertionSort, filter_orderedInsert_amount, ih]
    by_cases h : x.amount = a <;> simp [h, List.filter_cons]

theorem jsSort_amount_sorted (l : List Expense) :
    (jsSort (fun a b => b.amount - a.amount) l).Pairwise (fun x y => x.amount ≥ y.amount) := by
  unfold jsSort
  have hs := @List.sorted_insertionSort Expense (fun a b => b.amount - a.amount ≤ 0) _
    amountDesc_total amountDesc_trans l
  exact List.Pairwise.imp (fun {x y} h => by show y.amount ≤ x.amount; linarith) hs

theorem jsSort_perm {α : Type} (compare : α → α → ℚ) (l : List α) :
    (jsSort compare l).Perm l :=
  List.perm_insertionSort _ l

/-- C9: `getTopExpenses(tripId, n)` returns `min n k` expenses (`k` the number
of expenses of the trip), all of them held expenses of that trip, in
non-increasing order of amount; the expenses of the trip it omits have amounts
at most those it returns; and for every amount `a` the returned expenses of
amount `a` are an initial segment of the snapshot's expenses of the trip with
amount `a`, in snapshot order (ties keep their original relative order). For
amounts 5, 20, 20, 1 and `n = 2` it returns the two 20-valued expenses in
their original order. -/
theorem getTopExpenses_spec (am : AnalyticsManager) (tripId : String) (n : Nat) (a : ℚ) :
    (am.getTopExpenses tripId n).length =
      min n (am.expenses.filter fun e => decide (e.tripId = tripId)).length ∧
    (∀ e ∈ am.getTopExpenses tripId n, e ∈ am.expenses ∧ e.tripId = tripId) ∧
    (am.getTopExpenses tripId n).Pairwise (fun x y => x.amount ≥ y.amount) ∧
    (∃ omitted : List Expense,
      (am.getTopExpenses tripId n ++ omitted).Perm
        (am.expenses.filter fun e => decide (e.tripId = tripId)) ∧
      ∀ o ∈ omitted, ∀ r ∈ am.getTopExpenses tripId n, o.amount ≤ r.amount) ∧
    ((am.getTopExpenses tripId n).filter fun e => decide (e.amount = a)) <+:
      (am.expenses.filter fun e => decide (e.tripId = tripId ∧ e.amount = a)) ∧
    (AnalyticsManager.mk tiedExpenses).getTopExpenses "a" 2 =
      [ { id := "x2", tripId := "a", category := "food", amount := 20, date := ⟨12⟩ },
        { id := "x3", tripId := "a", category := "activity", amount := 20, date := ⟨13⟩ } ] := by
  have hfilter : (am.expenses.filter fun e => e.tripId == tripId) =
      am.expenses.filter fun e => decide (e.tripId = tripId) := by
    apply List.filter_congr
    intro e _
    rfl
  unfold AnalyticsManager.getTopExpenses
  rw [hfilter]
  generalize hl : (am.expenses.filter fun e => decide (e.tripId = tripId)) = l
  have hsorted := jsSort_amount_sorted l
  have hperm := jsSort_perm (fun a b : Expense => b.amount - a.amount) l
  refine ⟨?_, ?_, ?_, ?_, ?_, ?_⟩
  · rw [List.length_take, hperm.length_eq]
  · intro e he
    have hmem : e ∈ l := hperm.mem_iff.mp (List.mem_of_mem_take he)
    rw [← hl, List.mem_filter, decide_eq_true_iff] at hmem
    exact hmem
  · exact hsorted.sublist (List.take_sublist _ _)
  · refine ⟨(jsSort (fun a b => b.amount - a.amount) l).drop n, ?_, ?_⟩
    · rw [List.take_append_drop]; exact hperm
    · intro o ho r hr
      have := hsorted
      rw [← List.take_append_drop n (jsSort (fun a b => b.amount - a.amount) l),
        List.pairwise_append] at this
      exact this.2.2 r hr o ho
  · have h1 : ((jsSort (fun a b => b.amount - a.amount) l).take n).filter
        (fun e => decide (e.amount = a)) <+:
        (jsSort (fun a b => b.amount - a.amount) l).filter (fun e => decide (e.amount = a)) :=
      List.IsPrefix.filter _ (List.take_prefix _ _)
    subst hl
    rw [filter_jsSort_amount, List.filter_filter] at h1
    have hp : (fun e : Expense => decide (e.tripId = tripId ∧ e.amount = a)) =
        fun e => decide (e.amount = a) && decide (e.tripId = tripId) := by
      funext e
      rw [Bool.eq_iff_iff]
      simp [and_comm]
    rw [hp]
    exact h1
  · decide!


/-! ## AnalyticsManager.getTripSummary -/

theorem foldl_add_amount (l : List Expense) (init : ℚ) :
    l.foldl (fun sum e => sum + e.amount) init = init + (l.map Expense.amount).sum := by
  induction l generalizing init with
  | nil => simp
  | cons e l ih => rw [List.foldl_cons, ih]; simp [add_assoc]

/-- C10: for every trip, its budget a number `b`, and every expense list,
`getTripSummary` returns as `spent` the sum of the amounts of the expenses of
the trip, as `expenses` their count, as `remaining` the maximum of 0 and
`b - spent`, and as `percentage` the minimum of 100 and `100 * spent / b` when
`b > 0` and 0 otherwise; hence the percentage is at most 100 and the remaining
budget is at least 0. -/
theorem getTripSummary_of_budget (am : AnalyticsManager) (trip : Trip) (expenses : List Expense)
    (b : ℚ) (hb : trip.budget = some b) :
    (am.getTripSummary trip expenses).spent =
      ((expenses.filter fun e => decide (e.tripId = trip.id)).map Expense.amount).sum ∧
    (am.getTripSummary trip expenses).expenses =
      (expenses.filter fun e => decide (e.tripId = trip.id)).length ∧
    (am.getTripSummary trip expenses).remaining =
      some (max 0 (b - (am.getTripSummary trip expenses).spent)) ∧
    (am.getTripSummary trip expenses).percentage =
      (if b > 0 then min 100 (100 * (am.getTripSummary trip expenses).spent / b) else 0) ∧
    (am.getTripSummary trip expenses).percentage ≤ 100 ∧
    (∃ r, (am.getTripSummary trip expenses).remaining = some r ∧ 0 ≤ r) := by
  have hfilter : (expenses.filter fun e => e.tripId == trip.id) =
      expenses.filter fun e => decide (e.tripId = trip.id) := by
    apply List.filter_congr
    intro e _
    rfl
  unfold AnalyticsManager.getTripSummary
  simp only [hb, hfilter, foldl_add_amount, zero_add, Option.map_some']
  refine ⟨trivial, trivial, trivial, ?_, min_le_right _ _, _, rfl, le_max_left _ _⟩
  by_cases hpos : b > 0
  · simp only [hpos, if_true]
    rw [min_comm]
    congr 1
    ring
  · simp [hpos]

/-- Witness of C10: trip `a` (budget 100) with the sample expenses (22 spent
on it) has 78 remaining and a percentage of 22. -/
theorem getTripSummary_of_budget_witness :
    tripA.budget = some 100 ∧
    ((AnalyticsManager.mk []).getTripSummary tripA sampleExpenses).remaining = some 78 ∧
    ((AnalyticsManager.mk []).getTripSummary tripA sampleExpenses).percentage = 22 ∧
    ((AnalyticsManager.mk []).getTripSummary tripA sampleExpenses).percentage ≤ 100 :=
  ⟨rfl, by decide!, by decide!,
    (getTripSummary_of_budget (AnalyticsManager.mk []) tripA sampleExpenses 100 rfl).2.2.2.2.1⟩

/-- Instance of `getTripSummary` on a trip spent beyond its budget: with a
budget of 20 and 22 spent the remaining budget is 0 and the percentage 100. -/
theorem getTripSummary_overspent_example :
    ((AnalyticsManager.mk []).getTripSummary { tripA with budget := some 20 }
      sampleExpenses).remaining = some 0 ∧
    ((AnalyticsManager.mk []).getTripSummary { tripA with budget := some 20 }
      sampleExpenses).percentage = 100 ∧
    ((AnalyticsManager.mk []).getTripSummary { tripA with budget := some 0 }
      sampleExpenses).percentage = 0 := by
  decide!

/-! ## ExpenseManager.getFilteredExpenses -/

/-- C19: `getFilteredExpenses(tripId, category)` is the held list filtered, in
held order, by (tripId empty or equal to the expense's trip id) and (category
empty or equal to the expense's category); an expense is returned iff it is
held and satisfies both, and with both filters empty the result is the whole
held list. -/
theorem getFilteredExpenses_spec (m : ExpenseManager) (tripId category : String) (e : Expense) :
    m.getFilteredExpenses tripId category =
      (m.expenses.filter fun x =>
        decide ((tripId = "" ∨ x.tripId = tripId) ∧ (category = "" ∨ x.category = category))) ∧
    (e ∈ m.getFilteredExpenses tripId category ↔
      e ∈ m.expenses ∧ (tripId = "" ∨ e.tripId = tripId) ∧
        (category = "" ∨ e.category = category)) ∧
    (m.getFilteredExpenses tripId category).Sublist m.expenses ∧
    m.getFilteredExpenses "" "" = m.expenses := by
  have heq : m.getFilteredExpenses tripId category =
      (m.expenses.filter fun x =>
        decide ((tripId = "" ∨ x.tripId = tripId) ∧
          (category = "" ∨ x.category = category))) := by
    unfold ExpenseManager.getFilteredExpenses
    apply List.filter_congr
    intro x _
    rw [Bool.eq_iff_iff]
    simp
  refine ⟨heq, ?_, ?_, ?_⟩
  · rw [heq, List.mem_filter, decide_eq_true_iff]
  · rw [heq]; exact List.filter_sublist _
  · unfold ExpenseManager.getFilteredExpenses
    rw [List.filter_eq_self]
    intro x _
    simp

/-! ## AnalyticsManager.getAverageDaily -/

/-- C11 (amended): for the trip found for `tripId`, when its end date is later
than its start date minus one day (in particular when start ≤ end),
`getAverageDaily` is the total amount of the trip's expenses divided by
`max(1, ceil((endDate - startDate) / 1 day))`; and when no trip is found (or
no trip manager is set) the result is 0. -/
theorem getAverageDaily_spec (am : AnalyticsManager) (m : TripManager) (tripId : String)
    (trip : Trip) (hfound : (m.trips.find? fun t => t.id == tripId) = some trip)
    (hdates : -(1000 * 60 * 60 * 24) < trip.endDate.toMillis - trip.startDate.toMillis) :
    am.getAverageDaily (some m) tripId =
      ((am.expenses.filter fun e => decide (e.tripId = tripId)).map Expense.amount).sum /
        max 1 ((⌈((trip.endDate.toMillis - trip.startDate.toMillis : Int) : ℚ) /
          (1000 * 60 * 60 * 24)⌉ : Int) : ℚ) ∧
    (∀ other : Option TripManager,
      (other.bind fun o => o.trips.find? fun t => t.id == tripId) = none →
        am.getAverageDaily other tripId = 0) := by
  have hfilter : (am.expenses.filter fun e => e.tripId == tripId) =
      am.expenses.filter fun e => decide (e.tripId = tripId) := by
    apply List.filter_congr
    intro e _
    rfl
  have hgen : am.getAverageDaily (some m) tripId =
      ((am.expenses.filter fun e => decide (e.tripId = tripId)).map Expense.amount).sum /
        (if ⌈((trip.endDate.toMillis - trip.startDate.toMillis : Int) : ℚ) /
            (1000 * 60 * 60 * 24)⌉ = 0 then (1 : ℚ)
          else ((⌈((trip.endDate.toMillis - trip.startDate.toMillis : Int) : ℚ) /
            (1000 * 60 * 60 * 24)⌉ : Int) : ℚ)) := by
    unfold AnalyticsManager.getAverageDaily
    rw [Option.some_bind, hfound]
    simp only [hfilter, foldl_add_amount, zero_add]
    congr 1
    unfold averageDays
    simp only []
    split_ifs
    · exact Int.cast_one
    · rfl
  refine ⟨?_, ?_⟩
  · rw [hgen]
    congr 1
    have hq : (-1 : ℚ) < ((trip.endDate.toMillis - trip.startDate.toMillis : Int) : ℚ) /
        (1000 * 60 * 60 * 24) := by
      rw [lt_div_iff₀ (by norm_num)]
      have : ((-(1000 * 60 * 60 * 24) : Int) : ℚ) <
          ((trip.endDate.toMillis - trip.startDate.toMillis : Int) : ℚ) := by
        exact_mod_cast hdates
      push_cast at this ⊢
      linarith
    have hceil : (0 : Int) ≤ ⌈((trip.endDate.toMillis - trip.startDate.toMillis : Int) : ℚ) /
        (1000 * 60 * 60 * 24)⌉ := by
      have h1 := Int.le_ceil (((trip.endDate.toMillis - trip.startDate.toMillis : Int) : ℚ) /
        (1000 * 60 * 60 * 24))
      have h2 : ((-1 : Int) : ℚ) < ((⌈((trip.endDate.toMillis - trip.startDate.toMillis : Int) : ℚ) /
        (1000 * 60 * 60 * 24)⌉ : Int) : ℚ) := by
        rw [Int.cast_neg, Int.cast_one]
        exact lt_of_lt_of_le hq h1
      have h3 := Int.cast_lt.mp h2
      omega
    split_ifs with h0
    · rw [h0]; simp
    · have hpos : (1 : Int) ≤ ⌈((trip.endDate.toMillis - trip.startDate.toMillis : Int) : ℚ) /
          (1000 * 60 * 60 * 24)⌉ := by omega
      have : (1 : ℚ) ≤ ((⌈((trip.endDate.toMillis - trip.startDate.toMillis : Int) : ℚ) /
          (1000 * 60 * 60 * 24)⌉ : Int) : ℚ) := by exact_mod_cast hpos
      rw [max_eq_right this]
  · intro other hnone
    unfold AnalyticsManager.getAverageDaily
    rw [hnone]

/-- Witness of C11 (amended): the long trip lasts three days and a half, so
its expenses 10 and 30 average to 40 / 4 = 10. -/
theorem getAverageDaily_spec_witness :
    ((TripManager.mk [tripA, longTrip]).trips.find? fun t => t.id == "l") = some longTrip ∧
    -(1000 * 60 * 60 * 24) < longTrip.endDate.toMillis - longTrip.startDate.toMillis ∧
    (AnalyticsManager.mk longTripExpenses).getAverageDaily (some ⟨[tripA, longTrip]⟩) "l" = 10 ∧
    (AnalyticsManager.mk longTripExpenses).getAverageDaily (some ⟨[tripA, longTrip]⟩) "l" =
      ((longTripExpenses.filter fun e => decide (e.tripId = "l")).map Expense.amount).sum /
        max 1 ((⌈((longTrip.endDate.toMillis - longTrip.startDate.toMillis : Int) : ℚ) /
          (1000 * 60 * 60 * 24)⌉ : Int) : ℚ) :=
  ⟨by decide, by decide, by decide!,
    (getAverageDaily_spec (AnalyticsManager.mk longTripExpenses) ⟨[tripA, longTrip]⟩ "l" longTrip
      (by decide) (by decide)).1⟩

/-- Counterexample to C11 as stated: for the trip that ends two days and a
third before it starts, with one expense of 10, the divisor is
`ceil(-2.31) = -2` and the average is `-5`, not `10 / max(1, -2) = 10`. -/
theorem getAverageDaily_reversed_counterexample :
    ((TripManager.mk [reversedTrip]).trips.find? fun t => t.id == "r") = some reversedTrip ∧
    (AnalyticsManager.mk reversedExpenses).getAverageDaily (some ⟨[reversedTrip]⟩) "r" = -5 ∧
    ((reversedExpenses.filter fun e => decide (e.tripId = "r")).map Expense.amount).sum /
        max 1 ((⌈((reversedTrip.endDate.toMillis - reversedTrip.startDate.toMillis : Int) : ℚ) /
          (1000 * 60 * 60 * 24)⌉ : Int) : ℚ) = 10 ∧
    (AnalyticsManager.mk reversedExpenses).getAverageDaily (some ⟨[reversedTrip]⟩) "r" ≠
      ((reversedExpenses.filter fun e => decide (e.tripId = "r")).map Expense.amount).sum /
        max 1 ((⌈((reversedTrip.endDate.toMillis - reversedTrip.startDate.toMillis : Int) : ℚ) /
          (1000 * 60 * 60 * 24)⌉ : Int) : ℚ) := by
  decide!

/-! ## ValidationManager -/

theorem isFalsyString_iff (v : Option String) :
    isFalsyString v = true ↔ v = none ∨ v = some "" := by
  cases v with
  | none => simp [isFalsyString]
  | some s => simp [isFalsyString]

theorem numberInvalid_iff (v : Option ℚ) :
    (isFalsyNumber v || isAtMostZero v) = true ↔ v = none ∨ ∃ q, v = some q ∧ q ≤ 0 := by
  cases v with
  | none => simp [isFalsyNumber, isAtMostZero]
  | some q =>
    simp only [isFalsyNumber, isAtMostZero, Bool.or_eq_true, decide_eq_true_iff, false_or,
      Option.some.injEq, exists_eq_left', reduceCtorEq]
    constructor
    · rintro (h | h)
      · exact le_of_eq h
      · exact h
    · exact fun h => Or.inr h

theorem dateGreater_iff (a b : Option Int) :
    dateGreater a b = true ↔ ∃ x y, a = some x ∧ b = some y ∧ y < x := by
  cases a <;> cases b <;> simp [dateGreater]

theorem nameTooShort_ok (name : Option String) :
    ∃ b : Bool, nameTooShort name = Except.ok b ∧
      (b = true ↔ name = none ∨ ∃ s, name = some s ∧ jsLength s < 2) := by
  cases name with
  | none => exact ⟨true, rfl, by simp⟩
  | some s =>
    by_cases hs : s = ""
    · subst hs
      exact ⟨true, rfl, by simp [jsLength]⟩
    · refine ⟨decide (jsLength s < 2), ?_, by simp⟩
      simp [nameTooShort, isFalsyString, hs, readLength]

theorem ErrorMap.keys_set (errors : ErrorMap) (field message : String) :
    (errors.set field message).keys =
      if field ∈ errors.keys then errors.keys else errors.keys ++ [field] := by
  unfold ErrorMap.set ErrorMap.keys
  have hany : (errors.any fun p => p.1 == field) = true ↔ field ∈ errors.map Prod.fst := by
    rw [List.any_eq_true, List.mem_map]
    constructor
    · rintro ⟨p, hp, h⟩
      exact ⟨p, hp, by simpa using h⟩
    · rintro ⟨p, hp, h⟩
      exact ⟨p, hp, by simpa using h⟩
  by_cases h : (errors.any fun p => p.1 == field) = true
  · rw [if_pos h, if_pos (hany.mp h), List.map_map]
    apply List.map_congr_left
    intro p _
    by_cases hp : p.1 = field <;> simp [hp]
  · rw [if_neg h, if_neg (fun hin => h (hany.mpr hin))]
    simp

theorem ErrorMap.mem_keys_step (errors : ErrorMap) (c : Bool) (field message k : String) :
    k ∈ (if c = true then errors.set field message else errors).keys ↔
      k ∈ errors.keys ∨ (c = true ∧ k = field) := by
  cases c with
  | false => simp
  | true =>
    simp only [if_true, ErrorMap.keys_set, true_and]
    split_ifs with h
    · constructor
      · exact Or.inl
      · rintro (h1 | h1)
        · exact h1
        · exact h1 ▸ h
    · simp

theorem ErrorMap.keys_nil : ErrorMap.keys [] = [] := rfl

/-- C12: `validateTrip` returns a result whose error keys are exactly: `name`
iff the name is missing or has fewer than 2 characters (UTF-16 code units, the
`length` of the string); `destination` iff the destination is missing or
empty; `startDate` iff the start date is missing or empty; `endDate` iff the
end date is missing or empty, or both dates parse and the start is later than
the end (the ordering error goes to the end field); `budget` iff the budget is
missing (or `NaN`) or `≤ 0`; `type` iff the type is missing or empty; no other
key occurs, and `isValid` is true iff there is no key. For the example input
the keys are name, destination, endDate, budget, type. -/
theorem validateTrip_error_keys (parseDate : String → Option Int) (tripData : TripInput) :
    ∃ r : ValidationResult,
      ValidationManager.validateTrip parseDate tripData = Except.ok r ∧
      ("name" ∈ r.errors.keys ↔
        tripData.name = none ∨ ∃ s, tripData.name = some s ∧ jsLength s < 2) ∧
      ("destination" ∈ r.errors.keys ↔
        tripData.destination = none ∨ tripData.destination = some "") ∧
      ("startDate" ∈ r.errors.keys ↔
        tripData.startDate = none ∨ tripData.startDate = some "") ∧
      ("endDate" ∈ r.errors.keys ↔
        (tripData.endDate = none ∨ tripData.endDate = some "") ∨
          ∃ x y, newDate parseDate tripData.startDate = some x ∧
            newDate parseDate tripData.endDate = some y ∧ y < x) ∧
      ("budget" ∈ r.errors.keys ↔
        tripData.budget = none ∨ ∃ q, tripData.budget = some q ∧ q ≤ 0) ∧
      ("type" ∈ r.errors.keys ↔ tripData.type = none ∨ tripData.type = some "") ∧
      (∀ k ∈ r.errors.keys,
        k ∈ ["name", "destination", "startDate", "endDate", "budget", "type"]) ∧
      (r.isValid = true ↔ r.errors.keys = []) ∧
      (ValidationManager.validateTrip isoDateToMillis invalidTripInput).toOption.map
          (fun res => (res.isValid, res.errors.keys)) =
        some (false, ["name", "destination", "endDate", "budget", "type"]) := by
  obtain ⟨b1, hb1, hn⟩ := nameTooShort_ok tripData.name
  unfold ValidationManager.validateTrip
  rw [hb1]
  refine ⟨_, rfl, ?_, ?_, ?_, ?_, ?_, ?_, ?_, ?_, by decide!⟩
  · simp only [ErrorMap.mem_keys_step, ErrorMap.keys_nil, List.not_mem_nil, false_or]
    rw [← hn]
    simp
  · simp only [ErrorMap.mem_keys_step, ErrorMap.keys_nil, List.not_mem_nil, false_or]
    rw [← isFalsyString_iff]
    simp
  · simp only [ErrorMap.mem_keys_step, ErrorMap.keys_nil, List.not_mem_nil, false_or]
    rw [← isFalsyString_iff]
    simp
  · simp only [ErrorMap.mem_keys_step, ErrorMap.keys_nil, List.not_mem_nil, false_or]
    rw [← isFalsyString_iff, ← dateGreater_iff]
    simp
  · simp only [ErrorMap.mem_keys_step, ErrorMap.keys_nil, List.not_mem_nil, false_or]
    rw [← numberInvalid_iff]
    simp
  · simp only [ErrorMap.mem_keys_step, ErrorMap.keys_nil, List.not_mem_nil, false_or]
    rw [← isFalsyString_iff]
    simp
  · intro k hk
    simp only [ErrorMap.mem_keys_step, ErrorMap.keys_nil, List.not_mem_nil, false_or] at hk
    simp only [List.mem_cons, List.mem_singleton]
    tauto
  · show (List.length _ == 0) = true ↔ _
    rw [beq_iff_eq]
    exact List.length_eq_zero

theorem validateExpense_keys (e : ExpenseInput) (k : String) :
    k ∈ (ValidationManager.validateExpense e).errors.keys ↔
      (isFalsyString e.tripId = true ∧ k = "tripId") ∨
      (isFalsyString e.category = true ∧ k = "category") ∨
      ((isFalsyNumber e.amount || isAtMostZero e.amount) = true ∧ k = "amount") ∨
      (isFalsyString e.date = true ∧ k = "date") := by
  unfold ValidationManager.validateExpense
  simp only [ErrorMap.mem_keys_step, ErrorMap.keys_nil, List.not_mem_nil, false_or]
  tauto

theorem validateExpense_isValid (e : ExpenseInput) :
    (ValidationManager.validateExpense e).isValid = true ↔
      (ValidationManager.validateExpense e).errors.keys = [] := by
  show (List.length _ == 0) = true ↔ _
  rw [beq_iff_eq]
  exact List.length_eq_zero

theorem not_isFalsyString_iff (v : Option String) :
    ¬ isFalsyString v = true ↔ ∃ s, v = some s ∧ s ≠ "" := by
  cases v with
  | none => simp [isFalsyString]
  | some s => simp [isFalsyString]

theorem not_numberInvalid_iff (v : Option ℚ) :
    ¬ (isFalsyNumber v || isAtMostZero v) = true ↔ ∃ q, v = some q ∧ 0 < q := by
  rw [numberInvalid_iff]
  cases v with
  | none => simp
  | some q => simp

/-- C13: `validateExpense` is valid iff the trip id and the category are
non-empty, the amount is present and `> 0` and the date is present (non-empty);
its error keys are exactly the names of the fields `tripId`, `category`,
`amount`, `date` that fail their check. -/
theorem validateExpense_spec (e : ExpenseInput) :
    ((ValidationManager.validateExpense e).isValid = true ↔
      (∃ t, e.tripId = some t ∧ t ≠ "") ∧ (∃ c, e.category = some c ∧ c ≠ "") ∧
        (∃ a, e.amount = some a ∧ 0 < a) ∧ (∃ d, e.date = some d ∧ d ≠ "")) ∧
    ("tripId" ∈ (ValidationManager.validateExpense e).errors.keys ↔
      e.tripId = none ∨ e.tripId = some "") ∧
    ("category" ∈ (ValidationManager.validateExpense e).errors.keys ↔
      e.category = none ∨ e.category = some "") ∧
    ("amount" ∈ (ValidationManager.validateExpense e).errors.keys ↔
      e.amount = none ∨ ∃ q, e.amount = some q ∧ q ≤ 0) ∧
    ("date" ∈ (ValidationManager.validateExpense e).errors.keys ↔
      e.date = none ∨ e.date = some "") ∧
    (∀ k ∈ (ValidationManager.validateExpense e).errors.keys,
      k ∈ ["tripId", "category", "amount", "date"]) := by
  refine ⟨?_, ?_, ?_, ?_, ?_, ?_⟩
  · rw [validateExpense_isValid, List.eq_nil_iff_forall_not_mem,
      ← not_isFalsyString_iff, ← not_isFalsyString_iff, ← not_isFalsyString_iff,
      ← not_numberInvalid_iff]
    constructor
    · intro h
      refine ⟨?_, ?_, ?_, ?_⟩
      · exact fun hc => h "tripId" ((validateExpense_keys e _).mpr (Or.inl ⟨hc, rfl⟩))
      · exact fun hc => h "category" ((validateExpense_keys e _).mpr (Or.inr (Or.inl ⟨hc, rfl⟩)))
      · exact fun hc =>
          h "amount" ((validateExpense_keys e _).mpr (Or.inr (Or.inr (Or.inl ⟨hc, rfl⟩))))
      · exact fun hc =>
          h "date" ((validateExpense_keys e _).mpr (Or.inr (Or.inr (Or.inr ⟨hc, rfl⟩))))
    · rintro ⟨h1, h2, h3, h4⟩ k hk
      rcases (validateExpense_keys e k).mp hk with h | h | h | h
      · exact h1 h.1
      · exact h2 h.1
      · exact h3 h.1
      · exact h4 h.1
  · rw [validateExpense_keys, ← isFalsyString_iff]; simp
  · rw [validateExpense_keys, ← isFalsyString_iff]; simp
  · rw [validateExpense_keys, ← numberInvalid_iff]; simp
  · rw [validateExpense_keys, ← isFalsyString_iff]; simp
  · intro k hk
    rw [validateExpense_keys] at hk
    simp only [List.mem_cons, List.mem_singleton]
    tauto

/-- C14: the validators are total on records. `validateTrip` returns a result
(the only operation of its body that can throw, reading `name.length`, is
guarded by `!name ||`) and `validateExpense` has no operation that can throw;
both are invalid exactly when the errors map is non-empty. A record with every
field missing, and one with unparsable dates and a `NaN` budget, give results
with the failing fields as error keys. -/
theorem validators_total (parseDate : String → Option Int) (tripData : TripInput)
    (expenseData : ExpenseInput) :
    (∃ r : ValidationResult,
      ValidationManager.validateTrip parseDate tripData = Except.ok r ∧
      (r.isValid = false ↔ r.errors ≠ [])) ∧
    ((ValidationManager.validateExpense expenseData).isValid = false ↔
      (ValidationManager.validateExpense expenseData).errors ≠ []) ∧
    (ValidationManager.validateTrip isoDateToMillis emptyTripInput).toOption.map
        (fun res => (res.isValid, res.errors.keys)) =
      some (false, ["name", "destination", "startDate", "endDate", "budget", "type"]) ∧
    (ValidationManager.validateTrip isoDateToMillis
        { name := some "Trip", destination := some "Somewhere", startDate := some "soon",
          endDate := some "tomorrow", budget := none, type := some "leisure" }).toOption.map
        (fun res => (res.isValid, res.errors.keys)) = some (false, ["budget"]) ∧
    ((ValidationManager.validateExpense
        { tripId := none, category := none, amount := none, date := none }).isValid = false ∧
      (ValidationManager.validateExpense
        { tripId := none, category := none, amount := none, date := none }).errors.keys =
        ["tripId", "category", "amount", "date"]) := by
  have hlen : ∀ errors : ErrorMap, ((errors.keys.length == 0) = false ↔ errors ≠ []) := by
    intro errors
    cases errors <;> simp [ErrorMap.keys]
  obtain ⟨b1, hb1, _⟩ := nameTooShort_ok tripData.name
  refine ⟨?_, hlen _, by decide!, by decide!, by decide!, by decide!⟩
  unfold ValidationManager.validateTrip
  rw [hb1]
  exact ⟨_, rfl, hlen _⟩

/-! ## Methods that write to the document store -/

theorem Record.get_append_single (r : Record) (key c : String) (v : FieldValue)
    (hkey : ¬ (r.any fun p => p.1 == key) = true) :
    Record.get (r ++ [(key, v)]) c = if c = key then some v else r.get c := by
  induction r with
  | nil =>
    by_cases h : key = c
    · simp [Record.get, h]
    · simp [Record.get, h, Ne.symm h]
  | cons p r ih =>
    obtain ⟨k, w⟩ := p
    have hk : k ≠ key := fun h => hkey (by simp [h])
    have hrest : ¬ (r.any fun p => p.1 == key) = true := fun h => hkey (by simp [h])
    by_cases h : k = c
    · have hc : c ≠ key := fun e => hk (h.trans e)
      simp [Record.get, h, hc]
    · simp [Record.get, h, ih hrest]

theorem Record.get_map_update (r : Record) (key c : String) (v : FieldValue) :
    Record.get (r.map fun p => if p.1 = key then (p.1, v) else p) c =
      if c = key then (r.get c).map (fun _ => v) else r.get c := by
  induction r with
  | nil => simp [Record.get]
  | cons p r ih =>
    obtain ⟨k, w⟩ := p
    rw [List.map_cons]
    by_cases hk : k = key
    · rw [if_pos hk]
      show (if k = c then some v else Record.get _ c) = _
      rw [ih]
      show _ = if c = key then (if k = c then some w else Record.get r c).map _ else
        (if k = c then some w else Record.get r c)
      by_cases h : k = c
      · have hc : c = key := h.symm.trans hk
        simp [h, hc]
      · simp [h]
    · rw [if_neg hk]
      show (if k = c then some w else Record.get _ c) = _
      rw [ih]
      show _ = if c = key then (if k = c then some w else Record.get r c).map _ else
        (if k = c then some w else Record.get r c)
      by_cases h : k = c
      · have hc : c ≠ key := fun e => hk (h.trans e)
        simp [h, hc]
      · simp [h]

theorem Record.get_isSome_of_any (r : Record) (key : String)
    (h : (r.any fun p => p.1 == key) = true) : ∃ w, r.get key = some w := by
  induction r with
  | nil => simp at h
  | cons p r ih =>
    obtain ⟨k, w⟩ := p
    by_cases hk : k = key
    · exact ⟨w, by simp [Record.get, hk]⟩
    · have : (r.any fun p => p.1 == key) = true := by
        simpa [hk] using h
      obtain ⟨w', hw'⟩ := ih this
      exact ⟨w', by simp [Record.get, hk, hw']⟩

theorem Record.get_define (r : Record) (key c : String) (v : FieldValue) :
    (r.define key v).get c = if c = key then some v else r.get c := by
  unfold Record.define
  by_cases h : (r.any fun p => p.1 == key) = true
  · rw [if_pos h, Record.get_map_update]
    by_cases hc : c = key
    · obtain ⟨w, hw⟩ := Record.get_isSome_of_any r key h
      simp [hc, hw]
    · simp [hc]
  · rw [if_neg h]
    exact Record.get_append_single r key c v h

/-- C15: after a successful `deleteTrip(id)` (resp. `deleteExpense(id)`) the
held list is the previous held list without the records whose id is `id`: no
held record has that id, every other record is still held, and the remaining
records are in their previous order. -/
theorem delete_removes_id (tm : TripManager) (em : ExpenseManager) (store : DataStore)
    (id : String) :
    (∀ r, (tm.deleteTrip store id).1 = Except.ok r →
      (tm.deleteTrip store id).2.trips = (tm.trips.filter fun t => decide (t.id ≠ id)) ∧
      (∀ t ∈ (tm.deleteTrip store id).2.trips, t.id ≠ id) ∧
      (∀ t ∈ tm.trips, t.id ≠ id → t ∈ (tm.deleteTrip store id).2.trips) ∧
      (tm.deleteTrip store id).2.trips.Sublist tm.trips) ∧
    (∀ r, (em.deleteExpense store id).1 = Except.ok r →
      (em.deleteExpense store id).2.expenses =
        (em.expenses.filter fun x => decide (x.id ≠ id)) ∧
      (∀ x ∈ (em.deleteExpense store id).2.expenses, x.id ≠ id) ∧
      (∀ x ∈ em.expenses, x.id ≠ id → x ∈ (em.deleteExpense store id).2.expenses) ∧
      (em.deleteExpense store id).2.expenses.Sublist em.expenses) := by
  have htrip : (tm.trips.filter fun t => t.id != id) =
      tm.trips.filter fun t => decide (t.id ≠ id) := by
    apply List.filter_congr
    intro t _
    rw [Bool.eq_iff_iff]
    simp
  have hexp : (em.expenses.filter fun x => x.id != id) =
      em.expenses.filter fun x => decide (x.id ≠ id) := by
    apply List.filter_congr
    intro x _
    rw [Bool.eq_iff_iff]
    simp
  constructor
  · intro r hr
    unfold TripManager.deleteTrip at hr ⊢
    cases himp : store.importModule with
    | error e => simp [himp] at hr
    | ok u =>
      cases hdel : store.deleteDoc "trips" id with
      | error e => simp [himp, hdel] at hr
      | ok u' =>
        simp only [htrip]
        refine ⟨trivial, ?_, ?_, List.filter_sublist _⟩
        · intro t ht
          exact of_decide_eq_true (List.mem_filter.mp ht).2
        · intro t ht hne
          exact List.mem_filter.mpr ⟨ht, decide_eq_true hne⟩
  · intro r hr
    unfold ExpenseManager.deleteExpense at hr ⊢
    cases himp : store.importModule with
    | error e => simp [himp] at hr
    | ok u =>
      cases hdel : store.deleteDoc "expenses" id with
      | error e => simp [himp, hdel] at hr
      | ok u' =>
        simp only [hexp]
        refine ⟨trivial, ?_, ?_, List.filter_sublist _⟩
        · intro x hx
          exact of_decide_eq_true (List.mem_filter.mp hx).2
        · intro x hx hne
          exact List.mem_filter.mpr ⟨hx, decide_eq_true hne⟩

/-- Instance of C15 on the sample trips with a store on which every call
succeeds: deleting `a` leaves the trips `b` and `c`. -/
theorem delete_removes_id_witness :
    (sampleTripManager.deleteTrip workingStore "a").1 = Except.ok true ∧
    (sampleTripManager.deleteTrip workingStore "a").2.trips = [tripB, tripC] ∧
    (sampleTripManager.deleteTrip workingStore "a").2.trips =
      (sampleTripManager.trips.filter fun t => decide (t.id ≠ "a")) :=
  ⟨rfl, by decide,
    ((delete_removes_id sampleTripManager ⟨sampleExpenses⟩ workingStore "a").1 true rfl).1⟩

/-- C16: when the store accepts the delete, deleting an id that no held record
has returns `true` and leaves the held list as it was, and deleting an id a
second time returns `true` and leaves the held list as the first delete left
it. -/
theorem delete_absent_noop (tm : TripManager) (em : ExpenseManager) (store : DataStore)
    (id : String) (himp : store.importModule = Except.ok ())
    (hdt : store.deleteDoc "trips" id = Except.ok ())
    (hde : store.deleteDoc "expenses" id = Except.ok ()) :
    ((∀ t ∈ tm.trips, t.id ≠ id) → tm.deleteTrip store id = (Except.ok true, tm)) ∧
    ((∀ x ∈ em.expenses, x.id ≠ id) → em.deleteExpense store id = (Except.ok true, em)) ∧
    (tm.deleteTrip store id).2.deleteTrip store id =
      (Except.ok true, (tm.deleteTrip store id).2) ∧
    (em.deleteExpense store id).2.deleteExpense store id =
      (Except.ok true, (em.deleteExpense store id).2) := by
  have htrip : ∀ m : TripManager, m.deleteTrip store id =
      (Except.ok true, { trips := m.trips.filter fun t => t.id != id }) := by
    intro m
    unfold TripManager.deleteTrip
    rw [himp, hdt]
  have hexp : ∀ m : ExpenseManager, m.deleteExpense store id =
      (Except.ok true, { expenses := m.expenses.filter fun x => x.id != id }) := by
    intro m
    unfold ExpenseManager.deleteExpense
    rw [himp, hde]
  refine ⟨?_, ?_, ?_, ?_⟩
  · intro h
    rw [htrip]
    congr 1
    obtain ⟨l⟩ := tm
    congr 1
    rw [List.filter_eq_self]
    intro t ht
    simpa using h t ht
  · intro h
    rw [hexp]
    congr 1
    obtain ⟨l⟩ := em
    congr 1
    rw [List.filter_eq_self]
    intro x hx
    simpa using h x hx
  · rw [htrip tm, htrip]
    congr 2
    simp only [List.filter_filter, Bool.and_self]
  · rw [hexp em, hexp]
    congr 2
    simp only [List.filter_filter, Bool.and_self]

/-- Witness of C16: with the store on which every call succeeds, deleting the
id `zz`, which no sample trip has, returns `true` and keeps the three trips. -/
theorem delete_absent_noop_witness :
    workingStore.importModule = Except.ok () ∧
    workingStore.deleteDoc "trips" "zz" = Except.ok () ∧
    (∀ t ∈ sampleTripManager.trips, t.id ≠ "zz") ∧
    sampleTripManager.deleteTrip workingStore "zz" = (Except.ok true, sampleTripManager) :=
  ⟨rfl, rfl, by decide,
    (delete_absent_noop sampleTripManager ⟨sampleExpenses⟩ workingStore "zz" rfl rfl rfl).1
      (by decide)⟩

/-- C17: when the store call inside `deleteTrip`, `deleteExpense`, `createTrip`
or `createExpense` fails with an error `e` (loading the module, or the delete
or add itself), the method fails with the same `e` and the held list is what it
was before the call. -/
theorem store_error_propagates (tm : TripManager) (em : ExpenseManager) (store : DataStore)
    (e : JSError) (id userId : String) (data : Record) :
    ((store.importModule = Except.error e ∨
        (store.importModule = Except.ok () ∧ store.deleteDoc "trips" id = Except.error e)) →
      tm.deleteTrip store id = (Except.error e, tm)) ∧
    ((store.importModule = Except.error e ∨
        (store.importModule = Except.ok () ∧
          store.deleteDoc "expenses" id = Except.error e)) →
      em.deleteExpense store id = (Except.error e, em)) ∧
    ((store.importModule = Except.error e ∨
        (store.importModule = Except.ok () ∧
          store.addDoc "trips" (tripWithMetadata data userId) = Except.error e)) →
      tm.createTrip store data userId = (Except.error e, tm)) ∧
    ((store.importModule = Except.error e ∨
        (store.importModule = Except.ok () ∧
          store.addDoc "expenses" (expenseWithMetadata data userId) = Except.error e)) →
      em.createExpense store data userId = (Except.error e, em)) := by
  unfold TripManager.deleteTrip ExpenseManager.deleteExpense TripManager.createTrip
    ExpenseManager.createExpense
  refine ⟨?_, ?_, ?_, ?_⟩ <;>
    · rintro (h | ⟨h0, h1⟩)
      · simp only [h]
      · simp only [h0, h1]

/-- Witness of C17: the store that rejects every write, and the store whose
module does not load, make `deleteTrip` fail with their error and keep the
sample trips held. -/
theorem store_error_propagates_witness :
    (rejectingStore.importModule = Except.ok () ∧
      rejectingStore.deleteDoc "trips" "a" = Except.error ⟨"permission-denied"⟩) ∧
    sampleTripManager.deleteTrip rejectingStore "a" =
      (Except.error ⟨"permission-denied"⟩, sampleTripManager) ∧
    sampleTripManager.createTrip rejectingStore sampleTripData "u1" =
      (Except.error ⟨"permission-denied"⟩, sampleTripManager) ∧
    sampleTripManager.deleteTrip offlineStore "a" =
      (Except.error ⟨"Failed to fetch dynamically imported module"⟩, sampleTripManager) :=
  ⟨⟨rfl, rfl⟩,
    (store_error_propagates sampleTripManager ⟨sampleExpenses⟩ rejectingStore
      ⟨"permission-denied"⟩ "a" "u1" sampleTripData).1 (Or.inr ⟨rfl, rfl⟩),
    (store_error_propagates sampleTripManager ⟨sampleExpenses⟩ rejectingStore
      ⟨"permission-denied"⟩ "a" "u1" sampleTripData).2.2.1 (Or.inr ⟨rfl, rfl⟩),
    (store_error_propagates sampleTripManager ⟨sampleExpenses⟩ offlineStore
      ⟨"Failed to fetch dynamically imported module"⟩ "a" "u1" sampleTripData).1 (Or.inl rfl)⟩

/-- C18: `createTrip` passes to `addDoc` (collection `trips`) the record
`tripWithMetadata`, which has `userId` = the owner id, `spent` = 0 and
`createdAt` = the server timestamp whatever the input holds for them, and
agrees with the input on every other field; the held trips are unchanged. -/
theorem createTrip_record (tm : TripManager) (store : DataStore) (tripData : Record)
    (ownerId : String) (key : String) :
    (store.importModule = Except.ok () →
      (tm.createTrip store tripData ownerId).1 =
        store.addDoc "trips" (tripWithMetadata tripData ownerId)) ∧
    (tripWithMetadata tripData ownerId).get "userId" = some (FieldValue.text ownerId) ∧
    (tripWithMetadata tripData ownerId).get "spent" = some (FieldValue.number 0) ∧
    (tripWithMetadata tripData ownerId).get "createdAt" = some FieldValue.serverTimestamp ∧
    (key ≠ "userId" → key ≠ "spent" → key ≠ "createdAt" →
      (tripWithMetadata tripData ownerId).get key = tripData.get key) ∧
    (tm.createTrip store tripData ownerId).2 = tm ∧
    (sampleTripManager.createTrip workingStore sampleTripData "u1" =
        (Except.ok "new-id", sampleTripManager) ∧
      (tripWithMetadata sampleTripData "u1").get "spent" = some (FieldValue.number 0) ∧
      (tripWithMetadata sampleTripData "u1").get "userId" = some (FieldValue.text "u1") ∧
      (tripWithMetadata sampleTripData "u1").get "name" = some (FieldValue.text "Bangkok")) := by
  refine ⟨?_, ?_, ?_, ?_, ?_, ?_, ⟨rfl, by decide, by decide, by decide⟩⟩
  · intro himp
    unfold TripManager.createTrip
    rw [himp]
    dsimp only
    cases h : store.addDoc "trips" (tripWithMetadata tripData ownerId) <;> rfl
  · simp [tripWithMetadata, Record.get_define]
  · simp [tripWithMetadata, Record.get_define]
  · simp [tripWithMetadata, Record.get_define]
  · intro h1 h2 h3
    simp [tripWithMetadata, Record.get_define, h1, h2, h3]
  · unfold TripManager.createTrip
    cases store.importModule with
    | error e => rfl
    | ok u =>
      dsimp only
      cases h : store.addDoc "trips" (tripWithMetadata tripData ownerId) <;> rfl

/-! ## AnalyticsManager.getDailyData -/

theorem getDailyData_eq_relabel (add : ℚ → ℚ → ℚ) (es : List Expense) (day : Int → String)
    (tid : String) :
    (AnalyticsManager.mk es).getDailyData add day tid =
      (ExpenseManager.mk (es.map (relabelByDay day))).getTotalByCategoryWith add tid := by
  unfold AnalyticsManager.getDailyData ExpenseManager.getTotalByCategoryWith
    ExpenseManager.getExpensesByTrip
  simp only [List.filter_map, List.foldl_map]
  rfl

theorem sum_map_ite_eq (ks : List String) (k0 : String) (a : ℚ) (hnd : ks.Nodup)
    (hmem : k0 ∈ ks) : (ks.map fun k => if k0 = k then a else 0).sum = a := by
  induction ks with
  | nil => simp at hmem
  | cons k ks ih =>
    rw [List.nodup_cons] at hnd
    rw [List.map_cons, List.sum_cons]
    by_cases h : k0 = k
    · subst h
      have hzero : (ks.map fun k => if k0 = k then a else 0) = ks.map fun _ => (0 : ℚ) := by
        apply List.map_congr_left
        intro k hk
        have : k0 ≠ k := fun e => hnd.1 (e ▸ hk)
        simp [this]
      rw [hzero]
      simp
    · have hin : k0 ∈ ks := by
        rcases List.mem_cons.mp hmem with e | e
        · exact absurd e h
        · exact e
      rw [ih hnd.2 hin]
      simp [h]

theorem sum_by_key (ks : List String) (hnd : ks.Nodup) (f : Expense → String)
    (l : List Expense) (hmem : ∀ e ∈ l, f e ∈ ks) :
    (ks.map fun k => ((l.filter fun e => decide (f e = k)).map Expense.amount).sum).sum =
      (l.map Expense.amount).sum := by
  induction l with
  | nil => simp
  | cons e l ih =>
    have hstep : (ks.map fun k =>
        (((e :: l).filter fun x => decide (f x = k)).map Expense.amount).sum) =
        ks.map fun k => (if f e = k then e.amount else 0) +
          ((l.filter fun x => decide (f x = k)).map Expense.amount).sum := by
      apply List.map_congr_left
      intro k _
      by_cases h : f e = k <;> simp [List.filter_cons, h]
    rw [hstep, List.sum_map_add, sum_map_ite_eq ks (f e) e.amount hnd (hmem e (by simp)),
      ih (fun x hx => hmem x (List.mem_cons_of_mem _ hx))]
    simp

theorem getOwn_of_mem (o : JSObject) (hnd : (o.map Prod.fst).Nodup) (k : String) (v : JSValue)
    (h : (k, v) ∈ o) : o.getOwn k = some v := by
  induction o with
  | nil => simp at h
  | cons p o ih =>
    obtain ⟨k', v'⟩ := p
    rw [List.map_cons, List.nodup_cons] at hnd
    rcases List.mem_cons.mp h with e | e
    · cases e
      simp [JSObject.getOwn]
    · have hne : k' ≠ k := fun e' => hnd.1 (e' ▸ List.mem_map.mpr ⟨(k, v), e, rfl⟩)
      simp [JSObject.getOwn, hne, ih hnd.2 e]

theorem getTotalByCategory_values_list (es : List Expense) (tid : String)
    (hplain : ∀ e ∈ es, e.tripId = tid → e.category ∉ objectPrototypeKeys) :
    ((ExpenseManager.mk es).getTotalByCategory tid).map Prod.snd =
      (((ExpenseManager.mk es).getTotalByCategory tid).map Prod.fst).map
        fun k => JSValue.number (categorySum es tid k) := by
  rw [List.map_map]
  apply List.map_congr_left
  intro p hp
  obtain ⟨k, v⟩ := p
  have h1 := getOwn_of_mem _ (getTotalByCategory_nodup es tid) k v hp
  rw [getTotalByCategory_values es tid hplain k] at h1
  have hk : k ∈ ((ExpenseManager.mk es).getTotalByCategory tid).map Prod.fst :=
    List.mem_map.mpr ⟨(k, v), hp, rfl⟩
  rw [if_pos ((getTotalByCategory_mem_keys es tid k).mp hk).2] at h1
  simpa using h1.symm

theorem getTotalByCategory_sum (es : List Expense) (tid : String)
    (hplain : ∀ e ∈ es, e.tripId = tid → e.category ∉ objectPrototypeKeys) :
    ((((ExpenseManager.mk es).getTotalByCategory tid).map Prod.fst).map
      fun k => categorySum es tid k).sum =
      ((es.filter fun e => decide (e.tripId = tid)).map Expense.amount).sum := by
  have hsum := sum_by_key (((ExpenseManager.mk es).getTotalByCategory tid).map Prod.fst)
    (getTotalByCategory_nodup es tid) Expense.category
    (es.filter fun e => decide (e.tripId = tid)) (by
      intro e he
      rw [List.mem_filter, decide_eq_true_iff] at he
      rw [getTotalByCategory_mem_keys]
      refine ⟨?_, e, he.1, he.2, rfl⟩
      intro hp
      exact hplain e he.1 he.2 (by rw [hp]; decide))
  rw [← hsum]
  congr 1
  apply List.map_congr_left
  intro k _
  unfold categorySum
  rw [List.filter_filter]
  congr 2
  apply List.filter_congr
  intro e _
  rw [Bool.eq_iff_iff]
  simp [and_comm]

theorem categorySum_relabel (es : List Expense) (day : Int → String) (tid k : String) :
    categorySum (es.map (relabelByDay day)) tid k =
      ((es.filter fun x => decide (x.tripId = tid ∧ day x.date.toMillis = k)).map
        Expense.amount).sum := by
  unfold categorySum
  rw [List.filter_map, List.map_map]
  rfl

theorem exists_relabel_iff (es : List Expense) (day : Int → String) (tid k : String) :
    (∃ e ∈ es.map (relabelByDay day), e.tripId = tid ∧ e.category = k) ↔
      ∃ x ∈ es, x.tripId = tid ∧ day x.date.toMillis = k := by
  constructor
  · rintro ⟨e, he, h1, h2⟩
    obtain ⟨x, hx, rfl⟩ := List.mem_map.mp he
    exact ⟨x, hx, h1, h2⟩
  · rintro ⟨x, hx, h1, h2⟩
    exact ⟨relabelByDay day x, List.mem_map.mpr ⟨x, hx, rfl⟩, h1, h2⟩

/-! ## Addition of numbers -/

theorem roundHalfEven_intCast (m : Int) : roundHalfEven (m : ℚ) = m := by
  unfold roundHalfEven
  simp

theorem binaryDigits_le (fuel n k : ℕ) (h : n < 2 ^ k) : binaryDigits fuel n ≤ k := by
  induction fuel generalizing n k with
  | zero => exact Nat.zero_le _
  | succ fuel ih =>
    unfold binaryDigits
    split_ifs with h0
    · exact Nat.zero_le _
    · cases k with
      | zero => exact absurd (by simpa using h) h0
      | succ k =>
        have : n / 2 < 2 ^ k := by
          rw [Nat.div_lt_iff_lt_mul (by decide)]
          rw [pow_succ] at h
          exact h
        exact Nat.succ_le_succ (ih _ _ this)

theorem binaryExponent_natCast_le (n : ℕ) (h : n < 2 ^ 53) :
    binaryExponent (n : ℚ) ≤ 52 := by
  have hlog := binaryDigits_le n n 53 h
  unfold binaryExponent
  have h1 : binaryDigits 1 1 = 1 := by decide
  simp only [Rat.num_natCast, Int.natAbs_ofNat, Rat.den_natCast, h1]
  split_ifs <;> omega

/-- A whole number below `2 ^ 53` is a binary64 number. -/
theorem toBinary64_natCast (n : ℕ) (h : n < 2 ^ 53) : toBinary64 (n : ℚ) = n := by
  unfold toBinary64
  by_cases h0 : (n : ℚ) = 0
  · rw [if_pos h0, h0]
  · rw [if_neg h0]
    have hle := binaryExponent_natCast_le n h
    have hp : pow2 (binaryExponent (n : ℚ) - 52) =
        1 / (2 : ℚ) ^ (-(binaryExponent (n : ℚ) - 52)).toNat := by
      unfold pow2
      split_ifs with hz
      · have : binaryExponent (n : ℚ) - 52 = 0 := by omega
        rw [this]
        simp
      · rfl
    simp only [hp]
    have hcast : (n : ℚ) / (1 / (2 : ℚ) ^ (-(binaryExponent (n : ℚ) - 52)).toNat) =
        (((n * 2 ^ (-(binaryExponent (n : ℚ) - 52)).toNat : ℕ) : Int) : ℚ) := by
      push_cast
      field_simp
    rw [hcast, roundHalfEven_intCast]
    push_cast
    field_simp

/-- The binary64 addition of two whole numbers with a sum below `2 ^ 53` is
exact. -/
theorem binary64Add_natCast (a b : ℕ) (h : a + b < 2 ^ 53) :
    binary64Add (a : ℚ) (b : ℚ) = (a : ℚ) + b := by
  unfold binary64Add
  rw [← Nat.cast_add, toBinary64_natCast _ h]

/-- Instances of the binary64 addition: `0.1 + 0.2` is not `0.3`, and adding
`1` twice to `2 ^ 53` leaves it as it is. -/
theorem binary64Add_examples :
    binary64Add (toBinary64 (1 / 10)) (toBinary64 (2 / 10)) =
      toBinary64 (3 / 10) + 1 / 2 ^ 54 ∧
    binary64Add (binary64Add (2 ^ 53) 1) 1 = 2 ^ 53 := by
  decide!

/-- Adding up whole numbers with a total below `2 ^ 53` from a whole number,
with an addition that is exact on such numbers, gives the exact sum. -/
theorem foldl_add_exact (add : ℚ → ℚ → ℚ)
    (hexact : ∀ a b : ℕ, a + b < 2 ^ 53 → add a b = (a : ℚ) + b) (l : List ℚ)
    (hnat : ∀ q ∈ l, ∃ n : ℕ, q = n) (init : ℕ) (hb : (init : ℚ) + l.sum < 2 ^ 53) :
    l.foldl add init = init + l.sum := by
  induction l generalizing init with
  | nil => simp
  | cons q l ih =>
    obtain ⟨n, rfl⟩ := hnat q (List.mem_cons_self _ _)
    have hnat' : ∀ q ∈ l, ∃ n : ℕ, q = n := fun q hq => hnat q (List.mem_cons_of_mem _ hq)
    have hnn : (0 : ℚ) ≤ l.sum := by
      apply List.sum_nonneg
      intro x hx
      obtain ⟨k, rfl⟩ := hnat' x hx
      exact Nat.cast_nonneg k
    rw [List.sum_cons] at hb
    have hlt : init + n < 2 ^ 53 := by
      have : ((init + n : ℕ) : ℚ) < ((2 ^ 53 : ℕ) : ℚ) := by
        push_cast
        linarith
      exact_mod_cast this
    rw [List.foldl_cons, hexact init n hlt, ← Nat.cast_add, ih hnat' (init + n) (by
      push_cast
      linarith), List.sum_cons]
    push_cast
    ring

/-- The amounts of a part of a list of expenses with whole-number amounts add
up to at most the amounts of the list. -/
theorem sum_filter_amount_le (l : List Expense) (p : Expense → Bool)
    (hnat : ∀ e ∈ l, ∃ n : ℕ, e.amount = n) :
    ((l.filter p).map Expense.amount).sum ≤ (l.map Expense.amount).sum := by
  induction l with
  | nil => simp
  | cons e l ih =>
    have ih := ih fun x hx => hnat x (List.mem_cons_of_mem _ hx)
    obtain ⟨n, hn⟩ := hnat e (List.mem_cons_self _ _)
    have hnn : (0 : ℚ) ≤ e.amount := by rw [hn]; exact Nat.cast_nonneg n
    rw [List.filter_cons]
    split_ifs
    · simp only [List.map_cons, List.sum_cons]
      linarith
    · simp only [List.map_cons, List.sum_cons]
      linarith

/-! ## getTotalByCategory with the addition as a parameter -/

/-- With the exact addition the method is `getTotalByCategory`. -/
theorem getTotalByCategoryWith_exact (m : ExpenseManager) (tripId : String) :
    m.getTotalByCategoryWith (fun a b => a + b) tripId = m.getTotalByCategory tripId := rfl

theorem getTotalByCategoryWith_snoc (add : ℚ → ℚ → ℚ) (es : List Expense) (e : Expense)
    (tid : String) :
    (ExpenseManager.mk (es ++ [e])).getTotalByCategoryWith add tid =
      if e.tripId = tid then
        categoryStepWith add ((ExpenseManager.mk es).getTotalByCategoryWith add tid) e
      else (ExpenseManager.mk es).getTotalByCategoryWith add tid := by
  unfold ExpenseManager.getTotalByCategoryWith ExpenseManager.getExpensesByTrip
  by_cases h : e.tripId = tid
  · simp [List.filter_append, h, List.foldl_append]
  · simp [List.filter_append, h]

theorem map_fst_set_congr (o o' : JSObject) (key : String) (v v' : JSValue)
    (h : o.map Prod.fst = o'.map Prod.fst) :
    (o.set key v).map Prod.fst = (o'.set key v').map Prod.fst := by
  by_cases hk : key = "__proto__"
  · rw [hk, set_proto, set_proto]
    exact h
  · rw [map_fst_set _ _ _ hk, map_fst_set _ _ _ hk, h]

/-- The property names of the result do not depend on the addition. -/
theorem getTotalByCategoryWith_keys (add : ℚ → ℚ → ℚ) (es : List Expense) (tid : String) :
    ((ExpenseManager.mk es).getTotalByCategoryWith add tid).map Prod.fst =
      ((ExpenseManager.mk es).getTotalByCategory tid).map Prod.fst := by
  induction es using List.reverseRecOn with
  | nil => rfl
  | append_singleton es e ih =>
    rw [getTotalByCategoryWith_snoc, getTotalByCategory_snoc]
    by_cases ht : e.tripId = tid
    · rw [if_pos ht, if_pos ht]
      exact map_fst_set_congr _ _ _ _ _ ih
    · rw [if_neg ht, if_neg ht]
      exact ih

theorem categoryFold_snoc (add : ℚ → ℚ → ℚ) (es : List Expense) (e : Expense)
    (tid c : String) :
    categoryFold add (es ++ [e]) tid c =
      if e.tripId = tid ∧ e.category = c then add (categoryFold add es tid c) e.amount
      else categoryFold add es tid c := by
  unfold categoryFold
  by_cases h : e.tripId = tid ∧ e.category = c
  · simp [List.filter_append, h, List.foldl_append]
  · rw [if_neg h, List.filter_append]
    have : List.filter (fun e => decide (e.tripId = tid ∧ e.category = c)) [e] = [] := by
      simp [h]
    rw [this]
    simp

theorem categoryFold_of_absent (add : ℚ → ℚ → ℚ) (es : List Expense) (tid c : String)
    (h : ¬ ∃ e ∈ es, e.tripId = tid ∧ e.category = c) : categoryFold add es tid c = 0 := by
  unfold categoryFold
  have : es.filter (fun e => decide (e.tripId = tid ∧ e.category = c)) = [] := by
    rw [List.filter_eq_nil_iff]
    intro e he hp
    exact h ⟨e, he, by simpa using hp⟩
  rw [this]
  rfl

/-- The value kept under a category is the amounts of the trip's expenses of
that category, added up in list order. -/
theorem getTotalByCategoryWith_values (add : ℚ → ℚ → ℚ) (es : List Expense) (tid : String)
    (hplain : ∀ e ∈ es, e.tripId = tid → e.category ∉ objectPrototypeKeys) (c : String) :
    ((ExpenseManager.mk es).getTotalByCategoryWith add tid).getOwn c =
      if ∃ e ∈ es, e.tripId = tid ∧ e.category = c then
        some (JSValue.number (categoryFold add es tid c))
      else none := by
  induction es using List.reverseRecOn with
  | nil =>
    simp [ExpenseManager.getTotalByCategoryWith, ExpenseManager.getExpensesByTrip,
      JSObject.getOwn]
  | append_singleton es e ih =>
    have hplain' : ∀ x ∈ es, x.tripId = tid → x.category ∉ objectPrototypeKeys :=
      fun x hx => hplain x (List.mem_append_left _ hx)
    have ih := ih hplain'
    rw [getTotalByCategoryWith_snoc, categoryFold_snoc]
    by_cases ht : e.tripId = tid
    · have hk : e.category ∉ objectPrototypeKeys := hplain e (by simp) ht
      have hproto : e.category ≠ "__proto__" := fun h => hk (by rw [h]; decide)
      rw [if_pos ht]
      unfold categoryStepWith
      rw [getOwn_set _ _ _ _ hproto]
      by_cases hc : c = e.category
      · subst hc
        have hex : ∃ x ∈ es ++ [e], x.tripId = tid ∧ x.category = e.category :=
          ⟨e, by simp, ht, rfl⟩
        rw [if_pos rfl, if_pos hex, if_pos ⟨ht, rfl⟩]
        unfold addToPropertyWith
        rw [ih]
        by_cases hprev : ∃ x ∈ es, x.tripId = tid ∧ x.category = e.category
        · rw [if_pos hprev]
          by_cases hz : categoryFold add es tid e.category = 0 <;> simp [hz]
        · rw [if_neg hprev]
          simp [hk, categoryFold_of_absent add es tid e.category hprev]
      · have hne : ¬ (e.tripId = tid ∧ e.category = c) := fun h => hc h.2.symm
        rw [if_neg hc, if_neg hne, ih]
        simp only [exists_snoc_iff es e (fun x => x.tripId = tid ∧ x.category = c) hne]
    · have hne : ¬ (e.tripId = tid ∧ e.category = c) := fun h => ht h.1
      rw [if_neg ht, if_neg hne, ih]
      simp only [exists_snoc_iff es e (fun x => x.tripId = tid ∧ x.category = c) hne]

/-- The values of the result, in the order of its property names. -/
theorem getTotalByCategoryWith_values_list (add : ℚ → ℚ → ℚ) (es : List Expense)
    (tid : String)
    (hplain : ∀ e ∈ es, e.tripId = tid → e.category ∉ objectPrototypeKeys) :
    ((ExpenseManager.mk es).getTotalByCategoryWith add tid).map Prod.snd =
      (((ExpenseManager.mk es).getTotalByCategory tid).map Prod.fst).map
        fun k => JSValue.number (categoryFold add es tid k) := by
  rw [← getTotalByCategoryWith_keys add, List.map_map]
  apply List.map_congr_left
  intro p hp
  obtain ⟨k, v⟩ := p
  have hnd : (((ExpenseManager.mk es).getTotalByCategoryWith add tid).map Prod.fst).Nodup := by
    rw [getTotalByCategoryWith_keys]
    exact getTotalByCategory_nodup es tid
  have h1 := getOwn_of_mem _ hnd k v hp
  rw [getTotalByCategoryWith_values add es tid hplain k] at h1
  have hk : k ∈ ((ExpenseManager.mk es).getTotalByCategory tid).map Prod.fst := by
    rw [← getTotalByCategoryWith_keys add]
    exact List.mem_map.mpr ⟨(k, v), hp, rfl⟩
  rw [if_pos ((getTotalByCategory_mem_keys es tid k).mp hk).2] at h1
  simpa using h1.symm

/-- With whole-number amounts and a total below `2 ^ 53` the amounts of a
category add up exactly. -/
theorem categoryFold_exact (add : ℚ → ℚ → ℚ) (es : List Expense) (tid c : String)
    (hnat : ∀ e ∈ es, e.tripId = tid → ∃ n : ℕ, e.amount = n)
    (hbound : ((es.filter fun e => decide (e.tripId = tid)).map Expense.amount).sum < 2 ^ 53)
    (hexact : ∀ a b : ℕ, a + b < 2 ^ 53 → add a b = (a : ℚ) + b) :
    categoryFold add es tid c = categorySum es tid c := by
  unfold categoryFold categorySum
  have hsplit : (es.filter fun e => decide (e.tripId = tid ∧ e.category = c)) =
      (es.filter fun e => decide (e.tripId = tid)).filter fun e => decide (e.category = c) := by
    rw [List.filter_filter]
    apply List.filter_congr
    intro e _
    rw [Bool.eq_iff_iff]
    simp [and_comm]
  have hnat' : ∀ e ∈ es.filter (fun e => decide (e.tripId = tid)), ∃ n : ℕ, e.amount = n := by
    intro e he
    rw [List.mem_filter, decide_eq_true_iff] at he
    exact hnat e he.1 he.2
  have hle := sum_filter_amount_le (es.filter fun e => decide (e.tripId = tid))
    (fun e => decide (e.category = c)) hnat'
  rw [← hsplit] at hle
  have h := foldl_add_exact add hexact
    ((es.filter fun e => decide (e.tripId = tid ∧ e.category = c)).map Expense.amount)
    (by
      intro q hq
      obtain ⟨e, he, rfl⟩ := List.mem_map.mp hq
      rw [List.mem_filter, decide_eq_true_iff] at he
      exact hnat e he.1 he.2.1) 0 (by
      rw [Nat.cast_zero, zero_add]
      exact lt_of_le_of_lt hle hbound)
  rw [Nat.cast_zero, zero_add] at h
  exact h

/-- The method `calculateTripSpending` adds the amounts of the trip to `0` in
list order. -/
theorem calculateTripSpending_eq_foldl (add : ℚ → ℚ → ℚ) (es : List Expense) (tid : String) :
    (ExpenseManager.mk es).calculateTripSpending add tid =
      ((es.filter fun e => decide (e.tripId = tid)).map Expense.amount).foldl add 0 := by
  unfold ExpenseManager.calculateTripSpending ExpenseManager.getExpensesByTrip
  rw [List.foldl_map]
  rfl

/-- With whole-number amounts and a total below `2 ^ 53` the spending of a
trip is the exact sum of its amounts. -/
theorem calculateTripSpending_exact (add : ℚ → ℚ → ℚ) (es : List Expense) (tid : String)
    (hnat : ∀ e ∈ es, e.tripId = tid → ∃ n : ℕ, e.amount = n)
    (hbound : ((es.filter fun e => decide (e.tripId = tid)).map Expense.amount).sum < 2 ^ 53)
    (hexact : ∀ a b : ℕ, a + b < 2 ^ 53 → add a b = (a : ℚ) + b) :
    (ExpenseManager.mk es).calculateTripSpending add tid =
      ((es.filter fun e => decide (e.tripId = tid)).map Expense.amount).sum := by
  rw [calculateTripSpending_eq_foldl]
  have h := foldl_add_exact add hexact
    ((es.filter fun e => decide (e.tripId = tid)).map Expense.amount)
    (by
      intro q hq
      obtain ⟨e, he, rfl⟩ := List.mem_map.mp hq
      rw [List.mem_filter, decide_eq_true_iff] at he
      exact hnat e he.1 he.2) 0 (by
      rw [Nat.cast_zero, zero_add]
      exact hbound)
  rw [Nat.cast_zero, zero_add] at h
  exact h

/-- With whole-number amounts and a total below `2 ^ 53`, and no category
that is an inherited name, the values of the result are numbers that add up to
the spending of the trip. -/
theorem getTotalByCategoryWith_sum (add : ℚ → ℚ → ℚ) (es : List Expense) (tid : String)
    (hplain : ∀ e ∈ es, e.tripId = tid → e.category ∉ objectPrototypeKeys)
    (hnat : ∀ e ∈ es, e.tripId = tid → ∃ n : ℕ, e.amount = n)
    (hbound : ((es.filter fun e => decide (e.tripId = tid)).map Expense.amount).sum < 2 ^ 53)
    (hexact : ∀ a b : ℕ, a + b < 2 ^ 53 → add a b = (a : ℚ) + b) :
    ∃ vals : List ℚ,
      ((ExpenseManager.mk es).getTotalByCategoryWith add tid).map Prod.snd =
        vals.map JSValue.number ∧
      vals.sum = (ExpenseManager.mk es).calculateTripSpending add tid ∧
      vals.sum = ((es.filter fun e => decide (e.tripId = tid)).map Expense.amount).sum := by
  have hsum : ((((ExpenseManager.mk es).getTotalByCategory tid).map Prod.fst).map
      fun k => categoryFold add es tid k).sum =
      ((es.filter fun e => decide (e.tripId = tid)).map Expense.amount).sum := by
    rw [← getTotalByCategory_sum es tid hplain]
    congr 1
    apply List.map_congr_left
    intro k _
    exact categoryFold_exact add es tid k hnat hbound hexact
  refine ⟨(((ExpenseManager.mk es).getTotalByCategory tid).map Prod.fst).map
    fun k => categoryFold add es tid k, ?_, ?_, hsum⟩
  · rw [getTotalByCategoryWith_values_list add es tid hplain]
    simp only [List.map_map]
    rfl
  · rw [hsum, calculateTripSpending_exact add es tid hnat hbound hexact]

/-! ## The daily totals -/

theorem categoryFold_relabel (add : ℚ → ℚ → ℚ) (es : List Expense) (day : Int → String)
    (tid k : String) :
    categoryFold add (es.map (relabelByDay day)) tid k =
      ((es.filter fun x => decide (x.tripId = tid ∧ day x.date.toMillis = k)).map
        Expense.amount).foldl add 0 := by
  unfold categoryFold
  rw [List.filter_map, List.map_map]
  rfl

theorem calculateTripSpending_relabel (add : ℚ → ℚ → ℚ) (es : List Expense)
    (day : Int → String) (tid : String) :
    (ExpenseManager.mk (es.map (relabelByDay day))).calculateTripSpending add tid =
      (ExpenseManager.mk es).calculateTripSpending add tid := by
  rw [calculateTripSpending_eq_foldl, calculateTripSpending_eq_foldl, List.filter_map,
    List.map_map]
  rfl

/-- C20 (amended): with `day` the calendar-day text of a time value, never a
property name inherited from `Object.prototype`, and `add` the addition of two
numbers, `getDailyData(tripId)` has exactly one bucket for each day on which
the trip has an expense; the bucket of an expense is the one of its day, so
expenses of the same day share it, and its value is the amounts of the trip's
expenses of that day added to 0 in snapshot order; and when the amounts of the
trip's expenses are non-negative whole numbers with a total below `2 ^ 53`,
which the addition adds exactly, the value of a bucket is the exact sum of the
amounts of its day and the values of all buckets add up to the total spending
of the trip. -/
theorem getDailyData_buckets (am : AnalyticsManager) (add : ℚ → ℚ → ℚ) (day : Int → String)
    (hday : ∀ ms, day ms ∉ objectPrototypeKeys) (tripId k : String) (e : Expense) :
    (k ∈ (am.getDailyData add day tripId).keys ↔
      ∃ x ∈ am.expenses, x.tripId = tripId ∧ day x.date.toMillis = k) ∧
    (am.getDailyData add day tripId).keys.Nodup ∧
    (e ∈ am.expenses → e.tripId = tripId →
      (am.getDailyData add day tripId).getOwn (day e.date.toMillis) =
        some (JSValue.number
          (((am.expenses.filter fun x =>
            decide (x.tripId = tripId ∧ day x.date.toMillis = day e.date.toMillis)).map
              Expense.amount).foldl add 0))) ∧
    ((∀ x ∈ am.expenses, x.tripId = tripId → ∃ n : ℕ, x.amount = n) →
      ((am.expenses.filter fun x => decide (x.tripId = tripId)).map Expense.amount).sum <
        2 ^ 53 →
      (∀ a b : ℕ, a + b < 2 ^ 53 → add a b = (a : ℚ) + b) →
      (e ∈ am.expenses → e.tripId = tripId →
        (am.getDailyData add day tripId).getOwn (day e.date.toMillis) =
          some (JSValue.number
            ((am.expenses.filter fun x =>
              decide (x.tripId = tripId ∧ day x.date.toMillis = day e.date.toMillis)).map
                Expense.amount).sum)) ∧
      ∃ vals : List ℚ,
        (am.getDailyData add day tripId).map Prod.snd = vals.map JSValue.number ∧
        vals.sum = (ExpenseManager.mk am.expenses).calculateTripSpending add tripId ∧
        vals.sum = ((am.expenses.filter fun x => decide (x.tripId = tripId)).map
          Expense.amount).sum) := by
  obtain ⟨es⟩ := am
  have hplain : ∀ x ∈ es.map (relabelByDay day), x.tripId = tripId →
      x.category ∉ objectPrototypeKeys := by
    intro x hx _
    obtain ⟨y, _, rfl⟩ := List.mem_map.mp hx
    exact hday _
  have hmem : ∀ c, c ∈ ((AnalyticsManager.mk es).getDailyData add day tripId).keys ↔
      ∃ x ∈ es, x.tripId = tripId ∧ day x.date.toMillis = c := by
    intro c
    rw [getDailyData_eq_relabel, (keys_perm _).mem_iff, getTotalByCategoryWith_keys,
      getTotalByCategory_mem_keys, exists_relabel_iff]
    constructor
    · exact fun h => h.2
    · rintro ⟨x, hx, ht, hc⟩
      refine ⟨?_, x, hx, ht, hc⟩
      intro hp
      exact hday x.date.toMillis (by rw [hc, hp]; decide)
  have hval : e ∈ es → e.tripId = tripId →
      ((AnalyticsManager.mk es).getDailyData add day tripId).getOwn (day e.date.toMillis) =
        some (JSValue.number
          (((es.filter fun x =>
            decide (x.tripId = tripId ∧ day x.date.toMillis = day e.date.toMillis)).map
              Expense.amount).foldl add 0)) := by
    intro he ht
    rw [getDailyData_eq_relabel, getTotalByCategoryWith_values add _ tripId hplain,
      if_pos ((exists_relabel_iff es day tripId _).mpr ⟨e, he, ht, rfl⟩), categoryFold_relabel]
  refine ⟨hmem k, ?_, hval, ?_⟩
  · rw [getDailyData_eq_relabel]
    refine (keys_perm _).nodup_iff.mpr ?_
    rw [getTotalByCategoryWith_keys]
    exact getTotalByCategory_nodup _ tripId
  · intro hnat hbound hexact
    have hnat' : ∀ x ∈ es.map (relabelByDay day), x.tripId = tripId →
        ∃ n : ℕ, x.amount = n := by
      intro x hx ht
      obtain ⟨y, hy, rfl⟩ := List.mem_map.mp hx
      exact hnat y hy ht
    have hamounts : ((es.map (relabelByDay day)).filter fun x =>
        decide (x.tripId = tripId)).map Expense.amount =
        (es.filter fun x => decide (x.tripId = tripId)).map Expense.amount := by
      rw [List.filter_map, List.map_map]
      rfl
    have hbound' : (((es.map (relabelByDay day)).filter fun x =>
        decide (x.tripId = tripId)).map Expense.amount).sum < 2 ^ 53 := by
      rw [hamounts]
      exact hbound
    constructor
    · intro he ht
      rw [hval he ht, ← categoryFold_relabel,
        categoryFold_exact add _ tripId _ hnat' hbound' hexact, categorySum_relabel]
    · obtain ⟨vals, h1, h2, h3⟩ := getTotalByCategoryWith_sum add _ tripId hplain hnat'
        hbound' hexact
      refine ⟨vals, ?_, ?_, ?_⟩
      · rw [getDailyData_eq_relabel]
        exact h1
      · rw [h2, calculateTripSpending_relabel]
      · rw [h3, hamounts]

/-- Witness of C20 (amended) on the sample expenses of two days, with the
binary64 addition: trip `a` has 10 and 5 on the first day and 7 on the second,
giving the buckets 15 and 7, which add up to its spending 22. -/
theorem getDailyData_buckets_witness :
    (∀ ms, sampleDay ms ∉ objectPrototypeKeys) ∧
    (AnalyticsManager.mk dailyExpenses).getDailyData binary64Add sampleDay "a" =
      [("1/1/2513", JSValue.number 15), ("2/1/2513", JSValue.number 7)] ∧
    (ExpenseManager.mk dailyExpenses).calculateTripSpending binary64Add "a" = 22 ∧
    ((AnalyticsManager.mk dailyExpenses).getDailyData binary64Add sampleDay "a").keys.Nodup ∧
    (∃ vals : List ℚ,
      ((AnalyticsManager.mk dailyExpenses).getDailyData binary64Add sampleDay "a").map
        Prod.snd = vals.map JSValue.number ∧
      vals.sum = (ExpenseManager.mk dailyExpenses).calculateTripSpending binary64Add "a" ∧
      vals.sum = ((dailyExpenses.filter fun x => decide (x.tripId = "a")).map
        Expense.amount).sum) :=
  ⟨fun ms => by unfold sampleDay; split_ifs <;> decide,
   by decide!, by decide!,
   (getDailyData_buckets (AnalyticsManager.mk dailyExpenses) binary64Add sampleDay
      (fun ms => by unfold sampleDay; split_ifs <;> decide) "a" "1/1/2513"
      { id := "d1", tripId := "a", category := "food", amount := 10, date := ⟨3600⟩ }).2.1,
   ((getDailyData_buckets (AnalyticsManager.mk dailyExpenses) binary64Add sampleDay
      (fun ms => by unfold sampleDay; split_ifs <;> decide) "a" "1/1/2513"
      { id := "d1", tripId := "a", category := "food", amount := 10, date := ⟨3600⟩ }).2.2.2
      (by
        intro x hx _
        simp only [dailyExpenses, List.mem_cons, List.mem_singleton, List.not_mem_nil,
          or_false] at hx
        rcases hx with rfl | rfl | rfl | rfl
        · exact ⟨10, by norm_num⟩
        · exact ⟨99, by norm_num⟩
        · exact ⟨7, by norm_num⟩
        · exact ⟨5, by norm_num⟩)
      (by decide!) binary64Add_natCast).2⟩

/-- Counterexample to C20 as stated: with the binary64 addition and the
amounts `0.45` and `0.8` on the first day and `1.65` on the second, the buckets
hold `1.25` and `1.65`; they add up to `2.9`, in binary64 as well as exactly
less than the total spending `2.9000000000000004` of the trip, which is one
unit in the last place above `2.9`. -/
theorem getDailyData_sum_counterexample :
    (AnalyticsManager.mk fractionExpenses).getDailyData binary64Add sampleDay "a" =
      [("1/1/2513", JSValue.number (5 / 4)),
       ("2/1/2513", JSValue.number (toBinary64 (165 / 100)))] ∧
    binary64Add (5 / 4) (toBinary64 (165 / 100)) = toBinary64 (29 / 10) ∧
    (ExpenseManager.mk fractionExpenses).calculateTripSpending binary64Add "a" =
      toBinary64 (29 / 10) + 1 / 2 ^ 51 ∧
    (5 / 4 : ℚ) + toBinary64 (165 / 100) <
      (ExpenseManager.mk fractionExpenses).calculateTripSpending binary64Add "a" ∧
    (5 / 4 : ℚ) + toBinary64 (165 / 100) <
      ((fractionExpenses.filter fun x => decide (x.tripId = "a")).map Expense.amount).sum := by
  decide!

/-! ## InputValidator: password checks -/

theorem length_le_jsLength (s : String) : s.data.length ≤ jsLength s := by
  unfold jsLength
  induction s.data with
  | nil => simp
  | cons c cs ih =>
    simp only [List.map_cons, List.sum_cons, List.length_cons]
    split_ifs <;> omega

theorem testClass_of_lookahead (cls : Char → Bool) (s : String)
    (h : lookaheadFinds cls s.data = true) : testClass cls s = true := by
  unfold lookaheadFinds at h
  unfold testClass
  rw [List.any_eq_true] at h ⊢
  obtain ⟨c, hc, hcls⟩ := h
  exact ⟨c, (List.takeWhile_sublist _).subset hc, hcls⟩

theorem checkPasswordStrength_cases (password : String) :
    (InputValidator.checkPasswordStrength password).score ≤ 5 ∧
    ((InputValidator.checkPasswordStrength password).strength = "weak" ∨
      (InputValidator.checkPasswordStrength password).strength = "medium" ∨
      (InputValidator.checkPasswordStrength password).strength = "strong") := by
  by_cases h1 : jsLength password ≥ 8 <;> by_cases h2 : jsLength password ≥ 12 <;>
    by_cases h3 : (testClass isLowerLetter password && testClass isUpperLetter password) = true <;>
    by_cases h4 : testClass isDecimalDigit password = true <;>
    by_cases h5 : testClass isSpecialChar password = true <;>
    simp only [InputValidator.checkPasswordStrength, h1, h2, h3, h4, h5] <;> decide

/-- C23 (failing input): for the 13-character password `Abcdefghijk1!`, with
lower and upper case letters, a digit and a special character, the five checks
of `checkPasswordStrength` all add one and the score is 5, above the 4 that
the claim and the method's own documentation (`score: 0-4`) give as the
maximum; the strength is `strong`. -/
theorem checkPasswordStrength_score_five :
    InputValidator.checkPasswordStrength "Abcdefghijk1!" =
      { strength := "strong", score := 5, message := "รหัสผ่านแข็งแรง" } ∧
    ¬ (InputValidator.checkPasswordStrength "Abcdefghijk1!").score ≤ 4 := by
  decide

/-- C28: a password accepted by `validatePassword` is rated `strong` by
`checkPasswordStrength`, with a score of at least 4. -/
theorem validatePassword_strong (password : String)
    (h : InputValidator.validatePassword password = true) :
    (InputValidator.checkPasswordStrength password).strength = "strong" ∧
    4 ≤ (InputValidator.checkPasswordStrength password).score := by
  unfold InputValidator.validatePassword at h
  simp only [Bool.and_eq_true, decide_eq_true_iff] at h
  obtain ⟨⟨⟨⟨⟨hl, hu⟩, hd⟩, hs⟩, _⟩, hlen⟩ := h
  have h8 : jsLength password ≥ 8 := le_trans hlen (length_le_jsLength password)
  have hl' := testClass_of_lookahead _ _ hl
  have hu' := testClass_of_lookahead _ _ hu
  have hd' := testClass_of_lookahead _ _ hd
  have hs' := testClass_of_lookahead _ _ hs
  unfold InputValidator.checkPasswordStrength
  simp only [h8, hl', hu', hd', hs', Bool.and_self, if_true]
  split_ifs <;> simp_all

/-- Witness of C28: `Abcdef1!` is accepted and rated `strong` with score 4. -/
theorem validatePassword_strong_witness :
    InputValidator.validatePassword "Abcdef1!" = true ∧
    (InputValidator.checkPasswordStrength "Abcdef1!").score = 4 ∧
    (InputValidator.checkPasswordStrength "Abcdef1!").strength = "strong" :=
  ⟨by decide, by decide, (validatePassword_strong "Abcdef1!" (by decide)).1⟩

/-! ## InputValidator.sanitizeString -/

/-- C25 (failing input): for `<b>hi</b>` the method deletes the four angle
brackets only and returns `bhi/b`, not `hi`: the content of the tags stays in
the result. A non-string argument gives the empty string and surrounding white
space is trimmed. -/
theorem sanitizeString_keeps_tag_content :
    InputValidator.sanitizeString (some "<b>hi</b>") = "bhi/b" ∧
    InputValidator.sanitizeString (some "<b>hi</b>") ≠ "hi" ∧
    InputValidator.sanitizeString none = "" ∧
    InputValidator.sanitizeString (some "  <i> hi </i>\n") = "i hi /i" := by
  decide

/-! ## Image downscaling -/

/-- For every image, the computed width is at most 800, the aspect ratio is
kept, the size is never enlarged, and an image that is not wider than high
gets a height of at most 600. -/
theorem scaledImageSize_bounds (w h : Nat) (hw : 0 < w) (hh : 0 < h) :
    (scaledImageSize w h).1 ≤ 800 ∧
    (scaledImageSize w h).1 * h = (scaledImageSize w h).2 * w ∧
    (scaledImageSize w h).1 ≤ w ∧ (scaledImageSize w h).2 ≤ h ∧
    (w ≤ h → (scaledImageSize w h).2 ≤ 600) := by
  have hw' : (0 : ℚ) < w := by exact_mod_cast hw
  have hh' : (0 : ℚ) < h := by exact_mod_cast hh
  unfold scaledImageSize
  simp only []
  by_cases h1 : (w : ℚ) > h
  · rw [if_pos h1]
    by_cases h2 : (w : ℚ) > 800
    · rw [if_pos h2]
      refine ⟨le_refl _, ?_, le_of_lt h2, ?_, ?_⟩
      · field_simp
        ring
      · rw [div_le_iff₀ hw']
        nlinarith
      · intro hle
        have : (w : ℚ) ≤ h := by exact_mod_cast hle
        linarith
    · rw [if_neg h2]
      refine ⟨not_lt.mp h2, mul_comm _ _, le_refl _, le_refl _, ?_⟩
      intro hle
      have : (w : ℚ) ≤ h := by exact_mod_cast hle
      linarith
  · rw [if_neg h1]
    have h1' : (w : ℚ) ≤ h := not_lt.mp h1
    by_cases h2 : (h : ℚ) > 600
    · rw [if_pos h2]
      refine ⟨?_, ?_, ?_, le_of_lt h2, fun _ => le_refl _⟩
      · rw [div_le_iff₀ hh']
        nlinarith
      · field_simp
        ring
      · rw [div_le_iff₀ hh']
        nlinarith
    · rw [if_neg h2]
      have h2' : (h : ℚ) ≤ 600 := not_lt.mp h2
      exact ⟨by linarith, mul_comm _ _, le_refl _, le_refl _, fun _ => h2'⟩

/-- Instance of `scaledImageSize_bounds`: an image of 900 by 1000 becomes 540
by 600. -/
theorem scaledImageSize_bounds_witness :
    (0 < 900 ∧ 0 < 1000) ∧ scaledImageSize 900 1000 = (540, 600) ∧
    (scaledImageSize 900 1000).1 ≤ 800 :=
  ⟨⟨by decide, by decide⟩, by decide!,
    (scaledImageSize_bounds 900 1000 (by decide) (by decide)).1⟩

/-- C30 (failing input): an image of 1000 by 900 is wider than high and wider
than 800, so only its width is fitted: the computed size is 800 by 720, higher
than `maxHeight` = 600; an image of 800 by 700 is left at 800 by 700. -/
theorem scaledImageSize_exceeds_maxHeight :
    scaledImageSize 1000 900 = (800, 720) ∧
    ¬ (scaledImageSize 1000 900).2 ≤ 600 ∧
    scaledImageSize 800 700 = (800, 700) := by
  decide!

/-! ## Spending totals -/

/-- C27 (amended): with `add` the addition of two numbers,
`calculateTripSpending(tripId)` is the amounts of the expenses of the trip
added to 0 in list order, and `getCategoryData` over the same expense list
returns the same object as `getTotalByCategory`; when no expense of the trip
has a category that is a property name inherited from `Object.prototype` and
the amounts of the trip's expenses are non-negative whole numbers with a total
below `2 ^ 53`, which the addition adds exactly, the values of
`getTotalByCategory(tripId)` are numbers whose sum is
`calculateTripSpending(tripId)`, the exact sum of the amounts. -/
theorem category_values_sum (m : ExpenseManager) (add : ℚ → ℚ → ℚ) (tripId : String) :
    ((∀ e ∈ m.expenses, e.tripId = tripId → e.category ∉ objectPrototypeKeys) →
      (∀ e ∈ m.expenses, e.tripId = tripId → ∃ n : ℕ, e.amount = n) →
      ((m.expenses.filter fun e => decide (e.tripId = tripId)).map Expense.amount).sum <
        2 ^ 53 →
      (∀ a b : ℕ, a + b < 2 ^ 53 → add a b = (a : ℚ) + b) →
      ∃ vals : List ℚ,
        (m.getTotalByCategoryWith add tripId).map Prod.snd = vals.map JSValue.number ∧
        vals.sum = m.calculateTripSpending add tripId ∧
        vals.sum =
          ((m.expenses.filter fun e => decide (e.tripId = tripId)).map Expense.amount).sum) ∧
    m.calculateTripSpending add tripId =
      ((m.expenses.filter fun e => decide (e.tripId = tripId)).map Expense.amount).foldl
        add 0 ∧
    (AnalyticsManager.mk m.expenses).getCategoryData add tripId =
      m.getTotalByCategoryWith add tripId := by
  obtain ⟨es⟩ := m
  refine ⟨?_, calculateTripSpending_eq_foldl add es tripId, rfl⟩
  intro hplain hnat hbound hexact
  exact getTotalByCategoryWith_sum add es tripId hplain hnat hbound hexact

/-- Witness of C27 (amended) on the sample expenses with the binary64
addition: the values 15 and 7 of trip `a` add up to its spending 22. -/
theorem category_values_sum_witness :
    (∀ e ∈ sampleExpenses, e.tripId = "a" → e.category ∉ objectPrototypeKeys) ∧
    ((ExpenseManager.mk sampleExpenses).getTotalByCategoryWith binary64Add "a").map Prod.snd =
      [JSValue.number 15, JSValue.number 7] ∧
    (ExpenseManager.mk sampleExpenses).calculateTripSpending binary64Add "a" = 22 ∧
    (∃ vals : List ℚ,
      ((ExpenseManager.mk sampleExpenses).getTotalByCategoryWith binary64Add "a").map
        Prod.snd = vals.map JSValue.number ∧
      vals.sum = (ExpenseManager.mk sampleExpenses).calculateTripSpending binary64Add "a" ∧
      vals.sum = ((sampleExpenses.filter fun e => decide (e.tripId = "a")).map
        Expense.amount).sum) ∧
    (AnalyticsManager.mk protoExpenses).getCategoryData binary64Add "a" =
      (ExpenseManager.mk protoExpenses).getTotalByCategoryWith binary64Add "a" :=
  ⟨by decide, by decide!, by decide!,
    (category_values_sum (ExpenseManager.mk sampleExpenses) binary64Add "a").1 (by decide)
      (by
        intro x hx _
        simp only [sampleExpenses, List.mem_cons, List.mem_singleton, List.not_mem_nil,
          or_false] at hx
        rcases hx with rfl | rfl | rfl | rfl
        · exact ⟨10, by norm_num⟩
        · exact ⟨99, by norm_num⟩
        · exact ⟨5, by norm_num⟩
        · exact ⟨7, by norm_num⟩)
      (by decide!) binary64Add_natCast,
    (category_values_sum (ExpenseManager.mk protoExpenses) binary64Add "a").2.2⟩

/-- Counterexample to C27 as stated, with the binary64 addition: for the
amounts `0.45` (food), `1.65` (transport) and `0.8` (food) the values of
`getTotalByCategory` are `1.25` and `1.65`, which add up to `2.9`, while
`calculateTripSpending` is `2.9000000000000004`, one unit in the last place
above; and for one expense of 10 with the category `__proto__` the result of
`getTotalByCategory` has no property, while `calculateTripSpending` is 10. -/
theorem category_values_sum_counterexample :
    (ExpenseManager.mk fractionExpenses).getTotalByCategoryWith binary64Add "a" =
      [("food", JSValue.number (5 / 4)),
       ("transport", JSValue.number (toBinary64 (165 / 100)))] ∧
    binary64Add (5 / 4) (toBinary64 (165 / 100)) = toBinary64 (29 / 10) ∧
    (ExpenseManager.mk fractionExpenses).calculateTripSpending binary64Add "a" =
      toBinary64 (29 / 10) + 1 / 2 ^ 51 ∧
    (5 / 4 : ℚ) + toBinary64 (165 / 100) <
      (ExpenseManager.mk fractionExpenses).calculateTripSpending binary64Add "a" ∧
    (ExpenseManager.mk protoExpenses).getTotalByCategoryWith binary64Add "a" = [] ∧
    (ExpenseManager.mk protoExpenses).calculateTripSpending binary64Add "a" = 10 := by
  decide!

/-! ## Image upload -/

/-- C22 (amended): `uploadTripImage` fails with an error and makes no call to
`uploadBytes` for a file larger than `5 * 1024 * 1024` bytes; for a file of at
most that size it calls `uploadBytes` with the file once the storage module
is loaded, whatever the type of the file; the method does not read the type:
a file that is not an image is refused by the `change` handler of the trip
image input, which empties the input. -/
theorem uploadTripImage_size_check (tm : TripManager) (storage : BlobStorage) (now : Int)
    (file : FileInfo) (userId : String) :
    (file.size > 5 * 1024 * 1024 →
      (tm.uploadTripImage storage now file userId).2 = [] ∧
      ∃ e, (tm.uploadTripImage storage now file userId).1 = Except.error e) ∧
    (file.size ≤ 5 * 1024 * 1024 → storage.importModule = Except.ok () →
      (tm.uploadTripImage storage now file userId).2 =
        [("trip-images/" ++ userId ++ "/" ++ toString now, file)]) ∧
    (("image/".data.isPrefixOf file.type.data) = false →
      tripImageInputChange file =
        (false, [⟨"error", "เกิดข้อผิดพลาด", "กรุณาเลือกไฟล์รูปภาพเท่านั้น", 2000⟩])) := by
  refine ⟨?_, ?_, ?_⟩
  · intro hbig
    unfold TripManager.uploadTripImage
    cases storage.importModule with
    | error e => exact ⟨rfl, e, rfl⟩
    | ok u =>
      simp only [hbig, if_true]
      exact ⟨trivial, _, rfl⟩
  · intro hsmall himp
    unfold TripManager.uploadTripImage
    rw [himp]
    have hnot : ¬ file.size > 5 * 1024 * 1024 := not_lt.mpr hsmall
    simp only [hnot, if_false]
    cases storage.uploadBytes ("trip-images/" ++ userId ++ "/" ++ toString now) file with
    | error e => rfl
    | ok u =>
      cases storage.getDownloadURL ("trip-images/" ++ userId ++ "/" ++ toString now) <;> rfl
  · intro htype
    unfold tripImageInputChange
    simp [htype]

/-- Witness of C22 (amended): the image one byte above the ceiling is refused
without an upload, the image at the ceiling is uploaded, and the input
handler refuses the document that is not an image. -/
theorem uploadTripImage_size_check_witness :
    hugeImage.size > 5 * 1024 * 1024 ∧
    (sampleTripManager.uploadTripImage workingStorage 1700000000000 hugeImage "u1").2 = [] ∧
    (sampleTripManager.uploadTripImage workingStorage 1700000000000 ceilingImage "u1").2 =
      [("trip-images/u1/1700000000000", ceilingImage)] ∧
    tripImageInputChange pdfFile =
      (false, [⟨"error", "เกิดข้อผิดพลาด", "กรุณาเลือกไฟล์รูปภาพเท่านั้น", 2000⟩]) :=
  ⟨by decide,
    ((uploadTripImage_size_check sampleTripManager workingStorage 1700000000000 hugeImage
      "u1").1 (by decide)).1,
    by decide,
    (uploadTripImage_size_check sampleTripManager workingStorage 1700000000000 pdfFile
      "u1").2.2 (by decide)⟩

/-- Counterexample to C22 as stated: given the document that is not an image,
`uploadTripImage` calls `uploadBytes` with it and returns its download URL. -/
theorem uploadTripImage_type_counterexample :
    ("image/".data.isPrefixOf pdfFile.type.data) = false ∧
    (sampleTripManager.uploadTripImage workingStorage 1700000000000 pdfFile "u1").2 =
      [("trip-images/u1/1700000000000", pdfFile)] ∧
    (sampleTripManager.uploadTripImage workingStorage 1700000000000 pdfFile "u1").1.toOption =
      some "https://storage.example/trip-images/u1/1700000000000" := by
  decide

/-! ## The toast list -/

/-- The method `removeToast` leaves the settings as they are. -/
theorem removeToast_fold_settings (l : List ToastNotification) (m : NotificationManager) :
    (l.foldl (fun m n => m.removeToast n.id) m).settings = m.settings := by
  induction l generalizing m with
  | nil => rfl
  | cons a l ih => rw [List.foldl_cons, ih]; rfl

/-- Removing the ids of a list of entries one after the other keeps the
entries whose id is not among them. -/
theorem removeToast_fold_notifications (l : List ToastNotification) (m : NotificationManager) :
    (l.foldl (fun m n => m.removeToast n.id) m).notifications =
      m.notifications.filter fun n => decide (n.id ∉ l.map ToastNotification.id) := by
  induction l generalizing m with
  | nil => simp
  | cons a l ih =>
    rw [List.foldl_cons, ih]
    simp only [NotificationManager.removeToast, List.filter_filter]
    apply List.filter_congr
    intro n _
    rw [Bool.eq_iff_iff]
    simp only [List.map_cons, List.mem_cons, not_or, Bool.and_eq_true, decide_eq_true_eq,
      bne_iff_ne, ne_eq]
    tauto

/-- After `clearAll` the list is empty, whatever it held. -/
theorem clearAll_notifications (m : NotificationManager) : m.clearAll.notifications = [] := by
  unfold NotificationManager.clearAll
  rw [removeToast_fold_notifications]
  rw [List.filter_eq_nil_iff]
  intro n hn
  simp only [decide_eq_true_eq, not_not]
  exact List.mem_map_of_mem _ hn

/-- One call keeps the settings and does not let the list grow beyond
`maxToasts` entries when `maxToasts` is positive. -/
theorem call_bound (m : NotificationManager) (c : ToastCall) (hpos : 0 < m.settings.maxToasts)
    (h : m.notifications.length ≤ m.settings.maxToasts) :
    (m.call c).settings = m.settings ∧
    (m.call c).notifications.length ≤ m.settings.maxToasts := by
  cases c with
  | toast id message type duration =>
    refine ⟨rfl, ?_⟩
    simp only [NotificationManager.call, NotificationManager.toast]
    split_ifs with hfull
    · rw [List.length_append, List.length_tail, List.length_singleton]
      omega
    · rw [List.length_append, List.length_singleton]
      omega
  | removeToast id =>
    exact ⟨rfl, le_trans (List.length_filter_le _ _) h⟩
  | clearByType type =>
    refine ⟨removeToast_fold_settings _ _, ?_⟩
    simp only [NotificationManager.call, NotificationManager.clearByType]
    rw [removeToast_fold_notifications]
    exact le_trans (List.length_filter_le _ _) h
  | clearAll =>
    refine ⟨removeToast_fold_settings _ _, ?_⟩
    simp only [NotificationManager.call]
    rw [clearAll_notifications]
    exact Nat.zero_le _

/-- A sequence of calls keeps the settings and the bound of the list. -/
theorem run_bound (calls : List ToastCall) (m : NotificationManager)
    (hpos : 0 < m.settings.maxToasts) (h : m.notifications.length ≤ m.settings.maxToasts) :
    (m.run calls).settings = m.settings ∧
    (m.run calls).notifications.length ≤ m.settings.maxToasts := by
  induction calls generalizing m with
  | nil => exact ⟨rfl, h⟩
  | cons c calls ih =>
    obtain ⟨hs, hl⟩ := call_bound m c hpos h
    have := ih (m.call c) (by rw [hs]; exact hpos) (by rw [hs]; exact hl)
    rw [hs] at this
    exact this

/-- C29: from the state the constructor leaves, after every sequence of
`toast`, `removeToast`, `clearByType` and `clearAll` calls the settings are
the default ones and the list holds at most 5 entries; a `toast` on a list of
5 entries returns the new id and leaves the previous list without its first
entry followed by the new entry; and after `clearAll` the list is empty. -/
theorem toast_list_bound (calls : List ToastCall) (id message type : String)
    (duration : Option Int) :
    (NotificationManager.new.run calls).settings.maxToasts = 5 ∧
    (NotificationManager.new.run calls).notifications.length ≤ 5 ∧
    ((NotificationManager.new.run calls).notifications.length = 5 →
      ((NotificationManager.new.run calls).toast id message type duration).1 = id ∧
      ((NotificationManager.new.run calls).toast id message type duration).2.notifications =
        (NotificationManager.new.run calls).notifications.tail ++
          [{ id := id, message := message, type := type, duration := duration.getD 4000 }]) ∧
    (NotificationManager.new.run calls).clearAll.notifications = [] ∧
    (NotificationManager.new.run (calls ++ [ToastCall.clearAll])).notifications = [] := by
  obtain ⟨hs, hl⟩ := run_bound calls NotificationManager.new (by decide) (by decide)
  refine ⟨by rw [hs]; rfl, hl, ?_, clearAll_notifications _, ?_⟩
  · intro hfull
    refine ⟨rfl, ?_⟩
    simp only [NotificationManager.toast, hs, hfull]
    rfl
  · unfold NotificationManager.run
    rw [List.foldl_append]
    exact clearAll_notifications _

/-- Witness of C29: after the five toasts `t1` .. `t5` the list is full, and
the toast `t6` leaves the previous list without `t1`, followed by `t6`. -/
theorem toast_list_bound_witness :
    (NotificationManager.new.run fiveToasts).notifications.length = 5 ∧
    ((NotificationManager.new.run fiveToasts).toast "t6" "six" "warning" none).2.notifications =
      (NotificationManager.new.run fiveToasts).notifications.tail ++
        [{ id := "t6", message := "six", type := "warning", duration := (none : Option Int).getD 4000 }] :=
  ⟨by decide, ((toast_list_bound fiveToasts "t6" "six" "warning" none).2.2.1 (by decide)).2⟩

/-- Instance of C29: after six toasts `t1` .. `t6` the list holds `t2` .. `t6`
in that order. -/
theorem toast_list_bound_example :
    (NotificationManager.new.run sixToasts).notifications.map ToastNotification.id =
      ["t2", "t3", "t4", "t5", "t6"] ∧
    ((NotificationManager.new.run sixToasts).clearByType "info").notifications.map
      ToastNotification.id = ["t2", "t4", "t6"] := by
  decide

/-! ## Bulk delete -/

/-- A `deleteTrip` that fails leaves the held trips as they were. -/
theorem deleteTrip_error_state (tm : TripManager) (store : DataStore) (id : String)
    (e : JSError) (h : (tm.deleteTrip store id).1 = Except.error e) :
    (tm.deleteTrip store id).2 = tm := by
  unfold TripManager.deleteTrip at h ⊢
  cases hi : store.importModule with
  | error e1 => rfl
  | ok u =>
    cases hd : store.deleteDoc "trips" id with
    | error e1 => rfl
    | ok u1 => rw [hi, hd] at h; cases h

/-- A `deleteTrip` that succeeds leaves the held trips without the given id. -/
theorem deleteTrip_ok_state (tm : TripManager) (store : DataStore) (id : String)
    (r : Bool) (h : (tm.deleteTrip store id).1 = Except.ok r) :
    (tm.deleteTrip store id).2 = ⟨tm.trips.filter fun t => t.id != id⟩ := by
  unfold TripManager.deleteTrip at h ⊢
  cases hi : store.importModule with
  | error e1 => rw [hi] at h; cases h
  | ok u =>
    cases hd : store.deleteDoc "trips" id with
    | error e1 => rw [hi, hd] at h; cases h
    | ok u1 => rfl

/-- A `deleteExpense` that fails leaves the held expenses as they were. -/
theorem deleteExpense_error_state (em : ExpenseManager) (store : DataStore) (id : String)
    (e : JSError) (h : (em.deleteExpense store id).1 = Except.error e) :
    (em.deleteExpense store id).2 = em := by
  unfold ExpenseManager.deleteExpense at h ⊢
  cases hi : store.importModule with
  | error e1 => rfl
  | ok u =>
    cases hd : store.deleteDoc "expenses" id with
    | error e1 => rfl
    | ok u1 => rw [hi, hd] at h; cases h

/-- A `deleteExpense` that succeeds leaves the held expenses without the given id. -/
theorem deleteExpense_ok_state (em : ExpenseManager) (store : DataStore) (id : String)
    (r : Bool) (h : (em.deleteExpense store id).1 = Except.ok r) :
    (em.deleteExpense store id).2 = ⟨em.expenses.filter fun x => x.id != id⟩ := by
  unfold ExpenseManager.deleteExpense at h ⊢
  cases hi : store.importModule with
  | error e1 => rw [hi] at h; cases h
  | ok u =>
    cases hd : store.deleteDoc "expenses" id with
    | error e1 => rw [hi, hd] at h; cases h
    | ok u1 => rfl

/-- Dropping the records with one id and then those with an id of a list drops
the records with an id of the longer list. -/
theorem filter_not_mem_cons {α : Type} (key : α → String) (l : List α) (id : String)
    (ids : List String) :
    ((l.filter fun t => key t != id).filter fun t => decide (key t ∉ ids)) =
      l.filter fun t => decide (key t ∉ id :: ids) := by
  rw [List.filter_filter]
  apply List.filter_congr
  intro t _
  rw [Bool.eq_iff_iff]
  simp only [List.mem_cons, not_or, Bool.and_eq_true, decide_eq_true_eq, bne_iff_ne, ne_eq]
  tauto

/-- The trip loop over `pre ++ idk :: post` when the deletions of `pre`
succeed and the deletion of `idk` fails. -/
theorem bulkDeleteLoop_trip (store : DataStore) (pre post : List String) (idk : String)
    (e : JSError) (page : BulkPage)
    (hok : ∀ tm : TripManager, ∀ id ∈ pre, (tm.deleteTrip store id).1 = Except.ok true)
    (hfail : ∀ tm : TripManager, (tm.deleteTrip store idk).1 = Except.error e) :
    bulkDeleteLoop store "trip" (pre ++ idk :: post) page =
      (Except.error e,
        { page with
          tripManager := ⟨page.tripManager.trips.filter fun t => decide (t.id ∉ pre)⟩
          deleteCalls := page.deleteCalls ++ (pre ++ [idk]) }) := by
  induction pre generalizing page with
  | nil =>
    simp only [List.nil_append, bulkDeleteLoop, if_true, hfail,
      deleteTrip_error_state _ _ _ _ (hfail _)]
    simp
  | cons id pre ih =>
    have h1 := hok page.tripManager id (List.mem_cons_self _ _)
    simp only [List.cons_append, bulkDeleteLoop, if_true, h1,
      deleteTrip_ok_state _ _ _ _ h1]
    refine (ih _ (fun tm x hx => hok tm x (List.mem_cons_of_mem _ hx))).trans ?_
    simp only [filter_not_mem_cons Trip.id, List.append_assoc, List.cons_append,
      List.nil_append]

/-- The expense loop over `pre ++ idk :: post` when the deletions of `pre`
succeed and the deletion of `idk` fails. -/
theorem bulkDeleteLoop_expense (store : DataStore) (pre post : List String) (idk : String)
    (e : JSError) (page : BulkPage)
    (hok : ∀ em : ExpenseManager, ∀ id ∈ pre, (em.deleteExpense store id).1 = Except.ok true)
    (hfail : ∀ em : ExpenseManager, (em.deleteExpense store idk).1 = Except.error e) :
    bulkDeleteLoop store "expense" (pre ++ idk :: post) page =
      (Except.error e,
        { page with
          expenseManager :=
            ⟨page.expenseManager.expenses.filter fun x => decide (x.id ∉ pre)⟩
          deleteCalls := page.deleteCalls ++ (pre ++ [idk]) }) := by
  have hne : ¬ ("expense" = "trip") := by decide
  induction pre generalizing page with
  | nil =>
    simp only [List.nil_append, bulkDeleteLoop, hne, if_false, hfail,
      deleteExpense_error_state _ _ _ _ (hfail _)]
    simp
  | cons id pre ih =>
    have h1 := hok page.expenseManager id (List.mem_cons_self _ _)
    simp only [List.cons_append, bulkDeleteLoop, hne, if_false, h1,
      deleteExpense_ok_state _ _ _ _ h1]
    refine (ih _ (fun em x hx => hok em x (List.mem_cons_of_mem _ hx))).trans ?_
    simp only [filter_not_mem_cons Expense.id, List.append_assoc, List.cons_append,
      List.nil_append]

/-- C21: when the user confirms a bulk delete of the selection
`pre ++ idk :: post`, the deletions of the ids of `pre` succeed and the
deletion of `idk` fails, the handler has called the deletion for the ids of
`pre` and for `idk`, in that order, and for no id of `post`; the held list is
the previous one without the records whose id is in `pre`, so every other
record is still there; the selection and the other manager are as before; and
the notices shown are the progress notice followed by one error notice. -/
theorem handleBulkDelete_partial_failure (store : DataStore)
    (loadTrips : Except JSError (List Trip)) (loadExpenses : Except JSError (List Expense))
    (page : BulkPage) (pre post : List String) (idk : String) (e : JSError) :
    (page.selectedTrips = pre ++ idk :: post →
      (∀ tm : TripManager, ∀ id ∈ pre, (tm.deleteTrip store id).1 = Except.ok true) →
      (∀ tm : TripManager, (tm.deleteTrip store idk).1 = Except.error e) →
      handleBulkDelete store true loadTrips loadExpenses "trip" page =
        { page with
          tripManager := ⟨page.tripManager.trips.filter fun t => decide (t.id ∉ pre)⟩
          deleteCalls := page.deleteCalls ++ (pre ++ [idk])
          notices := page.notices ++ [⟨"info", "กำลังลบ...", "", 0⟩,
            ⟨"error", "เกิดข้อผิดพลาด", "ไม่สามารถลบได้", 3000⟩] }) ∧
    (page.selectedExpenses = pre ++ idk :: post →
      (∀ em : ExpenseManager, ∀ id ∈ pre, (em.deleteExpense store id).1 = Except.ok true) →
      (∀ em : ExpenseManager, (em.deleteExpense store idk).1 = Except.error e) →
      handleBulkDelete store true loadTrips loadExpenses "expense" page =
        { page with
          expenseManager :=
            ⟨page.expenseManager.expenses.filter fun x => decide (x.id ∉ pre)⟩
          deleteCalls := page.deleteCalls ++ (pre ++ [idk])
          notices := page.notices ++ [⟨"info", "กำลังลบ...", "", 0⟩,
            ⟨"error", "เกิดข้อผิดพลาด", "ไม่สามารถลบได้", 3000⟩] }) := by
  constructor
  · intro hsel hok hfail
    have hlen : ¬ (pre ++ idk :: post).length = 0 := by simp
    simp only [handleBulkDelete, if_true, hsel, hlen, if_false, Bool.not_true,
      bulkDeleteLoop_trip store pre post idk e _ hok hfail]
    simp
  · intro hsel hok hfail
    have hne : ¬ ("expense" = "trip") := by decide
    have hlen : ¬ (pre ++ idk :: post).length = 0 := by simp
    simp only [handleBulkDelete, hne, if_false, hsel, hlen, Bool.not_true,
      bulkDeleteLoop_expense store pre post idk e _ hok hfail]
    simp

/-- Witness of C21: with the three sample trips selected and a store that
refuses to delete `b`, trip `a` is gone, `b` and `c` are held, the deletion
was called for `a` and `b` only, and the notices are the progress notice and
one error notice. -/
theorem handleBulkDelete_partial_failure_witness :
    samplePage.selectedTrips = ["a"] ++ "b" :: ["c"] ∧
    (handleBulkDelete flakyStore true (Except.ok []) (Except.ok []) "trip" samplePage) =
      { samplePage with
        tripManager := ⟨[tripB, tripC]⟩
        deleteCalls := ["a", "b"]
        notices := [⟨"info", "กำลังลบ...", "", 0⟩,
          ⟨"error", "เกิดข้อผิดพลาด", "ไม่สามารถลบได้", 3000⟩] } :=
  ⟨rfl, ((handleBulkDelete_partial_failure flakyStore (Except.ok []) (Except.ok [])
    samplePage ["a"] ["c"] "b" ⟨"unavailable"⟩).1 rfl
      (fun _ id hid => by
        rw [List.mem_singleton] at hid
        subst hid
        rfl)
      (fun _ => rfl)).trans (by decide)⟩

/-! ## HTML escaping -/

/-- Passing over `n` characters and replacing entities from there. -/
theorem unescapeFrom_drop (n : Nat) (l : List Char) :
    unescapeFrom n l = unescapeFrom 0 (l.drop n) := by
  induction n generalizing l with
  | zero => rfl
  | succ n ih =>
    cases l with
    | nil => rfl
    | cons c rest => rw [unescapeFrom, ih, List.drop_succ_cons]

/-- Replacing back undoes the replacement of one character. -/
theorem unescapeFrom_escape (c : Char) (rest : List Char) :
    unescapeFrom 0 (htmlEscapeMap c ++ rest) = c :: unescapeFrom 0 rest := by
  unfold htmlEscapeMap
  by_cases h1 : c = '&'
  · subst h1
    simp [unescapeFrom, unescapeFrom_drop 4]
  by_cases h2 : c = '<'
  · subst h2
    simp [unescapeFrom, unescapeFrom_drop 3]
  by_cases h3 : c = '>'
  · subst h3
    simp [unescapeFrom, unescapeFrom_drop 3]
  by_cases h4 : c = doubleQuote
  · subst h4
    simp [unescapeFrom, unescapeFrom_drop 5, doubleQuote]
  by_cases h5 : c = singleQuote
  · subst h5
    simp [unescapeFrom, unescapeFrom_drop 5, singleQuote, doubleQuote]
  simp [h1, h2, h3, h4, h5, unescapeFrom]

/-- Replacing the entities back recovers the text. -/
theorem unescapeHtml_escapeHtml (s : String) :
    unescapeHtml (InputValidator.escapeHtml s) = s := by
  obtain ⟨l⟩ := s
  unfold unescapeHtml InputValidator.escapeHtml
  congr 1
  show unescapeFrom 0 (l.flatMap htmlEscapeMap) = l
  induction l with
  | nil => rfl
  | cons c l ih => rw [List.flatMap_cons, unescapeFrom_escape, ih]

/-- No character of the escaped text is `<`, `>`, `"` or `'`. -/
theorem escapeHtml_no_special (s : String) (c : Char)
    (hc : c ∈ (InputValidator.escapeHtml s).data) :
    c ≠ '<' ∧ c ≠ '>' ∧ c ≠ doubleQuote ∧ c ≠ singleQuote := by
  unfold InputValidator.escapeHtml at hc
  obtain ⟨m, _, hm⟩ := List.mem_flatMap.mp hc
  unfold htmlEscapeMap at hm
  split_ifs at hm with h1 h2 h3 h4 h5
  · have : c ∈ ['&', 'a', 'm', 'p', ';'] := hm
    simp only [List.mem_cons, List.mem_singleton, List.not_mem_nil, or_false] at this
    rcases this with h | h | h | h | h <;> subst h <;> decide
  · have : c ∈ ['&', 'l', 't', ';'] := hm
    simp only [List.mem_cons, List.mem_singleton, List.not_mem_nil, or_false] at this
    rcases this with h | h | h | h <;> subst h <;> decide
  · have : c ∈ ['&', 'g', 't', ';'] := hm
    simp only [List.mem_cons, List.mem_singleton, List.not_mem_nil, or_false] at this
    rcases this with h | h | h | h <;> subst h <;> decide
  · have : c ∈ ['&', 'q', 'u', 'o', 't', ';'] := hm
    simp only [List.mem_cons, List.mem_singleton, List.not_mem_nil, or_false] at this
    rcases this with h | h | h | h | h | h <;> subst h <;> decide
  · have : c ∈ ['&', '#', '0', '3', '9', ';'] := hm
    simp only [List.mem_cons, List.mem_singleton, List.not_mem_nil, or_false] at this
    rcases this with h | h | h | h | h | h <;> subst h <;> decide
  · rw [List.mem_singleton] at hm
    subst hm
    exact ⟨h2, h3, h4, h5⟩

/-- Every `&` of the escaped text begins one of the five entities. -/
theorem escapeHtml_ampersand (l : List Char) (post : List Char)
    (h : ('&' :: post) <:+ l.flatMap htmlEscapeMap) :
    ∃ ent ∈ htmlEntities, ent <+: '&' :: post := by
  induction l with
  | nil => simp at h
  | cons c l ih =>
    rw [List.flatMap_cons] at h
    unfold htmlEscapeMap at h
    split_ifs at h with h1 h2 h3 h4 h5
    · have h : ('&' :: post) <:+ '&' :: 'a' :: 'm' :: 'p' :: ';' :: l.flatMap htmlEscapeMap := h
      simp only [List.suffix_cons_iff] at h
      rcases h with h | h | h | h | h | h
      · exact ⟨"&amp;".data, by simp [htmlEntities], by rw [h]; exact ⟨_, rfl⟩⟩
      · simp at h
      · simp at h
      · simp at h
      · simp at h
      · exact ih h
    · have h : ('&' :: post) <:+ '&' :: 'l' :: 't' :: ';' :: l.flatMap htmlEscapeMap := h
      simp only [List.suffix_cons_iff] at h
      rcases h with h | h | h | h | h
      · exact ⟨"&lt;".data, by simp [htmlEntities], by rw [h]; exact ⟨_, rfl⟩⟩
      · simp at h
      · simp at h
      · simp at h
      · exact ih h
    · have h : ('&' :: post) <:+ '&' :: 'g' :: 't' :: ';' :: l.flatMap htmlEscapeMap := h
      simp only [List.suffix_cons_iff] at h
      rcases h with h | h | h | h | h
      · exact ⟨"&gt;".data, by simp [htmlEntities], by rw [h]; exact ⟨_, rfl⟩⟩
      · simp at h
      · simp at h
      · simp at h
      · exact ih h
    · have h : ('&' :: post) <:+
          '&' :: 'q' :: 'u' :: 'o' :: 't' :: ';' :: l.flatMap htmlEscapeMap := h
      simp only [List.suffix_cons_iff] at h
      rcases h with h | h | h | h | h | h | h
      · exact ⟨"&quot;".data, by simp [htmlEntities], by rw [h]; exact ⟨_, rfl⟩⟩
      · simp at h
      · simp at h
      · simp at h
      · simp at h
      · simp at h
      · exact ih h
    · have h : ('&' :: post) <:+
          '&' :: '#' :: '0' :: '3' :: '9' :: ';' :: l.flatMap htmlEscapeMap := h
      simp only [List.suffix_cons_iff] at h
      rcases h with h | h | h | h | h | h | h
      · exact ⟨"&#039;".data, by simp [htmlEntities], by rw [h]; exact ⟨_, rfl⟩⟩
      · simp at h
      · simp at h
      · simp at h
      · simp at h
      · simp at h
      · exact ih h
    · have h : ('&' :: post) <:+ c :: l.flatMap htmlEscapeMap := h
      rw [List.suffix_cons_iff] at h
      rcases h with h | h
      · exact absurd (List.cons.inj h).1.symm h1
      · exact ih h

/-- C26: for every string `s`, no character of `InputValidator.escapeHtml(s)`
is `<`, `>`, `"` or `'`; wherever a `&` stands in it, one of the entities
`&amp;` `&lt;` `&gt;` `&quot;` `&#039;` begins there; replacing the entities
back gives `s`, so the mapping is injective; and the `escapeHtml` of the
notification manager returns the same text. -/
theorem escapeHtml_safe (manager : NotificationManager) (s : String) :
    (∀ c ∈ (InputValidator.escapeHtml s).data,
      c ≠ '<' ∧ c ≠ '>' ∧ c ≠ doubleQuote ∧ c ≠ singleQuote) ∧
    (∀ before after : List Char,
      (InputValidator.escapeHtml s).data = before ++ '&' :: after →
      ∃ ent ∈ htmlEntities, ent <+: '&' :: after) ∧
    unescapeHtml (InputValidator.escapeHtml s) = s ∧
    Function.Injective InputValidator.escapeHtml ∧
    manager.escapeHtml s = InputValidator.escapeHtml s := by
  refine ⟨escapeHtml_no_special s, ?_, unescapeHtml_escapeHtml s, ?_, rfl⟩
  · intro before after h
    exact escapeHtml_ampersand s.data after ⟨before, h.symm⟩
  · intro x y hxy
    rw [← unescapeHtml_escapeHtml x, ← unescapeHtml_escapeHtml y, hxy]

/-- Instance of C26: a text with the five characters, and a text that already
holds an entity. -/
theorem escapeHtml_example :
    InputValidator.escapeHtml "<b>Tom & 'Jerry'</b>" =
      "&lt;b&gt;Tom &amp; &#039;Jerry&#039;&lt;/b&gt;" ∧
    InputValidator.escapeHtml ⟨[doubleQuote]⟩ = "&quot;" ∧
    InputValidator.escapeHtml "&lt;" = "&amp;lt;" ∧
    unescapeHtml "&amp;lt;" = "&lt;" := by
  decide

/-! ## RateLimiter -/

/-- The first call of a sequence and the calls after it. -/
theorem RateLimiter.run_cons (self : RateLimiter) (now : Int) (identifier : String)
    (rest : List (Int × String)) :
    (self.run ((now, identifier) :: rest)).1 =
      ⟨now, identifier, (self.checkLimit now identifier).1⟩ ::
        ((self.checkLimit now identifier).2.run rest).1 := rfl

/-- A call keeps the two constructor arguments. -/
theorem RateLimiter.checkLimit_settings (self : RateLimiter) (now : Int) (identifier : String) :
    (self.checkLimit now identifier).2.maxAttempts = self.maxAttempts ∧
    (self.checkLimit now identifier).2.windowMs = self.windowMs := by
  unfold RateLimiter.checkLimit
  dsimp only
  split_ifs <;> exact ⟨rfl, rfl⟩

/-- A call for one identifier leaves the attempts kept for another one. -/
theorem RateLimiter.checkLimit_other (self : RateLimiter) (now : Int) (identifier other : String)
    (h : other ≠ identifier) :
    (self.checkLimit now identifier).2.attempts other = self.attempts other := by
  unfold RateLimiter.checkLimit
  dsimp only
  split_ifs
  · rfl
  · simp only [h, if_false]

/-- A call that finds `maxAttempts` attempts in the window is denied and
changes nothing. -/
theorem RateLimiter.checkLimit_denied (self : RateLimiter) (now : Int) (identifier : String)
    (h : (((self.attempts identifier).getD []).filter fun timestamp =>
      decide (now - timestamp < self.windowMs)).length ≥ self.maxAttempts) :
    (self.checkLimit now identifier).1.allowed = false ∧
    (self.checkLimit now identifier).2 = self := by
  unfold RateLimiter.checkLimit
  dsimp only
  rw [if_pos h]
  exact ⟨rfl, rfl⟩

/-- A call that finds fewer attempts in the window is allowed and keeps these
attempts followed by the clock value. -/
theorem RateLimiter.checkLimit_allowed (self : RateLimiter) (now : Int) (identifier : String)
    (h : ¬ (((self.attempts identifier).getD []).filter fun timestamp =>
      decide (now - timestamp < self.windowMs)).length ≥ self.maxAttempts) :
    (self.checkLimit now identifier).1.allowed = true ∧
    (self.checkLimit now identifier).2.attempts identifier =
      some ((((self.attempts identifier).getD []).filter fun timestamp =>
        decide (now - timestamp < self.windowMs)) ++ [now]) := by
  unfold RateLimiter.checkLimit
  dsimp only
  rw [if_neg h]
  exact ⟨rfl, if_pos rfl⟩

/-- Every recorded call is one of the calls made. -/
theorem RateLimiter.run_mem (calls : List (Int × String)) (self : RateLimiter) :
    ∀ c ∈ (self.run calls).1, (c.now, c.identifier) ∈ calls := by
  induction calls generalizing self with
  | nil => intro c hc; cases hc
  | cons x calls ih =>
    obtain ⟨now, identifier⟩ := x
    intro c hc
    rw [RateLimiter.run_cons, List.mem_cons] at hc
    rcases hc with hc | hc
    · subst hc
      exact List.mem_cons_self _ _
    · exact List.mem_cons_of_mem _ (ih _ c hc)

/-- The attempts kept for `identifier` that are not before `a`, together with
the allowed calls of `identifier` whose clock value lies in the span of length
`windowMs` beginning at `a`, are at most `maxAttempts` unless the kept
attempts alone are more. -/
theorem RateLimiter.window_count (identifier : String) (a windowMs : Int) (maxAttempts : Nat)
    (calls : List (Int × String)) :
    ∀ self : RateLimiter, self.windowMs = windowMs → self.maxAttempts = maxAttempts →
      calls.Pairwise (fun x y => x.1 ≤ y.1) →
      ((((self.attempts identifier).getD []).filter fun t => decide (a ≤ t)).length +
        ((self.run calls).1.filter fun c => decide (c.identifier = identifier ∧
          c.result.allowed = true ∧ a ≤ c.now ∧ c.now < a + windowMs)).length ≤
        max maxAttempts
          (((self.attempts identifier).getD []).filter fun t => decide (a ≤ t)).length) := by
  induction calls with
  | nil =>
    intro self _ _ _
    simp [RateLimiter.run]
  | cons x calls ih =>
    obtain ⟨now, id⟩ := x
    intro self hWs hMs hsorted
    obtain ⟨hfirst, hrest⟩ := List.pairwise_cons.mp hsorted
    obtain ⟨hM2, hW2⟩ := self.checkLimit_settings now id
    have hih := ih (self.checkLimit now id).2 (hW2.trans hWs) (hM2.trans hMs) hrest
    rw [RateLimiter.run_cons, List.filter_cons]
    by_cases hfull : (((self.attempts id).getD []).filter fun timestamp =>
        decide (now - timestamp < self.windowMs)).length ≥ self.maxAttempts
    · obtain ⟨hal, hst⟩ := self.checkLimit_denied now id hfull
      rw [hst] at hih
      simp only [hal, hst, Bool.false_eq_true, false_and, and_false, decide_False, if_false]
      exact hih
    · obtain ⟨hal, hst⟩ := self.checkLimit_allowed now id hfull
      by_cases hid : id = identifier
      · subst hid
        by_cases hhi : now < a + windowMs
        · have hkeep : ((((self.attempts id).getD []).filter fun timestamp =>
              decide (now - timestamp < self.windowMs)).filter fun t => decide (a ≤ t)) =
              ((self.attempts id).getD []).filter fun t => decide (a ≤ t) := by
            rw [List.filter_filter]
            apply List.filter_congr
            intro t _
            rw [Bool.eq_iff_iff]
            simp only [Bool.and_eq_true, decide_eq_true_eq, hWs]
            constructor
            · exact fun h => h.1
            · exact fun h => ⟨h, by omega⟩
          have hlen : (((self.attempts id).getD []).filter fun t => decide (a ≤ t)).length ≤
              (((self.attempts id).getD []).filter fun timestamp =>
                decide (now - timestamp < self.windowMs)).length := by
            rw [← hkeep]
            exact List.length_filter_le _ _
          rw [hst, Option.getD_some, List.filter_append, hkeep] at hih
          by_cases hlo : a ≤ now
          · simp only [hal, hlo, hhi, and_self, decide_True, if_true, List.length_cons]
            simp only [List.filter_cons, List.filter_nil, hlo, decide_True, if_true,
              List.length_append, List.length_singleton] at hih
            omega
          · simp only [hal, hlo, hhi, false_and, and_false, decide_False, if_false,
              Bool.false_eq_true]
            simp only [List.filter_cons, List.filter_nil, hlo, decide_False, if_false,
              Bool.false_eq_true, List.append_nil] at hih
            exact hih
        · have hzero : (((self.checkLimit now id).2.run calls).1.filter fun c =>
              decide (c.identifier = id ∧ c.result.allowed = true ∧ a ≤ c.now ∧
                c.now < a + windowMs)) = [] := by
            rw [List.filter_eq_nil_iff]
            intro c hc
            have := hfirst _ (RateLimiter.run_mem calls _ c hc)
            simp only [decide_eq_true_eq, not_and, not_lt]
            intro _ _ _
            have : now ≤ c.now := this
            omega
          simp only [hhi, and_false, decide_False, if_false, Bool.false_eq_true, hzero,
            List.length_nil, add_zero]
          exact le_max_right _ _
      · rw [self.checkLimit_other now id identifier (Ne.symm hid)] at hih
        simp only [hid, false_and, decide_False, if_false, Bool.false_eq_true]
        exact hih

/-- Calls that all lie within one window of each other and of the attempts
kept for `identifier`: the calls of `identifier` are allowed until `maxAttempts`
attempts are kept and denied from then on. -/
theorem RateLimiter.burst_flags (identifier : String) (windowMs : Int) (maxAttempts : Nat)
    (calls : List (Int × String)) :
    ∀ self : RateLimiter, self.windowMs = windowMs → self.maxAttempts = maxAttempts →
      (∀ t ∈ (self.attempts identifier).getD [], ∀ x ∈ calls, x.2 = identifier →
        x.1 - t < windowMs) →
      (∀ x ∈ calls, ∀ y ∈ calls, x.2 = identifier → y.2 = identifier →
        y.1 - x.1 < windowMs) →
      (((self.run calls).1.filter fun c => decide (c.identifier = identifier)).map
          fun c => c.result.allowed) =
        List.replicate (min (maxAttempts - ((self.attempts identifier).getD []).length)
          (calls.filter fun x => decide (x.2 = identifier)).length) true ++
        List.replicate ((calls.filter fun x => decide (x.2 = identifier)).length -
          (maxAttempts - ((self.attempts identifier).getD []).length)) false := by
  induction calls with
  | nil =>
    intro self _ _ _ _
    simp [RateLimiter.run]
  | cons x calls ih =>
    obtain ⟨now, id⟩ := x
    intro self hWs hMs hkept hpair
    obtain ⟨hM2, hW2⟩ := self.checkLimit_settings now id
    have hpair2 : ∀ x ∈ calls, ∀ y ∈ calls, x.2 = identifier → y.2 = identifier →
        y.1 - x.1 < windowMs := fun x hx y hy =>
      hpair x (List.mem_cons_of_mem _ hx) y (List.mem_cons_of_mem _ hy)
    have hkept2 : ∀ t ∈ (self.attempts identifier).getD [], ∀ x ∈ calls, x.2 = identifier →
        x.1 - t < windowMs := fun t ht x hx => hkept t ht x (List.mem_cons_of_mem _ hx)
    rw [RateLimiter.run_cons, List.filter_cons, List.filter_cons]
    by_cases hid : id = identifier
    · subst hid
      have hall : (((self.attempts id).getD []).filter fun timestamp =>
          decide (now - timestamp < self.windowMs)) = (self.attempts id).getD [] := by
        rw [List.filter_eq_self]
        intro t ht
        rw [hWs]
        exact decide_eq_true (hkept t ht (now, id) (List.mem_cons_self _ _) rfl)
      simp only [decide_True, if_true, List.map_cons, List.length_cons]
      by_cases hfull : (((self.attempts id).getD []).filter fun timestamp =>
          decide (now - timestamp < self.windowMs)).length ≥ self.maxAttempts
      · obtain ⟨hal, hst⟩ := self.checkLimit_denied now id hfull
        have hih := ih (self.checkLimit now id).2 (hW2.trans hWs) (hM2.trans hMs)
          (by rw [hst]; exact hkept2) hpair2
        rw [hst] at hih
        rw [hall, hMs] at hfull
        have hz : maxAttempts - ((self.attempts id).getD []).length = 0 := by omega
        rw [hz] at hih ⊢
        rw [hst, hih, hal]
        simp [List.replicate_succ]
      · obtain ⟨hal, hst⟩ := self.checkLimit_allowed now id hfull
        rw [hall] at hst
        have hih := ih (self.checkLimit now id).2 (hW2.trans hWs) (hM2.trans hMs)
          (by
            rw [hst, Option.getD_some]
            intro t ht x hx hxid
            rw [List.mem_append, List.mem_singleton] at ht
            rcases ht with ht | ht
            · exact hkept2 t ht x hx hxid
            · subst ht
              exact hpair (t, id) (List.mem_cons_self _ _) x (List.mem_cons_of_mem _ hx)
                rfl hxid) hpair2
        rw [hst, Option.getD_some, List.length_append, List.length_singleton] at hih
        rw [hall, hMs] at hfull
        obtain ⟨k, hk⟩ : ∃ k, maxAttempts - ((self.attempts id).getD []).length = k + 1 :=
          ⟨maxAttempts - ((self.attempts id).getD []).length - 1, by omega⟩
        have hk2 : maxAttempts - (((self.attempts id).getD []).length + 1) = k := by omega
        rw [hk2] at hih
        rw [hk, hih, hal, Nat.succ_min_succ, Nat.succ_sub_succ, List.replicate_succ,
          List.cons_append]
    · have hne : ¬ (now, id).2 = identifier := hid
      simp only [hid, hne, decide_False, if_false, Bool.false_eq_true]
      have hih := ih (self.checkLimit now id).2 (hW2.trans hWs) (hM2.trans hMs)
          (by rw [self.checkLimit_other now id identifier (Ne.symm hid)]; exact hkept2) hpair2
      rw [self.checkLimit_other now id identifier (Ne.symm hid)] at hih
      exact hih

/-- C24: from a fresh limiter, for every identifier and every sequence of
`checkLimit` calls with non-decreasing clock values, at most `maxAttempts` of
the calls of the identifier whose clock value lies in a span of length
`windowMs` (from `a` up to, not including, `a + windowMs`) return
`allowed: true`; and when the calls of the identifier are `maxAttempts + 1` in
number and any two of them are less than `windowMs` apart, the first
`maxAttempts` of them return `allowed: true` and the last returns
`allowed: false`. -/
theorem checkLimit_window_bound (maxAttempts : Nat) (windowMs : Int)
    (calls : List (Int × String)) (identifier : String) (a : Int) :
    (calls.Pairwise (fun x y => x.1 ≤ y.1) →
      (((RateLimiter.new maxAttempts windowMs).run calls).1.filter fun c =>
        decide (c.identifier = identifier ∧ c.result.allowed = true ∧ a ≤ c.now ∧
          c.now < a + windowMs)).length ≤ maxAttempts) ∧
    ((calls.filter fun x => decide (x.2 = identifier)).length = maxAttempts + 1 →
      (∀ x ∈ calls, ∀ y ∈ calls, x.2 = identifier → y.2 = identifier →
        y.1 - x.1 < windowMs) →
      ((((RateLimiter.new maxAttempts windowMs).run calls).1.filter fun c =>
        decide (c.identifier = identifier)).map fun c => c.result.allowed) =
        List.replicate maxAttempts true ++ [false]) := by
  constructor
  · intro hsorted
    have h := RateLimiter.window_count identifier a windowMs maxAttempts calls
      (RateLimiter.new maxAttempts windowMs) rfl rfl hsorted
    simpa [RateLimiter.new] using h
  · intro hlen hpair
    have h := RateLimiter.burst_flags identifier windowMs maxAttempts calls
      (RateLimiter.new maxAttempts windowMs) rfl rfl
      (by intro t ht; simp [RateLimiter.new] at ht) hpair
    rw [h, hlen]
    simp [RateLimiter.new]

/-- Witness of C24 on the login limiter (5 attempts per 900000 ms): at most
five of the calls of `ann` with a clock value from 0 up to 899999 are allowed,
and of her first six calls, all within one window, the first five are
allowed and the sixth is denied. -/
theorem checkLimit_window_bound_witness :
    loginCalls.Pairwise (fun x y => x.1 ≤ y.1) ∧
    ((loginRateLimiter.run loginCalls).1.filter fun c =>
      decide (c.identifier = "ann" ∧ c.result.allowed = true ∧ 0 ≤ c.now ∧
        c.now < 0 + 900000)).length ≤ 5 ∧
    ((loginCalls.take 7).filter fun x => decide (x.2 = "ann")).length = 5 + 1 ∧
    (((loginRateLimiter.run (loginCalls.take 7)).1.filter fun c =>
      decide (c.identifier = "ann")).map fun c => c.result.allowed) =
      List.replicate 5 true ++ [false] :=
  ⟨by decide, (checkLimit_window_bound 5 900000 loginCalls "ann" 0).1 (by decide),
    by decide,
    (checkLimit_window_bound 5 900000 (loginCalls.take 7) "ann" 0).2 (by decide)
      (by decide)⟩

/-- Instance of C24: of the calls of `ann` the first five are allowed, the
sixth and the seventh, still within the window of the first, are denied, and
the call at 900000, when the attempt at 0 has left the window, is allowed. -/
theorem checkLimit_sequence_example :
    (((loginRateLimiter.run loginCalls).1.filter fun c =>
      decide (c.identifier = "ann")).map fun c => c.result.allowed) =
      [true, true, true, true, true, false, false, true] ∧
    ((loginRateLimiter.run loginCalls).1.filter fun c =>
      decide (c.identifier = "ann" ∧ c.result.allowed = true ∧ 1000 ≤ c.now ∧
        c.now < 1000 + 900000)).length = 5 := by
  decide

end PaiTeaw
